import Mathlib

/-!
# Solitaire (sol.c): a shallow embedding and its checked properties

The program solves the 33-hole cross peg solitaire by a three-phase
meet-in-the-middle depth-first search.  This file embeds the parts of
`sol.c` that the checked properties talk about:

* `STATE`, `UPDATE` and the constants of the source;
* `rotate_state` (byte-level rotation and canonical rotation);
* the double-hashing macros `HASH_1`, `HASH_2`, `DOUBLE_HASH`;
* `hash_add` and `hash_search` over an explicit table;
* `initialize_entry` and `initialize_table`;
* the tests and the assignment with which `solve_sub` / `solve_pin`
  build a successor state, and the successors their loops enumerate;
* `solve`, `solve_sub`, `solve_pin`, `check_phase2_result` and
  `check_phase3_result` over explicit globals.

Machine integers are natural numbers; the width of a C type shows up as an
explicit reduction modulo `2 ^ 32` or `2 ^ 16` at the place where the C
operation can wrap.  `unsigned char` access to the bytes of an `unsigned int`
is modelled least-significant byte first (a little-endian host).
-/

namespace Solitaire

/-! ## Constants -/

abbrev BOARD : Nat := 33
abbrev PINS : Nat := 32
abbrev SL : Nat := PINS
abbrev PINS_LEFT : Nat := 21
abbrev PRIME_1 : Nat := 1499683
abbrev PRIME_2 : Nat := 1499681
abbrev HASH_SIZ : Nat := PRIME_1

/-- Number of values of a C `unsigned int` (32 bits). -/
abbrev UINT : Nat := 4294967296

/-- Number of values of a C `unsigned short` (16 bits). -/
abbrev USHORT : Nat := 65536

/-! ## Types -/

/-- The `STATE` struct: `unsigned int id; unsigned short slack, pins`. -/
structure STATE where
  id : Nat
  slack : Nat
  pins : Nat
deriving DecidableEq, Repr

/-- The `UPDATE` struct, one entry of `table`. -/
structure UPDATE where
  allowed : Nat
  rank : Nat
  next_id : Nat
  mask_id : Nat
  next_slack : Nat
  mask_slack : Nat
deriving DecidableEq, Repr

/-- The global `start_state = { 0xffffffff, 0, PINS }`. -/
def start_state : STATE := ⟨0xffffffff, 0, PINS⟩

/-- The global `final_state = { 0x00000000, 1, 1 }`. -/
def final_state : STATE := ⟨0x00000000, 1, 1⟩

/-! ## rotate_state -/

/-- The byte `((unsigned char*)&x)[k]` of a 32-bit word, least significant
byte first. -/
def byteAt (x k : Nat) : Nat := x / 256 ^ k % 256

/-- The 32-bit word whose bytes, least significant first, are `b0 b1 b2 b3`
(what `rot[0]=b0; rot[1]=b1; rot[2]=b2; rot[3]=b3` leaves in `rotate_id`). -/
def ofBytes (b0 b1 b2 b3 : Nat) : Nat :=
  b0 + 256 * b1 + 65536 * b2 + 16777216 * b3

/-- The function `rotate_state(actual_p, rotate_p, rotate_count)`: the pair of
the returned `rotated` and the state written to `*rotate_p`. -/
def rotate_state (actual : STATE) (rotate_count : Int) : Int × STATE :=
  let act : Nat → Nat := fun k => byteAt actual.id k
  let rotate_p : STATE := actual
  let rotated : Int := 0
  if rotate_count = -1 then
    let rotate_id := ofBytes (act 3) (act 0) (act 1) (act 2)
    let (rotated, rotate_p) :=
      if rotate_id > rotate_p.id then
        ((1 : Int), { rotate_p with id := rotate_id })
      else (rotated, rotate_p)
    let rotate_id := ofBytes (act 2) (act 3) (act 0) (act 1)
    let (rotated, rotate_p) :=
      if rotate_id > rotate_p.id then
        ((2 : Int), { rotate_p with id := rotate_id })
      else (rotated, rotate_p)
    let rotate_id := ofBytes (act 1) (act 2) (act 3) (act 0)
    let (rotated, rotate_p) :=
      if rotate_id > rotate_p.id then
        ((3 : Int), { rotate_p with id := rotate_id })
      else (rotated, rotate_p)
    (rotated, rotate_p)
  else
    let (rotated, rotate_p) :=
      if rotate_count = 1 then
        ((1 : Int), { rotate_p with id := ofBytes (act 3) (act 0) (act 1) (act 2) })
      else (rotated, rotate_p)
    let (rotated, rotate_p) :=
      if rotate_count = 2 then
        ((2 : Int), { rotate_p with id := ofBytes (act 2) (act 3) (act 0) (act 1) })
      else (rotated, rotate_p)
    let (rotated, rotate_p) :=
      if rotate_count = 3 then
        ((3 : Int), { rotate_p with id := ofBytes (act 1) (act 2) (act 3) (act 0) })
      else (rotated, rotate_p)
    (rotated, rotate_p)

/-- The state `rotate_state` writes for a given rotation count (`rotate(S,k)`
for `k` in `0..3`, the canonical form for `k = -1`). -/
def rotate (s : STATE) (k : Int) : STATE := (rotate_state s k).2

/-- One clockwise quarter turn of an id: the byte assignment
`rot[0]=act[3]; rot[1]=act[0]; rot[2]=act[1]; rot[3]=act[2]` of
`rotate_state`. -/
def rotId (x : Nat) : Nat :=
  ofBytes (byteAt x 3) (byteAt x 0) (byteAt x 1) (byteAt x 2)

/-- A 32-bit word rotated left by 8 bits, written with shifts. -/
def rotl8 (x : Nat) : Nat := (x <<< 8) % UINT ||| x >>> 24

/-- The hole onto which a clockwise quarter turn carries hole `p`: holes
`0..31` advance by 8 modulo 32, the slack hole `32` is the centre and stays. -/
def rho (p : Nat) : Nat := if p < 32 then (p + 8) % 32 else 32

/-- Number of set bits among the bits `0 .. n-1` of `x`. -/
def bitsBelow (x : Nat) : Nat → Nat
  | 0 => 0
  | n + 1 => bitsBelow x n + (if x.testBit n then 1 else 0)

/-- Number of set bits of a 32-bit id. -/
def popcount (x : Nat) : Nat := bitsBelow x 32

/-! ## Double hashing -/

/-- The macro `HASH_1(k) = (k) % PRIME_1`. -/
def HASH_1 (k : Nat) : Nat := k % PRIME_1

/-- The macro `HASH_2(k) = (unsigned int)1 + (k) % PRIME_2`, in `unsigned int`. -/
def HASH_2 (k : Nat) : Nat := (1 + k % PRIME_2) % UINT

/-- The macro `DOUBLE_HASH(k,i) = HASH_1(HASH_1(k) + (i) * HASH_2(k))` as C
evaluates it on `unsigned int k` and `int i`: `i` is converted to
`unsigned int`, the product and the sum wrap modulo `2 ^ 32`. -/
def DOUBLE_HASH (k i : Nat) : Nat :=
  HASH_1 ((HASH_1 k + (i % UINT * HASH_2 k) % UINT) % UINT)

/-- The probe index written with exact integers, as the specification gives
it: `(h1(id) + i * h2(id)) mod P1`. -/
def probe_exact (k i : Nat) : Nat :=
  (k % PRIME_1 + i * (1 + k % PRIME_2)) % PRIME_1

/-! ## The hash table -/

/-- The global array `hash[HASH_SIZ]`, as a map from slot index to the stored
state.  Only the slots `0 .. HASH_SIZ-1` are ever addressed. -/
abbrev HashTable : Type := Nat → STATE

/-- The table `hash_init` leaves: every slot all zero.  (The statistics
counters that `hash_init` also resets only feed `printf`; they influence
neither a return value nor a slot and are not modelled.) -/
def hash_init : HashTable := fun _ => ⟨0, 0, 0⟩

/-- The `for (i = ...; i < HASH_SIZ; i++)` loop of `hash_add`, entered with
`todo` iterations left at index `i`; the result is `ret_val` and the table. -/
def hash_add_loop (rotate : STATE) (hash : HashTable) : Nat → Nat → Int × HashTable
  | 0, _ => (-1, hash)
  | todo + 1, i =>
    let entry := DOUBLE_HASH rotate.id i
    if (hash entry).id = 0 then
      (0, Function.update hash entry rotate)
    else if (hash entry).id = rotate.id ∧
        (hash entry).slack &&& 1 = rotate.slack &&& 1 then
      (1, hash)
    else hash_add_loop rotate hash todo (i + 1)

/-- The function `hash_add(actual_p)`: 0 if added, 1 if already in the table,
-1 if the table is full; together with the table afterwards. -/
def hash_add (hash : HashTable) (actual : STATE) : Int × HashTable :=
  hash_add_loop (rotate_state actual (-1)).2 hash HASH_SIZ 0

/-- The loop of `hash_search`, with `todo` iterations left at index `i`. -/
def hash_search_loop (rotate : STATE) (hash : HashTable) : Nat → Nat → Int
  | 0, _ => -1
  | todo + 1, i =>
    let entry := DOUBLE_HASH rotate.id i
    if (hash entry).id = 0 then -1
    else if (hash entry).id = rotate.id ∧
        (hash entry).slack &&& 1 = rotate.slack &&& 1 then
      0
    else hash_search_loop rotate hash todo (i + 1)

/-- The function `hash_search(actual_p)`: 0 if found, -1 if not. -/
def hash_search (hash : HashTable) (actual : STATE) : Int :=
  hash_search_loop (rotate_state actual (-1)).2 hash HASH_SIZ 0

/-- A table content with one empty slot: slot 0 is empty and every other slot
holds the start state. -/
def full_but_one : HashTable := fun e => if e = 0 then ⟨0, 0, 0⟩ else start_state

/-! ## The move table -/

/-- The contribution of hole `n` to an id mask: `(n == SL) ? 0 : (1 << n)`. -/
def id_bit (n : Int) : Nat := if n = SL then 0 else (1 <<< n.toNat) % UINT

/-- The contribution of hole `n` to a slack mask: `((n == SL) ? 1 : 0) & 1`. -/
def slack_bit (n : Int) : Nat := (if n = SL then 1 else 0) &&& 1

/-- The static array `table[BOARD * 4]` before `initialize_table`: all zero. -/
def table_zero : List UPDATE := List.replicate (BOARD * 4) ⟨0, 0, 0, 0, 0, 0⟩

/-- The function `initialize_entry(pinh, idx, next, nxt2)` acting on the
table. -/
def initialize_entry (table : List UPDATE) (pinh idx next nxt2 : Int) : List UPDATE :=
  let k := (4 * pinh + idx).toNat
  let e := table.getD k ⟨0, 0, 0, 0, 0, 0⟩
  if next = -1 ∨ nxt2 = -1 then
    table.set k { e with allowed := 0 }
  else
    let next_id := id_bit next
    let next_slack := slack_bit next
    let next_id := next_id ||| id_bit nxt2
    let next_slack := next_slack ||| slack_bit nxt2
    let mask_id := id_bit pinh
    let mask_slack := slack_bit pinh
    let mask_id := mask_id ||| next_id
    let mask_slack := mask_slack ||| (next_slack &&& 1)
    table.set k
      { allowed := 1, rank := (4 * pinh + idx).toNat, next_id := next_id,
        mask_id := mask_id, next_slack := next_slack, mask_slack := mask_slack }

/-- The array `arr[121]` of `initialize_table`: the 33 holes laid out in an
11 x 11 grid, `-1` outside the board. -/
def arr : List Int :=
  [ -1, -1, -1, -1, -1, -1, -1, -1, -1, -1, -1,
    -1, -1, -1, -1, -1, -1, -1, -1, -1, -1, -1,
    -1, -1, -1, -1,  0,  1,  2, -1, -1, -1, -1,
    -1, -1, -1, -1,  3,  4,  5, -1, -1, -1, -1,
    -1, -1, 26, 29,  6,  7, 14, 11,  8, -1, -1,
    -1, -1, 25, 28, 31, Int.ofNat SL, 15, 12,  9, -1, -1,
    -1, -1, 24, 27, 30, 23, 22, 13, 10, -1, -1,
    -1, -1, -1, -1, 21, 20, 19, -1, -1, -1, -1,
    -1, -1, -1, -1, 18, 17, 16, -1, -1, -1, -1,
    -1, -1, -1, -1, -1, -1, -1, -1, -1, -1, -1,
    -1, -1, -1, -1, -1, -1, -1, -1, -1, -1, -1 ]

/-- The element `arr[i]`. -/
def arrAt (i : Nat) : Int := arr.getD i (-1)

/-- The function `initialize_table`: the table after the loop over `arr`. -/
def initialize_table : List UPDATE :=
  (List.range 121).foldl
    (fun table i =>
      if arrAt i ≠ -1 then
        let table := initialize_entry table (arrAt i) 0 (arrAt (i - 11)) (arrAt (i - 22))
        let table := initialize_entry table (arrAt i) 1 (arrAt (i + 1)) (arrAt (i + 2))
        let table := initialize_entry table (arrAt i) 2 (arrAt (i + 11)) (arrAt (i + 22))
        let table := initialize_entry table (arrAt i) 3 (arrAt (i - 1)) (arrAt (i - 2))
        table
      else table)
    table_zero

/-- The global `table` as the search sees it, after `initialize_table`. -/
def table : List UPDATE := initialize_table

/-- The entry `table[k]`. -/
def tableAt (k : Nat) : UPDATE := table.getD k ⟨0, 0, 0, 0, 0, 0⟩

/-! ## The board, from its shape -/

/-- The cross-shaped board of 33 holes, spelled out from its shape alone: cell
`(r, c)` of a 7 x 7 square is a hole when it lies in one of the three middle
rows or in one of the three middle columns. -/
def on_cross (r c : Int) : Bool :=
  decide (0 ≤ r ∧ r < 7 ∧ 0 ≤ c ∧ c < 7 ∧ ((2 ≤ r ∧ r ≤ 4) ∨ (2 ≤ c ∧ c ≤ 4)))

/-- Row of hole `p` in the 7 x 7 square, read off the layout `arr` (which has a
margin of two cells on every side). -/
def hole_row (p : Nat) : Int := (arr.indexOf (Int.ofNat p) / 11 : Nat) - 2

/-- Column of hole `p` in the 7 x 7 square, read off the layout `arr`. -/
def hole_col (p : Nat) : Int := (arr.indexOf (Int.ofNat p) % 11 : Nat) - 2

/-- The number written at cell `(r, c)` of the 7 x 7 square in `arr` (`-1`
outside the board). -/
def hole_at (r c : Int) : Int := arrAt ((r + 2) * 11 + (c + 2)).toNat

/-- Row step of direction `d`: 0 = up, 1 = right, 2 = down, 3 = left. -/
def dir_row (d : Nat) : Int := if d = 0 then -1 else if d = 2 then 1 else 0

/-- Column step of direction `d`: 0 = up, 1 = right, 2 = down, 3 = left. -/
def dir_col (d : Nat) : Int := if d = 1 then 1 else if d = 3 then -1 else 0

/-- The hole `k` steps away from hole `p` in direction `d` (`-1` when that
cell is off the board). -/
def hole_step (p d k : Nat) : Int :=
  hole_at (hole_row p + k * dir_row d) (hole_col p + k * dir_col d)

/-- The id bit that stands for hole `n`: bit `n` for the holes `0 .. 31`, no
bit for the slack hole. -/
def hole_id_bit (n : Int) : Nat := if 0 ≤ n ∧ n < 32 then 2 ^ n.toNat else 0

/-- The slack bit that stands for hole `n`: 1 for the slack hole 32, else 0. -/
def hole_slack_bit (n : Int) : Nat := if n = 32 then 1 else 0

/-! ## Building a successor state (solve_sub, solve_pin) -/

/-- The test under which `solve_sub` calls `solve_pin` for destination hole
`pin`: `(actual_p->id & bit) == 0` with `bit = 1 << pin` for `pin < PINS`,
and `(actual_p->slack & 1) == 0` for the slack hole. -/
def solve_sub_free (actual : STATE) (pin : Nat) : Prop :=
  if pin < PINS then actual.id &&& (1 <<< pin) % UINT = 0
  else actual.slack &&& 1 = 0

instance (actual : STATE) (pin : Nat) : Decidable (solve_sub_free actual pin) := by
  unfold solve_sub_free; infer_instance

/-- The test of `solve_pin` on a candidate entry: allowed, and the jumped and
jumping holes occupied. -/
def solve_pin_legal (actual : STATE) (u : UPDATE) : Prop :=
  u.allowed ≠ 0 ∧ actual.id &&& u.next_id = u.next_id ∧
    actual.slack &&& u.next_slack &&& 1 = u.next_slack

instance (actual : STATE) (u : UPDATE) : Decidable (solve_pin_legal actual u) := by
  unfold solve_pin_legal; infer_instance

/-- The `new_state` that `solve_pin` builds from `actual_p` and an entry:
`id ^ mask_id`, `(slack ^ mask_slack) & 1`, and `pins - 1` stored in an
`unsigned short`. -/
def solve_pin_new_state (actual : STATE) (u : UPDATE) : STATE :=
  { id := actual.id ^^^ u.mask_id,
    slack := (actual.slack ^^^ u.mask_slack) &&& 1,
    pins := (actual.pins + USHORT - 1) % USHORT }

/-- The successor states that the loop of `solve_pin` builds from `actual_p`
for the four entries `table[pin_4 + j]`, `j = 0..3`, in loop order.  The
`done` flag and the `break` of the traversal optimisation can only make the
loop stop early, so every `new_state` of a real call is a member. -/
def solve_pin_new_states (actual : STATE) (pin_4 : Nat) : List STATE :=
  (List.range 4).filterMap fun j =>
    if solve_pin_legal actual (tableAt (pin_4 + j)) then
      some (solve_pin_new_state actual (tableAt (pin_4 + j)))
    else none

/-- The successor states of `solve_sub`: for each free hole `pin = 0..PINS-1`
in turn those of `solve_pin(actual_p, 4 * pin, phase)`, then, if the slack hole
is free, those of `solve_pin(actual_p, 4 * SL, phase)`. -/
def solve_sub_new_states (actual : STATE) : List STATE :=
  ((List.range PINS).flatMap fun pin =>
      if solve_sub_free actual pin then solve_pin_new_states actual (4 * pin) else []) ++
    (if solve_sub_free actual SL then solve_pin_new_states actual (4 * SL) else [])

/-- The peg-count invariant of a state: `popcount(id) + slack == pins`. -/
def peg_count_ok (s : STATE) : Prop := popcount s.id + s.slack = s.pins

instance (s : STATE) : Decidable (peg_count_ok s) := by
  unfold peg_count_ok; infer_instance

/-! ## The search: solve, solve_sub, solve_pin -/

/-- A record of one step of the search, kept only to state properties about
the sequence of calls; the program itself has no such record. -/
inductive Event where
  /-- `solve(actual_p, phase)` was entered. -/
  | solve (phase : Int) (actual : STATE)
  /-- `solve_sub(actual_p, phase)` was entered. -/
  | solve_sub (actual : STATE)
  /-- `solve_pin(actual_p, pin_4, phase)` was entered. -/
  | solve_pin (actual : STATE) (pin_4 : Nat)
  /-- The call `hash_add(actual_p)` made by `solve` returned `ret`. -/
  | hash_add (actual : STATE) (ret : Int)
deriving DecidableEq, Repr

/-- The global data the search reads and writes: `hash`, `move`, `move_state`,
`solution_move_state`, `rotated_start`, `rotated_final`, `real_final`, the
static local `phase3_result` of `check_phase3_result`, and the record `trace`
of the calls made so far.  `trace` is not part of the program: nothing reads
it, it is only appended to.  Arrays are maps from index to value. -/
structure Globals where
  hash : HashTable
  move : Nat → Nat
  move_state : Nat → STATE
  solution_move_state : Nat → STATE
  rotated_start : STATE
  rotated_final : STATE
  real_final : STATE
  phase3_result : Nat
  trace : List Event

/-- The globals at program start: every static object zero, the table as
`hash_init` leaves it, nothing recorded. -/
def globals_init : Globals :=
  { hash := hash_init, move := fun _ => 0, move_state := fun _ => ⟨0, 0, 0⟩,
    solution_move_state := fun _ => ⟨0, 0, 0⟩, rotated_start := ⟨0, 0, 0⟩,
    rotated_final := ⟨0, 0, 0⟩, real_final := ⟨0, 0, 0⟩, phase3_result := 0, trace := [] }

/-- How a call of `solve` (or of `solve_sub`, `solve_pin`) ends: it returns
`done` with the globals as they then are, or the program leaves through
`exit(status)`, or the recursion budget of this model ran out. -/
inductive Outcome where
  | ret (done : Int) (g : Globals)
  | exit (status : Int) (g : Globals)
  | out_of_fuel

/-- The complement `~x` of an `unsigned int`. -/
def bit_not32 (x : Nat) : Nat := (UINT - 1) ^^^ (x % UINT)

/-- The copy loop of `check_phase2_result`:
`for (i = PINS_LEFT; i >= BOARD - PINS_LEFT; i--) solution_move_state[i - 1] = move_state[i]`,
with `todo` iterations left at index `i`. -/
def phase2_copy_loop (move_state : Nat → STATE) : Nat → Nat → (Nat → STATE) → (Nat → STATE)
  | 0, _, sol => sol
  | todo + 1, i, sol =>
    phase2_copy_loop move_state todo (i - 1) (Function.update sol (i - 1) (move_state i))

/-- The function `check_phase2_result(actual_p)`: the returned `done` and the
globals afterwards. -/
def check_phase2_result (g : Globals) (actual : STATE) : Int × Globals :=
  let rotate : STATE :=
    { id := bit_not32 actual.id, slack := (actual.slack ^^^ 1) &&& 1, pins := PINS_LEFT }
  if hash_search g.hash rotate = 0 then
    let real_final := rotate
    let rotated_final := (rotate_state real_final (-1)).2
    let sol := phase2_copy_loop g.move_state (PINS_LEFT + 1 - (BOARD - PINS_LEFT)) PINS_LEFT
      g.solution_move_state
    (1, { g with real_final := real_final, rotated_final := rotated_final,
                 solution_move_state := sol })
  else (0, g)

/-- The first loop of `check_phase3_result` (heading part):
`for (i = PINS; i > PINS_LEFT; i--) { rotate_state(&move_state[i], &rotate, rot);
solution_move_state[i - 1] = rotate; }`; the result is the array and the last
value of the local `rotate`. -/
def phase3_head_loop (move_state : Nat → STATE) (rot : Int) :
    Nat → Nat → (Nat → STATE) → STATE → (Nat → STATE) × STATE
  | 0, _, sol, rotate => (sol, rotate)
  | todo + 1, i, sol, _ =>
    let rotate := (rotate_state (move_state i) rot).2
    phase3_head_loop move_state rot todo (i - 1) (Function.update sol (i - 1) rotate) rotate

/-- The second loop of `check_phase3_result` (trailing part): each
`move_state[i]` is rotated by `rot`, complemented (`~id`, `(~slack) & 1`,
`BOARD - pins` stored in an `unsigned short`) and stored at
`solution_move_state[BOARD - i + 1]`. -/
def phase3_tail_loop (move_state : Nat → STATE) (rot : Int) :
    Nat → Nat → (Nat → STATE) → (Nat → STATE)
  | 0, _, sol => sol
  | todo + 1, i, sol =>
    let rotate := (rotate_state (move_state i) rot).2
    let rotate : STATE :=
      { id := bit_not32 rotate.id, slack := (rotate.slack ^^^ 1) &&& 1,
        pins := (BOARD + USHORT - rotate.pins) % USHORT }
    phase3_tail_loop move_state rot todo (i - 1) (Function.update sol (BOARD - i + 1) rotate)

/-- The function `check_phase3_result(actual_p)`: the returned value and the
globals afterwards. -/
def check_phase3_result (g : Globals) (actual : STATE) : Int × Globals :=
  let r := rotate_state actual (-1)
  let rot := r.1
  let rotate := r.2
  let head := phase3_head_loop g.move_state rot (PINS - PINS_LEFT) PINS
    g.solution_move_state rotate
  let hit1 : Prop := rotate.id = g.rotated_start.id ∧
    rotate.slack &&& 1 = g.rotated_start.slack &&& 1
  let g1 : Globals :=
    if hit1 then
      { g with solution_move_state := head.1, phase3_result := g.phase3_result ||| 1 }
    else g
  let rotate1 : STATE := if hit1 then head.2 else rotate
  let g2 : Globals :=
    if rotate1.id = g1.rotated_final.id ∧
        rotate1.slack &&& 1 = g1.rotated_final.slack &&& 1 then
      let rot2 := (rotate_state g1.real_final (-1)).1
      let rot := (rot + 4 - rot2) % 4
      { g1 with
        solution_move_state :=
          phase3_tail_loop g1.move_state rot (PINS - PINS_LEFT) PINS g1.solution_move_state,
        phase3_result := g1.phase3_result ||| 2 }
    else g1
  (if g2.phase3_result = 3 then 1 else 0, g2)

/-- The traversal optimisation of `solve_pin`: with `pins < PINS_LEFT`, the
candidate has a smaller rank than the move recorded one level up,
`table[move[pins + 1]]`, and the two combined masks share no bit. -/
def solve_pin_pruned (g : Globals) (actual : STATE) (update : UPDATE) : Prop :=
  actual.pins < PINS_LEFT ∧
    update.rank < (tableAt (g.move (actual.pins + 1))).rank ∧
    update.mask_id &&& (tableAt (g.move (actual.pins + 1))).mask_id = 0 ∧
    update.mask_slack &&& (tableAt (g.move (actual.pins + 1))).mask_slack &&& 1 = 0

instance (g : Globals) (actual : STATE) (update : UPDATE) :
    Decidable (solve_pin_pruned g actual update) := by
  unfold solve_pin_pruned; infer_instance

/-- The loop `for (j = ...; j < 4 && !done; j++)` of `solve_pin`, entered with
`done == 0` and `todo` iterations left at index `j`; `solve` stands for the
recursive call.  The `break` of the traversal optimisation ends the loop with
`done == 0`. -/
def solve_pin_loop (solve : Int → Globals → STATE → Outcome) (actual : STATE) (pin_4 : Nat)
    (phase : Int) : Nat → Nat → Globals → Outcome
  | 0, _, g => Outcome.ret 0 g
  | todo + 1, j, g =>
    let update := tableAt (pin_4 + j)
    if solve_pin_legal actual update then
      if solve_pin_pruned g actual update then
        Outcome.ret 0 g
      else
        let new_state := solve_pin_new_state actual update
        let g1 : Globals :=
          { g with move := Function.update g.move actual.pins (pin_4 + j),
                   move_state := Function.update g.move_state actual.pins new_state }
        match solve phase g1 new_state with
        | Outcome.ret done g2 =>
          if done ≠ 0 then Outcome.ret done g2
          else solve_pin_loop solve actual pin_4 phase todo (j + 1) g2
        | o => o
    else solve_pin_loop solve actual pin_4 phase todo (j + 1) g

/-- The function `solve_pin(actual_p, pin_4, phase)`. -/
def solve_pin (solve : Int → Globals → STATE → Outcome) (g : Globals) (actual : STATE)
    (pin_4 : Nat) (phase : Int) : Outcome :=
  solve_pin_loop solve actual pin_4 phase 4 0
    { g with trace := g.trace ++ [Event.solve_pin actual pin_4] }

/-- The loop `for (pin = ..., bit = 1; pin < PINS && !done; pin++, bit <<= 1)`
of `solve_sub`, entered with `done == 0` and `todo` iterations left at index
`pin`. -/
def solve_sub_loop (solve : Int → Globals → STATE → Outcome) (actual : STATE) (phase : Int) :
    Nat → Nat → Globals → Outcome
  | 0, _, g => Outcome.ret 0 g
  | todo + 1, pin, g =>
    if actual.id &&& (1 <<< pin) % UINT = 0 then
      match solve_pin solve g actual (4 * pin) phase with
      | Outcome.ret done g1 =>
        if done ≠ 0 then Outcome.ret done g1
        else solve_sub_loop solve actual phase todo (pin + 1) g1
      | o => o
    else solve_sub_loop solve actual phase todo (pin + 1) g

/-- The function `solve_sub(actual_p, phase)`. -/
def solve_sub (solve : Int → Globals → STATE → Outcome) (g : Globals) (actual : STATE)
    (phase : Int) : Outcome :=
  match solve_sub_loop solve actual phase PINS 0
      { g with trace := g.trace ++ [Event.solve_sub actual] } with
  | Outcome.ret done g1 =>
    if done = 0 ∧ actual.slack &&& 1 = 0 then solve_pin solve g1 actual (4 * SL) phase
    else Outcome.ret done g1
  | o => o

/-- The function `solve(actual_p, phase)`.  The first argument bounds the depth
of the recursion; a call that would go deeper ends as `out_of_fuel`.
`hash_statistics(1)` before `exit(1)` only prints. -/
def solve : Nat → Int → Globals → STATE → Outcome
  | 0, _, _, _ => Outcome.out_of_fuel
  | fuel + 1, phase, g, actual =>
    let g0 : Globals := { g with trace := g.trace ++ [Event.solve phase actual] }
    if phase = 2 then
      if actual.pins = BOARD - PINS_LEFT then
        Outcome.ret (check_phase2_result g0 actual).1 (check_phase2_result g0 actual).2
      else solve_sub (solve fuel) g0 actual phase
    else
      let hash_result := (hash_add g0.hash actual).1
      let g1 : Globals :=
        { g0 with hash := (hash_add g0.hash actual).2,
                  trace := g0.trace ++ [Event.hash_add actual hash_result] }
      if hash_result = 0 then
        if actual.pins = PINS_LEFT then
          if phase = 3 then
            Outcome.ret (check_phase3_result g1 actual).1 (check_phase3_result g1 actual).2
          else Outcome.ret 0 g1
        else solve_sub (solve fuel) g1 actual phase
      else
        if hash_result = -1 then Outcome.exit 1 g1
        else Outcome.ret 0 g1

/-- What is claimed of the way a call ends, given a relation `R` between the
globals before and after a return and a relation `E` between the globals
before and at an `exit(1)`; running out of the recursion budget is excluded. -/
@[irreducible] def Outcome.meets (R E : Globals → Globals → Prop) (g : Globals) : Outcome → Prop
  | Outcome.ret _ g1 => R g g1
  | Outcome.exit status g1 => status = 1 ∧ E g g1
  | Outcome.out_of_fuel => False

/-- The record of the search grew by events that all satisfy `ok`. -/
def trace_extends (ok : Event → Prop) (g g1 : Globals) : Prop :=
  ∃ l, g1.trace = g.trace ++ l ∧ ∀ e ∈ l, ok e

/-- The event records a `hash_add` call that returned Full (-1). -/
def Event.is_full : Event → Prop
  | Event.hash_add _ ret => ret = -1
  | _ => False

/-- The event records a `hash_add` call. -/
def Event.is_hash_add : Event → Prop
  | Event.hash_add _ _ => True
  | _ => False

/-- The record of the search grew by events none of which is a Full
`hash_add`, followed by one last event, a `hash_add` that returned Full. -/
def trace_ends_full (g g1 : Globals) : Prop :=
  ∃ l s, g1.trace = g.trace ++ l ++ [Event.hash_add s (-1)] ∧ ∀ e ∈ l, ¬ e.is_full

/-- The frontier bound on one event of a phase-1 or phase-3 search: `solve` is
entered with `PINS_LEFT <= pins <= 32` (and the phase of the search),
`solve_sub` and `solve_pin` only with `PINS_LEFT < pins <= 32`. -/
def frontier_ok (phase : Int) : Event → Prop
  | Event.solve ph s => ph = phase ∧ PINS_LEFT ≤ s.pins ∧ s.pins ≤ 32
  | Event.solve_sub s => PINS_LEFT < s.pins ∧ s.pins ≤ 32
  | Event.solve_pin s _ => PINS_LEFT < s.pins ∧ s.pins ≤ 32
  | Event.hash_add s _ => PINS_LEFT ≤ s.pins ∧ s.pins ≤ 32

/-- Number of pegs a state shows on the board: the set bits of the 32-bit id
plus the slack bit. -/
def pegs (s : STATE) : Nat := popcount s.id + s.slack % 2

/-- The loop of `solve_pin` as the specification words it for phase 2: every
candidate that passes the legality test is applied and recursed into, none is
skipped by the rank / disjoint-mask rule.  It is `solve_pin_loop` without the
traversal optimisation. -/
def solve_pin_every_legal_loop (solve : Int → Globals → STATE → Outcome) (actual : STATE)
    (pin_4 : Nat) (phase : Int) : Nat → Nat → Globals → Outcome
  | 0, _, g => Outcome.ret 0 g
  | todo + 1, j, g =>
    let update := tableAt (pin_4 + j)
    if solve_pin_legal actual update then
      let new_state := solve_pin_new_state actual update
      let g1 : Globals :=
        { g with move := Function.update g.move actual.pins (pin_4 + j),
                 move_state := Function.update g.move_state actual.pins new_state }
      match solve phase g1 new_state with
      | Outcome.ret done g2 =>
        if done ≠ 0 then Outcome.ret done g2
        else solve_pin_every_legal_loop solve actual pin_4 phase todo (j + 1) g2
      | o => o
    else solve_pin_every_legal_loop solve actual pin_4 phase todo (j + 1) g

/-- Plays the table entries with the given indices one after the other from a
state, each as `solve_sub` / `solve_pin` would (destination hole free, jumped
and jumping holes occupied); `none` when one of them is not a legal move. -/
def play : STATE → List Nat → Option STATE
  | s, [] => some s
  | s, k :: ks =>
    if solve_sub_free s (k / 4) ∧ solve_pin_legal s (tableAt k) then
      play (solve_pin_new_state s (tableAt k)) ks
    else none

/-- Globals in which only `move[21]` has been written, with the index 94 (the
jump into hole 23 from below): the situation one level below a 21-peg
frontier state from which that jump was just made. -/
def globals_after_move_94 : Globals :=
  { globals_init with move := fun k => if k = 21 then 94 else 0 }

/-! ## Vocabulary for the content of the hash table -/

/-- Some slot of the table holds a state that `hash_add` / `hash_search` take
for `c`: a non-zero id equal to that of `c`, and the same slack parity. -/
def stored (hash : HashTable) (c : STATE) : Prop :=
  ∃ e, (hash e).id ≠ 0 ∧ (hash e).id = c.id ∧ (hash e).slack &&& 1 = c.slack &&& 1

/-- Every occupied slot lies on the probe sequence of the id it holds, with no
empty slot before it: what a table filled by `hash_add` alone looks like. -/
def probe_consistent (hash : HashTable) : Prop :=
  ∀ e, (hash e).id ≠ 0 →
    ∃ i, i < HASH_SIZ ∧ DOUBLE_HASH (hash e).id i = e ∧
      ∀ j, j < i → (hash (DOUBLE_HASH (hash e).id j)).id ≠ 0

/-- The canonical form of `s` is in the table. -/
def in_table (hash : HashTable) (s : STATE) : Prop :=
  stored hash (rotate_state s (-1)).2

/-- A state as the search meets it: a 32-bit id, slack 0 or 1, and
`popcount(id) + slack == pins`. -/
def well_formed (s : STATE) : Prop := s.id < UINT ∧ s.slack ≤ 1 ∧ peg_count_ok s

/-- The states reachable from `s0` by a sequence of legal jumps. -/
inductive reachable (s0 : STATE) : STATE → Prop where
  | start : reachable s0 s0
  | step (s t : STATE) : reachable s0 s → t ∈ solve_sub_new_states s → reachable s0 t

/-- The table is closed under legal jumps down to the frontier, for the states
with at most `n` pegs: whenever a well-formed state with
`PINS_LEFT < pins <= n` is in the table, so is every state one legal jump
away. -/
def closed_below (hash : HashTable) (n : Nat) : Prop :=
  ∀ v, well_formed v → PINS_LEFT < v.pins → v.pins ≤ n → in_table hash v →
    ∀ w ∈ solve_sub_new_states v, in_table hash w

/-- How a phase-1 call may end: it exits, or it returns 0 with globals that
satisfy `P`; it does not run out of the recursion budget. -/
@[irreducible] def Outcome.returns_zero (P : Globals → Prop) : Outcome → Prop
  | Outcome.ret done g => done = 0 ∧ P g
  | Outcome.exit _ _ => True
  | Outcome.out_of_fuel => False

/-- One stretch of a phase-1 search seen on the table, for states with at most
`n` pegs: the table stays probe-consistent and closed below `n`, nothing
stored is lost, and what is newly in the table has at most `n` pegs. -/
def table_step (n : Nat) (h h1 : HashTable) : Prop :=
  probe_consistent h1 ∧ closed_below h1 n ∧ (∀ c, stored h c → stored h1 c) ∧
    (∀ v, well_formed v → in_table h1 v → in_table h v ∨ v.pins ≤ n)

/-- The table after a finite sequence of further `hash_add` calls, one for each
state of the list in turn, whatever each call returns. -/
def hash_add_all (hash : HashTable) : List STATE → HashTable
  | [] => hash
  | x :: xs => hash_add_all (hash_add hash x).2 xs

/-- What C26 asks of one recorded event: a state passed to `hash_add` has at
least `PINS_LEFT` pegs, at least `PINS_LEFT - 1` bits of its id set, an id
other than 0 and a canonical id other than 0; other events are not
constrained. -/
def Event.keeps_sentinel : Event → Prop
  | Event.hash_add s _ =>
    PINS_LEFT ≤ s.pins ∧ PINS_LEFT - 1 ≤ popcount s.id ∧ s.id ≠ 0 ∧
      (rotate_state s (-1)).2.id ≠ 0
  | _ => True

/-- No stored entry reads as an empty slot: every slot whose id is 0 is all
zero, as `hash_init` left it. -/
def no_stored_sentinel (hash : HashTable) : Prop :=
  ∀ e, (hash e).id = 0 → hash e = ⟨0, 0, 0⟩

/-- The complement `check_phase3_result` applies to a state before it stores
it in the trailing part: `rotate.id = ~rotate.id`,
`rotate.slack = ((~rotate.slack) & 1)`, `rotate.pins = BOARD - rotate.pins`
(stored in an `unsigned short`). -/
def complement (s : STATE) : STATE :=
  { id := bit_not32 s.id, slack := (s.slack ^^^ 1) &&& 1,
    pins := (BOARD + USHORT - s.pins) % USHORT }

/-- Index of the entry that jumps the other way over the same hole: its
destination is the origin `b` of entry `(p, d)` (the hole two steps from `p`
in direction `d`) and its direction is the opposite one. -/
def reverse_entry (p d : Nat) : Nat := 4 * (hole_step p d 2).toNat + (d + 2) % 4

/-- The array `move_state` at a successful `check_phase2_result`: the phase-2
descent from the frontier entry `{0xe73f37b4, 0, 21}` by the table entries
27, 56, 89, 40, 94, 106, 109, 117, 27 wrote the indices 21 down to 13 (the
states with 20 down to 12 pegs); the indices 22 to 32 still hold what phase 1
wrote last, the indices 0 to 12 were never written. -/
def move_state_phase2_hit : Nat → STATE := fun k =>
  ([⟨0, 0, 0⟩, ⟨0, 0, 0⟩, ⟨0, 0, 0⟩, ⟨0, 0, 0⟩, ⟨0, 0, 0⟩, ⟨0, 0, 0⟩, ⟨0, 0, 0⟩,
    ⟨0, 0, 0⟩, ⟨0, 0, 0⟩, ⟨0, 0, 0⟩, ⟨0, 0, 0⟩, ⟨0, 0, 0⟩, ⟨0, 0, 0⟩,
    ⟨0x886d5450, 0, 12⟩, ⟨0xac6d5410, 0, 13⟩, ⟨0x8c6d54d0, 0, 14⟩, ⟨0xc4ed54d0, 0, 15⟩,
    ⟨0xc3ed54d0, 0, 16⟩, ⟨0xc37f54d0, 0, 17⟩, ⟨0xc37f53d0, 0, 18⟩, ⟨0xc33f77d0, 0, 19⟩,
    ⟨0xc33f37f4, 0, 20⟩, ⟨0x775a5baf, 0, 21⟩, ⟨0x771a7faf, 0, 22⟩, ⟨0x7752ffaf, 0, 23⟩,
    ⟨0x771bffaf, 0, 24⟩, ⟨0x717fffaf, 0, 25⟩, ⟨0x767fffaf, 0, 26⟩, ⟨0xe67fffaf, 1, 27⟩,
    ⟨0x77ffffaf, 0, 28⟩, ⟨0xe7ffffaf, 1, 29⟩, ⟨0xdfffffaf, 1, 30⟩,
    ⟨0x6fffffff, 1, 31⟩] : List STATE).getD k ⟨0, 0, 0⟩

/-- Globals at a successful `check_phase2_result` on the 12-peg state
`{0x886d5450, 0, 12}`: `move_state` as above, `rotated_start` the frontier
entry of the descent, and a table that holds the class of the complement
`{0x7792abaf, 1, 21}` (of the table only that class matters to the call). -/
def globals_phase2_hit : Globals :=
  { globals_init with
    hash := (hash_add hash_init ⟨0x7792abaf, 1, 21⟩).2,
    move_state := move_state_phase2_hit,
    rotated_start := ⟨0xe73f37b4, 0, 21⟩ }

/-- Globals at the call of `check_phase3_result` on the frontier state
`{0xaf7792ab, 1, 21}`, whose canonical form is `rotated_final`:
`move_state[32 .. 22]` hold the states of the phase-3 path from the start
state to it, `real_final` and `rotated_final` are as the successful
`check_phase2_result` left them, and the heading part is already stored. -/
def globals_tail_match : Globals :=
  { globals_init with
    move_state := fun k =>
      ([⟨0xaf7792ab, 1, 21⟩, ⟨0xe7f792ab, 1, 22⟩, ⟨0xdff792ab, 1, 23⟩, ⟨0xdfb7b6ab, 1, 24⟩,
        ⟨0xdfff36ab, 1, 25⟩, ⟨0xdffff68b, 1, 26⟩, ⟨0xdfffbf8b, 1, 27⟩, ⟨0xffffbf4b, 1, 28⟩,
        ⟨0xfffff7cb, 1, 29⟩, ⟨0xffffb7ef, 1, 30⟩,
        ⟨0xffffff6f, 1, 31⟩] : List STATE).getD (k - 22) ⟨0, 0, 0⟩,
    rotated_start := ⟨0xe73f37b4, 0, 21⟩,
    rotated_final := ⟨0xaf7792ab, 1, 21⟩,
    real_final := ⟨0x7792abaf, 1, 21⟩,
    phase3_result := 1 }

/-- An id that `hash_add` stores unchanged in slot `e` when that slot is
empty: the first of `e + m * PRIME_1`, `m = 2853 .. 2863`, whose two low bytes
are below 255.  Its top byte is 255 and its third byte is small, so the id is
its own canonical form, and its first probe is slot `e`. -/
def fill_id (e : Nat) : Nat :=
  (((List.range 11).map fun t => e + (2853 + t) * PRIME_1).find?
    fun c => decide (byteAt c 0 < 255 ∧ byteAt c 1 < 255)).getD 0

/-- The state with id `fill_id e`, slack 0 and `pins = popcount(id)`. -/
def filler (e : Nat) : STATE := ⟨fill_id e, 0, popcount (fill_id e)⟩

/-- The slots that the probes `i = 0 .. 4095` of the id `0xFFFAEF0E` visit. -/
def probe_slots : List Nat := (List.range 4096).map (DOUBLE_HASH 0xfffaef0e)

/-- One state for each of these slots, in probe order: 4096 arguments for
`hash_add`. -/
def probe_fillers : List STATE := probe_slots.map filler

/-! ## Rotation: bytes and quarter turns -/

theorem byteAt_lt (x k : Nat) : byteAt x k < 256 := Nat.mod_lt _ (by norm_num)

theorem byteAt_ofBytes {a b c d : Nat} (ha : a < 256) (hb : b < 256) (hc : c < 256)
    (hd : d < 256) :
    byteAt (ofBytes a b c d) 0 = a ∧ byteAt (ofBytes a b c d) 1 = b ∧
    byteAt (ofBytes a b c d) 2 = c ∧ byteAt (ofBytes a b c d) 3 = d := by
  simp only [byteAt, ofBytes]
  norm_num
  omega

theorem ofBytes_lt {a b c d : Nat} (ha : a < 256) (hb : b < 256) (hc : c < 256)
    (hd : d < 256) : ofBytes a b c d < UINT := by
  simp only [ofBytes, UINT]; omega

theorem ofBytes_byteAt {x : Nat} (hx : x < UINT) :
    ofBytes (byteAt x 0) (byteAt x 1) (byteAt x 2) (byteAt x 3) = x := by
  simp only [byteAt, ofBytes, UINT] at *
  norm_num
  omega

theorem rotId_lt (x : Nat) : rotId x < UINT :=
  ofBytes_lt (byteAt_lt _ _) (byteAt_lt _ _) (byteAt_lt _ _) (byteAt_lt _ _)

theorem byteAt_rotId (x : Nat) :
    byteAt (rotId x) 0 = byteAt x 3 ∧ byteAt (rotId x) 1 = byteAt x 0 ∧
    byteAt (rotId x) 2 = byteAt x 1 ∧ byteAt (rotId x) 3 = byteAt x 2 :=
  byteAt_ofBytes (byteAt_lt _ _) (byteAt_lt _ _) (byteAt_lt _ _) (byteAt_lt _ _)

theorem rotId_two (x : Nat) :
    rotId (rotId x) = ofBytes (byteAt x 2) (byteAt x 3) (byteAt x 0) (byteAt x 1) := by
  obtain ⟨h0, h1, h2, h3⟩ := byteAt_rotId x
  simp only [rotId] at *
  rw [h0, h1, h2, h3]

theorem rotId_three (x : Nat) :
    rotId (rotId (rotId x)) = ofBytes (byteAt x 1) (byteAt x 2) (byteAt x 3) (byteAt x 0) := by
  obtain ⟨h0, h1, h2, h3⟩ := byteAt_rotId (rotId x)
  obtain ⟨g0, g1, g2, g3⟩ := byteAt_rotId x
  rw [rotId, h0, h1, h2, h3, g0, g1, g2, g3]

theorem rotId_four {x : Nat} (hx : x < UINT) : rotId (rotId (rotId (rotId x))) = x := by
  obtain ⟨h0, h1, h2, h3⟩ := byteAt_rotId (rotId (rotId x))
  obtain ⟨g0, g1, g2, g3⟩ := byteAt_rotId (rotId x)
  obtain ⟨f0, f1, f2, f3⟩ := byteAt_rotId x
  rw [rotId, h0, h1, h2, h3, g0, g1, g2, g3, f0, f1, f2, f3]
  exact ofBytes_byteAt hx

theorem rotate_zero (s : STATE) : rotate s 0 = s := by
  simp [rotate, rotate_state]

theorem rotate_one (s : STATE) : rotate s 1 = { s with id := rotId s.id } := by
  simp [rotate, rotate_state, rotId]

theorem rotate_two (s : STATE) : rotate s 2 = { s with id := rotId (rotId s.id) } := by
  simp [rotate, rotate_state, rotId_two]

theorem rotate_three (s : STATE) :
    rotate s 3 = { s with id := rotId (rotId (rotId s.id)) } := by
  simp [rotate, rotate_state, rotId_three]

theorem rotate_canon (s : STATE) :
    rotate s (-1) =
      { s with id := max (max (max s.id (rotId s.id)) (rotId (rotId s.id)))
                      (rotId (rotId (rotId s.id))) } := by
  rw [rotId_three, rotId_two]
  obtain ⟨x, sl, p⟩ := s
  simp only [rotate, rotate_state, rotId, if_true]
  generalize ofBytes (byteAt x 3) (byteAt x 0) (byteAt x 1) (byteAt x 2) = a
  generalize ofBytes (byteAt x 2) (byteAt x 3) (byteAt x 0) (byteAt x 1) = b
  generalize ofBytes (byteAt x 1) (byteAt x 2) (byteAt x 3) (byteAt x 0) = c
  by_cases h1 : a > x <;> simp only [h1, if_true, if_false] <;>
  by_cases h2 : b > a <;> by_cases h2' : b > x <;> simp only [h2, h2', if_true, if_false] <;>
  by_cases h3 : c > a <;> by_cases h3' : c > x <;> by_cases h3'' : c > b <;>
  simp only [h3, h3', h3'', if_true, if_false] <;>
  (simp only [STATE.mk.injEq, and_true]; omega)

theorem rotate_state_canon (s : STATE) :
    (rotate_state s (-1)).1 =
      if rotId (rotId (rotId s.id)) > max (max s.id (rotId s.id)) (rotId (rotId s.id)) then 3
        else if rotId (rotId s.id) > max s.id (rotId s.id) then 2
        else if rotId s.id > s.id then 1 else 0 := by
  rw [rotId_three, rotId_two]
  obtain ⟨x, sl, p⟩ := s
  simp only [rotate_state, rotId, if_true]
  by_cases h1 : ofBytes (byteAt x 3) (byteAt x 0) (byteAt x 1) (byteAt x 2) > x <;>
  simp only [h1, if_true, if_false] <;>
  split_ifs <;> (try dsimp only at *) <;> first | rfl | omega

/-- C4: four successive quarter turns (`rotate_state` with count 1) give the
state back, and two rotations by `j` and `k` quarter turns compose to the
rotation by `(j + k) mod 4`, for every state whose id is a 32-bit value. -/
theorem rotate_state_four_turns (S : STATE) (hS : S.id < UINT) :
    rotate (rotate (rotate (rotate S 1) 1) 1) 1 = S ∧
    ∀ j k : Int, 0 ≤ j → j ≤ 3 → 0 ≤ k → k ≤ 3 →
      rotate (rotate S j) k = rotate S ((j + k) % 4) := by
  have h4 := rotId_four hS
  have h5 : rotId (rotId (rotId (rotId (rotId S.id)))) = rotId S.id := by rw [h4]
  have h6 : rotId (rotId (rotId (rotId (rotId (rotId S.id))))) = rotId (rotId S.id) := by
    rw [h4]
  refine ⟨?_, ?_⟩
  · simp only [rotate_one, h4]
  · intro j k hj0 hj3 hk0 hk3
    obtain rfl | rfl | rfl | rfl : j = 0 ∨ j = 1 ∨ j = 2 ∨ j = 3 := by omega
    all_goals
      obtain rfl | rfl | rfl | rfl : k = 0 ∨ k = 1 ∨ k = 2 ∨ k = 3 := by omega
    all_goals norm_num
    all_goals simp only [rotate_zero, rotate_one, rotate_two, rotate_three, h4, h5, h6]

theorem rotate_state_four_turns_witness :
    (⟨0x01020304, 1, 5⟩ : STATE).id < UINT ∧
    rotate (rotate (rotate (rotate ⟨0x01020304, 1, 5⟩ 1) 1) 1) 1 = ⟨0x01020304, 1, 5⟩ ∧
    rotate (rotate ⟨0x01020304, 1, 5⟩ 2) 3 = rotate ⟨0x01020304, 1, 5⟩ ((2 + 3) % 4) :=
  ⟨by decide, (rotate_state_four_turns ⟨0x01020304, 1, 5⟩ (by decide)).1,
    (rotate_state_four_turns ⟨0x01020304, 1, 5⟩ (by decide)).2 2 3 (by decide) (by decide)
      (by decide) (by decide)⟩

/-- C5: `rotate_state(S, -1)` writes the state whose id is the maximum of the
ids of the four rotations of `S` (slack and pins copied), and returns the least
`k` in `0..3` whose rotation attains that maximum (`0` when no rotation exceeds
`S.id`); the rotation by the returned count is the written state. -/
theorem rotate_state_canonical_max (S : STATE) :
    (rotate_state S (-1)).2.id =
        max (max (max (rotate S 0).id (rotate S 1).id) (rotate S 2).id) (rotate S 3).id ∧
    (rotate_state S (-1)).2.slack = S.slack ∧
    (rotate_state S (-1)).2.pins = S.pins ∧
    0 ≤ (rotate_state S (-1)).1 ∧ (rotate_state S (-1)).1 ≤ 3 ∧
    (rotate S (rotate_state S (-1)).1).id = (rotate_state S (-1)).2.id ∧
    (∀ k : Int, 0 ≤ k → k < (rotate_state S (-1)).1 →
        (rotate S k).id ≠ (rotate_state S (-1)).2.id) ∧
    ((∀ k : Int, 1 ≤ k → k ≤ 3 → (rotate S k).id ≤ S.id) → (rotate_state S (-1)).1 = 0) ∧
    rotate S (rotate_state S (-1)).1 = (rotate_state S (-1)).2 := by
  have hT : (rotate_state S (-1)).2 = rotate S (-1) := rfl
  have e1 : (rotate S 1).id = rotId S.id := by rw [rotate_one]
  have e2 : (rotate S 2).id = rotId (rotId S.id) := by rw [rotate_two]
  have e3 : (rotate S 3).id = rotId (rotId (rotId S.id)) := by rw [rotate_three]
  rw [rotate_state_canon, hT, rotate_canon, rotate_zero, e1, e2, e3]
  dsimp only
  refine ⟨rfl, rfl, rfl, ?_⟩
  split_ifs with h3 h2 h1
  · refine ⟨by omega, by omega, ?_, ?_, ?_, ?_⟩
    · rw [e3]; omega
    · intro k hk0 hk
      obtain rfl | rfl | rfl : k = 0 ∨ k = 1 ∨ k = 2 := by omega
      · rw [rotate_zero]; omega
      · rw [e1]; omega
      · rw [e2]; omega
    · intro h; have := h 3 (by omega) (by omega); rw [e3] at this; omega
    · rw [rotate_three]
      have : max (max (max S.id (rotId S.id)) (rotId (rotId S.id)))
          (rotId (rotId (rotId S.id))) = rotId (rotId (rotId S.id)) := by omega
      rw [this]
  · refine ⟨by omega, by omega, ?_, ?_, ?_, ?_⟩
    · rw [e2]; omega
    · intro k hk0 hk
      obtain rfl | rfl : k = 0 ∨ k = 1 := by omega
      · rw [rotate_zero]; omega
      · rw [e1]; omega
    · intro h; have := h 2 (by omega) (by omega); rw [e2] at this; omega
    · rw [rotate_two]
      have : max (max (max S.id (rotId S.id)) (rotId (rotId S.id)))
          (rotId (rotId (rotId S.id))) = rotId (rotId S.id) := by omega
      rw [this]
  · refine ⟨by omega, by omega, ?_, ?_, ?_, ?_⟩
    · rw [e1]; omega
    · intro k hk0 hk
      obtain rfl : k = 0 := by omega
      rw [rotate_zero]; omega
    · intro h; have := h 1 (by omega) (by omega); rw [e1] at this; omega
    · rw [rotate_one]
      have : max (max (max S.id (rotId S.id)) (rotId (rotId S.id)))
          (rotId (rotId (rotId S.id))) = rotId S.id := by omega
      rw [this]
  · refine ⟨by omega, by omega, ?_, ?_, ?_, ?_⟩
    · rw [rotate_zero]; omega
    · intro k hk0 hk; omega
    · intro _; rfl
    · rw [rotate_zero]
      have : max (max (max S.id (rotId S.id)) (rotId (rotId S.id)))
          (rotId (rotId (rotId S.id))) = S.id := by omega
      rw [this]

theorem rotate_state_canonical_max_witness :
    (rotate_state ⟨0x01020304, 1, 5⟩ (-1)).1 = 3 ∧
    (rotate_state ⟨0x01020304, 1, 5⟩ (-1)).2 = ⟨0x04010203, 1, 5⟩ ∧
    (rotate ⟨0x01020304, 1, 5⟩ 2).id ≠ (rotate_state ⟨0x01020304, 1, 5⟩ (-1)).2.id ∧
    rotate ⟨0x01020304, 1, 5⟩ (rotate_state ⟨0x01020304, 1, 5⟩ (-1)).1 =
      (rotate_state ⟨0x01020304, 1, 5⟩ (-1)).2 :=
  ⟨by decide, by decide,
    (rotate_state_canonical_max ⟨0x01020304, 1, 5⟩).2.2.2.2.2.2.1 2 (by decide) (by decide),
    (rotate_state_canonical_max ⟨0x01020304, 1, 5⟩).2.2.2.2.2.2.2.2⟩

/-- C3: the canonical form is the same for a state and for each of its four
rotations: `rotate_state(rotate(S,k), -1)` writes the state that
`rotate_state(S, -1)` writes, for `k` in `0..3` and every 32-bit id. -/
theorem rotate_state_canonical_invariant (S : STATE) (hS : S.id < UINT) (k : Int)
    (hk0 : 0 ≤ k) (hk3 : k ≤ 3) :
    (rotate_state (rotate S k) (-1)).2 = (rotate_state S (-1)).2 := by
  have h4 := rotId_four hS
  have h5 : rotId (rotId (rotId (rotId (rotId S.id)))) = rotId S.id := by rw [h4]
  have h6 : rotId (rotId (rotId (rotId (rotId (rotId S.id))))) = rotId (rotId S.id) := by
    rw [h4]
  have hT : ∀ s : STATE, (rotate_state s (-1)).2 = rotate s (-1) := fun _ => rfl
  rw [hT, hT, rotate_canon, rotate_canon]
  obtain rfl | rfl | rfl | rfl : k = 0 ∨ k = 1 ∨ k = 2 ∨ k = 3 := by omega
  · rw [rotate_zero]
  · simp only [rotate_one, h4]
    congr 1; omega
  · simp only [rotate_two, h4, h5]
    congr 1; omega
  · simp only [rotate_three, h4, h5, h6]
    congr 1; omega

theorem rotate_state_canonical_invariant_witness :
    (⟨0x01020304, 1, 5⟩ : STATE).id < UINT ∧
    (rotate_state (rotate ⟨0x01020304, 1, 5⟩ 2) (-1)).2 =
      (rotate_state ⟨0x01020304, 1, 5⟩ (-1)).2 :=
  ⟨by decide,
    rotate_state_canonical_invariant ⟨0x01020304, 1, 5⟩ (by decide) 2 (by decide) (by decide)⟩

/-! ## The hash table: insert and lookup -/

theorem hash_add_loop_empty (rotate : STATE) (hash : HashTable) (n i : Nat)
    (h1 : (hash (DOUBLE_HASH rotate.id i)).id = 0) :
    hash_add_loop rotate hash (n + 1) i =
      (0, Function.update hash (DOUBLE_HASH rotate.id i) rotate) := by
  simp only [hash_add_loop, if_pos h1]

theorem hash_add_loop_match (rotate : STATE) (hash : HashTable) (n i : Nat)
    (h1 : (hash (DOUBLE_HASH rotate.id i)).id ≠ 0)
    (h2 : (hash (DOUBLE_HASH rotate.id i)).id = rotate.id ∧
      (hash (DOUBLE_HASH rotate.id i)).slack &&& 1 = rotate.slack &&& 1) :
    hash_add_loop rotate hash (n + 1) i = (1, hash) := by
  simp only [hash_add_loop, if_neg h1, if_pos h2]

theorem hash_add_loop_next (rotate : STATE) (hash : HashTable) (n i : Nat)
    (h1 : (hash (DOUBLE_HASH rotate.id i)).id ≠ 0)
    (h2 : ¬((hash (DOUBLE_HASH rotate.id i)).id = rotate.id ∧
      (hash (DOUBLE_HASH rotate.id i)).slack &&& 1 = rotate.slack &&& 1)) :
    hash_add_loop rotate hash (n + 1) i = hash_add_loop rotate hash n (i + 1) := by
  simp only [hash_add_loop, if_neg h1, if_neg h2]

theorem hash_search_loop_empty (rotate : STATE) (hash : HashTable) (n i : Nat)
    (h1 : (hash (DOUBLE_HASH rotate.id i)).id = 0) :
    hash_search_loop rotate hash (n + 1) i = -1 := by
  simp only [hash_search_loop, if_pos h1]

theorem hash_search_loop_match (rotate : STATE) (hash : HashTable) (n i : Nat)
    (h1 : (hash (DOUBLE_HASH rotate.id i)).id ≠ 0)
    (h2 : (hash (DOUBLE_HASH rotate.id i)).id = rotate.id ∧
      (hash (DOUBLE_HASH rotate.id i)).slack &&& 1 = rotate.slack &&& 1) :
    hash_search_loop rotate hash (n + 1) i = 0 := by
  simp only [hash_search_loop, if_neg h1, if_pos h2]

theorem hash_search_loop_next (rotate : STATE) (hash : HashTable) (n i : Nat)
    (h1 : (hash (DOUBLE_HASH rotate.id i)).id ≠ 0)
    (h2 : ¬((hash (DOUBLE_HASH rotate.id i)).id = rotate.id ∧
      (hash (DOUBLE_HASH rotate.id i)).slack &&& 1 = rotate.slack &&& 1)) :
    hash_search_loop rotate hash (n + 1) i = hash_search_loop rotate hash n (i + 1) := by
  simp only [hash_search_loop, if_neg h1, if_neg h2]

theorem hash_add_loop_frame (rotate : STATE) (hash : HashTable) (e : Nat)
    (he : (hash e).id ≠ 0) (todo i : Nat) :
    (hash_add_loop rotate hash todo i).2 e = hash e := by
  induction todo generalizing i with
  | zero => rfl
  | succ n ih =>
    by_cases h1 : (hash (DOUBLE_HASH rotate.id i)).id = 0
    · rw [hash_add_loop_empty rotate hash n i h1]
      have hne : e ≠ DOUBLE_HASH rotate.id i := by
        intro h; rw [h] at he; exact he h1
      exact Function.update_noteq hne _ _
    · by_cases h2 : (hash (DOUBLE_HASH rotate.id i)).id = rotate.id ∧
          (hash (DOUBLE_HASH rotate.id i)).slack &&& 1 = rotate.slack &&& 1
      · rw [hash_add_loop_match rotate hash n i h1 h2]
      · rw [hash_add_loop_next rotate hash n i h1 h2]
        exact ih (i + 1)

theorem hash_search_after_add_loop (rotate : STATE) (hr : rotate.id ≠ 0) (hash : HashTable)
    (todo i : Nat) (h : (hash_add_loop rotate hash todo i).1 ≠ -1) :
    hash_search_loop rotate (hash_add_loop rotate hash todo i).2 todo i = 0 := by
  induction todo generalizing i with
  | zero => exact absurd rfl h
  | succ n ih =>
    by_cases h1 : (hash (DOUBLE_HASH rotate.id i)).id = 0
    · rw [hash_add_loop_empty rotate hash n i h1]
      apply hash_search_loop_match
      · simpa using hr
      · simp
    · by_cases h2 : (hash (DOUBLE_HASH rotate.id i)).id = rotate.id ∧
          (hash (DOUBLE_HASH rotate.id i)).slack &&& 1 = rotate.slack &&& 1
      · rw [hash_add_loop_match rotate hash n i h1 h2]
        exact hash_search_loop_match rotate hash n i h1 h2
      · rw [hash_add_loop_next rotate hash n i h1 h2] at h ⊢
        have hf := hash_add_loop_frame rotate hash (DOUBLE_HASH rotate.id i) h1 n (i + 1)
        rw [hash_search_loop_next]
        · exact ih (i + 1) h
        · rw [hf]; exact h1
        · rw [hf]; exact h2

theorem hash_add_again_loop (rotate : STATE) (hr : rotate.id ≠ 0) (hash : HashTable)
    (todo i : Nat) (h : (hash_add_loop rotate hash todo i).1 ≠ -1) :
    (hash_add_loop rotate (hash_add_loop rotate hash todo i).2 todo i).1 = 1 := by
  induction todo generalizing i with
  | zero => exact absurd rfl h
  | succ n ih =>
    by_cases h1 : (hash (DOUBLE_HASH rotate.id i)).id = 0
    · rw [hash_add_loop_empty rotate hash n i h1]
      rw [hash_add_loop_match]
      · simpa using hr
      · simp
    · by_cases h2 : (hash (DOUBLE_HASH rotate.id i)).id = rotate.id ∧
          (hash (DOUBLE_HASH rotate.id i)).slack &&& 1 = rotate.slack &&& 1
      · rw [hash_add_loop_match rotate hash n i h1 h2]
        dsimp only
        rw [hash_add_loop_match rotate hash n i h1 h2]
      · rw [hash_add_loop_next rotate hash n i h1 h2] at h ⊢
        have hf := hash_add_loop_frame rotate hash (DOUBLE_HASH rotate.id i) h1 n (i + 1)
        rw [hash_add_loop_next]
        · exact ih (i + 1) h
        · rw [hf]; exact h1
        · rw [hf]; exact h2

theorem rotate_canon_id_ne_zero (S : STATE) (h : S.id ≠ 0) : (rotate_state S (-1)).2.id ≠ 0 := by
  have hT : (rotate_state S (-1)).2 = rotate S (-1) := rfl
  rw [hT, rotate_canon]
  dsimp only
  omega

/-- C7 (as amended): for every table content and every state `S` whose id is
not zero, if `hash_add(S)` does not return Full (-1), then `hash_search(S)` on
the resulting table returns Found (0). -/
theorem hash_search_after_hash_add (hash : HashTable) (S : STATE) (hS : S.id ≠ 0)
    (h : (hash_add hash S).1 ≠ -1) :
    hash_search (hash_add hash S).2 S = 0 :=
  hash_search_after_add_loop _ (rotate_canon_id_ne_zero S hS) hash HASH_SIZ 0 h

theorem hash_search_after_hash_add_witness :
    (⟨0xffffffff, 0, 32⟩ : STATE).id ≠ 0 ∧
    (hash_add hash_init ⟨0xffffffff, 0, 32⟩).1 ≠ -1 ∧
    hash_search (hash_add hash_init ⟨0xffffffff, 0, 32⟩).2 ⟨0xffffffff, 0, 32⟩ = 0 :=
  ⟨by decide, by decide,
    hash_search_after_hash_add hash_init ⟨0xffffffff, 0, 32⟩ (by decide) (by decide)⟩

/-- C7 fails as stated: on the empty table `hash_add` stores the goal state
(id 0) and returns 0, yet `hash_search` for it then returns -1, because a slot
with id 0 is read as empty. -/
theorem hash_search_after_hash_add_goal_state :
    (hash_add hash_init final_state).1 = 0 ∧
    hash_search (hash_add hash_init final_state).2 final_state = -1 := by
  decide

/-- C8 (as amended): for every table content and every state `S` whose id is
not zero, if a first `hash_add(S)` does not return Full (-1), an immediately
following `hash_add(S)` returns Duplicate (1). -/
theorem hash_add_twice (hash : HashTable) (S : STATE) (hS : S.id ≠ 0)
    (h : (hash_add hash S).1 ≠ -1) :
    (hash_add (hash_add hash S).2 S).1 = 1 :=
  hash_add_again_loop _ (rotate_canon_id_ne_zero S hS) hash HASH_SIZ 0 h

theorem hash_add_twice_witness :
    (⟨0xffffffff, 0, 32⟩ : STATE).id ≠ 0 ∧
    (hash_add hash_init ⟨0xffffffff, 0, 32⟩).1 ≠ -1 ∧
    (hash_add (hash_add hash_init ⟨0xffffffff, 0, 32⟩).2 ⟨0xffffffff, 0, 32⟩).1 = 1 :=
  ⟨by decide, by decide, hash_add_twice hash_init ⟨0xffffffff, 0, 32⟩ (by decide) (by decide)⟩

/-- C8 fails as stated: on the empty table two successive `hash_add` calls
for the goal state (id 0) both return 0 (added); the second is not reported as
a duplicate. -/
theorem hash_add_twice_goal_state :
    (hash_add hash_init final_state).1 = 0 ∧
    (hash_add (hash_add hash_init final_state).2 final_state).1 = 0 := by
  decide

/-! ## Bit counting and bitwise facts about a quarter turn -/

theorem rotId_eq_arith (x : Nat) :
    rotId x = 2 ^ 8 * (x % 2 ^ 24) + x / 2 ^ 24 % 2 ^ 8 := by
  simp only [rotId, ofBytes, byteAt]
  norm_num
  omega

theorem testBit_rotId (x i : Nat) :
    (rotId x).testBit i = (decide (i < 32) && x.testBit ((i + 24) % 32)) := by
  rw [rotId_eq_arith, Nat.testBit_mul_pow_two_add _ (Nat.mod_lt _ (by norm_num))]
  by_cases h : i < 8
  · have e : (i + 24) % 32 = 24 + i := by omega
    have h32 : i < 32 := by omega
    simp only [h, if_true, Nat.testBit_mod_two_pow, e, h32, decide_True, Bool.true_and]
    rw [← Nat.shiftRight_eq_div_pow, Nat.testBit_shiftRight]
  · simp only [h, if_false, Nat.testBit_mod_two_pow]
    by_cases h32 : i < 32
    · have e : (i + 24) % 32 = i - 8 := by omega
      have h24 : i - 8 < 24 := by omega
      simp [h32, e, h24]
    · have h24 : ¬ (i - 8 < 24) := by omega
      simp [h32, h24]

theorem rotId_and (a b : Nat) : rotId (a &&& b) = rotId a &&& rotId b := by
  apply Nat.eq_of_testBit_eq
  intro i
  simp only [testBit_rotId, Nat.testBit_and]
  cases decide (i < 32) <;> simp

theorem rotId_xor (a b : Nat) : rotId (a ^^^ b) = rotId a ^^^ rotId b := by
  apply Nat.eq_of_testBit_eq
  intro i
  simp only [testBit_rotId, Nat.testBit_xor]
  cases decide (i < 32) <;> simp

theorem rotId_eq_rotl8 (x : Nat) (hx : x < UINT) : rotId x = rotl8 x := by
  apply Nat.eq_of_testBit_eq
  intro i
  have hx' : x < 2 ^ 32 := hx
  simp only [testBit_rotId, rotl8, Nat.testBit_or, Nat.testBit_shiftRight, UINT,
    show (4294967296 : Nat) = 2 ^ 32 by norm_num, Nat.testBit_mod_two_pow, Nat.testBit_shiftLeft]
  by_cases h8 : i < 8
  · have e : (i + 24) % 32 = 24 + i := by omega
    have : ¬ (i ≥ 8) := by omega
    have h32 : i < 32 := by omega
    simp [e, this, h32]
  · by_cases h32 : i < 32
    · have e : (i + 24) % 32 = i - 8 := by omega
      have : i ≥ 8 := by omega
      have hb : x.testBit (24 + i) = false :=
        Nat.testBit_lt_two_pow (lt_of_lt_of_le hx' (Nat.pow_le_pow_right (by norm_num) (by omega)))
      simp [e, this, h32, hb]
    · have hb : x.testBit (24 + i) = false :=
        Nat.testBit_lt_two_pow (lt_of_lt_of_le hx' (Nat.pow_le_pow_right (by norm_num) (by omega)))
      simp [h32, hb]

theorem bitsBelow_xor (x m n : Nat) :
    bitsBelow (x ^^^ m) n + 2 * bitsBelow (x &&& m) n = bitsBelow x n + bitsBelow m n := by
  induction n with
  | zero => rfl
  | succ n ih =>
    simp only [bitsBelow, Nat.testBit_xor, Nat.testBit_and]
    cases x.testBit n <;> cases m.testBit n <;> simp <;> omega

theorem bitsBelow_le (x n : Nat) : bitsBelow x n ≤ n := by
  induction n with
  | zero => exact Nat.le_refl 0
  | succ n ih =>
    simp only [bitsBelow]
    split_ifs <;> omega

/-! ## The move table and successor states -/

set_option maxRecDepth 1000000 in
theorem table_shape : ∀ p, p < 33 → ∀ d, d < 4 → (tableAt (4 * p + d)).allowed ≠ 0 →
    (tableAt (4 * p + d)).mask_id =
        (if p < 32 then (1 <<< p) % UINT else 0) ||| (tableAt (4 * p + d)).next_id ∧
    popcount (tableAt (4 * p + d)).mask_id + (tableAt (4 * p + d)).mask_slack = 3 ∧
    popcount (tableAt (4 * p + d)).next_id + (tableAt (4 * p + d)).next_slack = 2 ∧
    (tableAt (4 * p + d)).next_slack ≤ 1 ∧
    (if p < 32 then (tableAt (4 * p + d)).mask_slack = (tableAt (4 * p + d)).next_slack
      else (tableAt (4 * p + d)).mask_slack = 1 ∧ (tableAt (4 * p + d)).next_slack = 0) := by
  decide

theorem new_state_peg_count (S : STATE) (hslack : S.slack ≤ 1) (hinv : peg_count_ok S)
    (pin d : Nat) (hp : pin < 33) (hd : d < 4) (hfree : solve_sub_free S pin)
    (hlegal : solve_pin_legal S (tableAt (4 * pin + d))) :
    peg_count_ok (solve_pin_new_state S (tableAt (4 * pin + d))) ∧
      (solve_pin_new_state S (tableAt (4 * pin + d))).slack ≤ 1 := by
  obtain ⟨hallowed, hid, hsl⟩ := hlegal
  obtain ⟨hmask, hpm, hpn, hns, hcase⟩ := table_shape pin hp d hd hallowed
  generalize tableAt (4 * pin + d) = e at *
  obtain ⟨x, sl, pins⟩ := S
  obtain ⟨al, rk, nid, mid, nsl, msl⟩ := e
  simp only [peg_count_ok, popcount, solve_pin_new_state, solve_sub_free] at *
  have hb := bitsBelow_le x 32
  have hand : x &&& mid = nid := by
    rw [hmask, Nat.and_or_distrib_left, hid]
    by_cases hlt : pin < 32
    · rw [if_pos hlt] at hfree ⊢
      rw [hfree, Nat.zero_or]
    · rw [if_neg hlt, Nat.and_zero, Nat.zero_or]
  have hx := bitsBelow_xor x mid 32
  rw [hand] at hx
  have hs : sl = 0 ∨ sl = 1 := by omega
  have hn : nsl = 0 ∨ nsl = 1 := by omega
  by_cases hlt : pin < 32
  · rw [if_pos hlt] at hcase
    subst hcase
    rcases hs with rfl | rfl <;> rcases hn with rfl | rfl <;>
      first
      | exact absurd hsl (by decide)
      | (refine ⟨?_, by decide⟩
         norm_num
         omega)
  · rw [if_neg hlt] at hcase hfree
    obtain ⟨rfl, rfl⟩ := hcase
    rcases hs with rfl | rfl
    · refine ⟨?_, by decide⟩
      norm_num
      omega
    · exact absurd hfree (by decide)

set_option maxRecDepth 1000000 in
theorem table_rotation_rotId : ∀ p, p < 33 → ∀ d, d < 4 →
    (tableAt (4 * rho p + (d + 1) % 4)).allowed = (tableAt (4 * p + d)).allowed ∧
    ((tableAt (4 * p + d)).allowed ≠ 0 →
      (tableAt (4 * rho p + (d + 1) % 4)).mask_id = rotId (tableAt (4 * p + d)).mask_id ∧
      (tableAt (4 * rho p + (d + 1) % 4)).next_id = rotId (tableAt (4 * p + d)).next_id ∧
      (tableAt (4 * rho p + (d + 1) % 4)).mask_slack = (tableAt (4 * p + d)).mask_slack ∧
      (tableAt (4 * rho p + (d + 1) % 4)).next_slack = (tableAt (4 * p + d)).next_slack) := by
  decide

set_option maxRecDepth 1000000 in
theorem table_rotation_rotl8 : ∀ p, p < 33 → ∀ d, d < 4 →
    (tableAt (4 * rho p + (d + 1) % 4)).allowed = (tableAt (4 * p + d)).allowed ∧
    ((tableAt (4 * p + d)).allowed ≠ 0 →
      (tableAt (4 * rho p + (d + 1) % 4)).mask_id = rotl8 (tableAt (4 * p + d)).mask_id ∧
      (tableAt (4 * rho p + (d + 1) % 4)).next_id = rotl8 (tableAt (4 * p + d)).next_id ∧
      (tableAt (4 * rho p + (d + 1) % 4)).mask_slack = (tableAt (4 * p + d)).mask_slack ∧
      (tableAt (4 * rho p + (d + 1) % 4)).next_slack = (tableAt (4 * p + d)).next_slack) := by
  decide

theorem rotId_hole_bit : ∀ p, p < 32 →
    rotId ((1 <<< p) % UINT) = (1 <<< rho p) % UINT ∧ rho p < 32 := by
  decide

theorem rotate_commutes_with_move (S : STATE) (p d : Nat) (hp : p < 33) (hd : d < 4)
    (hfree : solve_sub_free S p) (hlegal : solve_pin_legal S (tableAt (4 * p + d))) :
    solve_sub_free (rotate S 1) (rho p) ∧
    solve_pin_legal (rotate S 1) (tableAt (4 * rho p + (d + 1) % 4)) ∧
    solve_pin_new_state (rotate S 1) (tableAt (4 * rho p + (d + 1) % 4)) =
      rotate (solve_pin_new_state S (tableAt (4 * p + d))) 1 := by
  obtain ⟨hallowed, hid, hsl⟩ := hlegal
  obtain ⟨hal, hrest⟩ := table_rotation_rotId p hp d hd
  obtain ⟨hm, hn, hms, hns⟩ := hrest hallowed
  have h0 : rotId 0 = 0 := by decide
  rw [rotate_one, rotate_one]
  refine ⟨?_, ⟨?_, ?_, ?_⟩, ?_⟩
  · by_cases hlt : p < 32
    · obtain ⟨hb, hr⟩ := rotId_hole_bit p hlt
      simp only [solve_sub_free, PINS, if_pos hlt, if_pos hr] at hfree ⊢
      rw [← hb, ← rotId_and, hfree, h0]
    · have hr : rho p = 32 := by simp [rho, hlt]
      simp only [solve_sub_free, PINS, if_neg hlt, hr, lt_irrefl, if_false] at hfree ⊢
      exact hfree
  · rw [hal]; exact hallowed
  · dsimp only
    rw [hn, ← rotId_and, hid]
  · dsimp only
    rw [hns]; exact hsl
  · simp only [solve_pin_new_state, hm, hms, rotId_xor]

theorem mem_solve_sub_new_states {S T : STATE} (h : T ∈ solve_sub_new_states S) :
    ∃ pin d, pin < 33 ∧ d < 4 ∧ solve_sub_free S pin ∧
      solve_pin_legal S (tableAt (4 * pin + d)) ∧
      T = solve_pin_new_state S (tableAt (4 * pin + d)) := by
  have hpin : ∀ pin, T ∈ solve_pin_new_states S (4 * pin) →
      ∃ d, d < 4 ∧ solve_pin_legal S (tableAt (4 * pin + d)) ∧
        T = solve_pin_new_state S (tableAt (4 * pin + d)) := by
    intro pin hT
    simp only [solve_pin_new_states, List.mem_filterMap, List.mem_range] at hT
    obtain ⟨d, hd, hT⟩ := hT
    by_cases hl : solve_pin_legal S (tableAt (4 * pin + d))
    · rw [if_pos hl] at hT
      exact ⟨d, hd, hl, (Option.some.inj hT).symm⟩
    · rw [if_neg hl] at hT
      exact absurd hT (by simp)
  simp only [solve_sub_new_states, List.mem_append, List.mem_flatMap, List.mem_range] at h
  rcases h with ⟨pin, hlt, hT⟩ | hT
  · by_cases hf : solve_sub_free S pin
    · rw [if_pos hf] at hT
      obtain ⟨d, hd, hl, e⟩ := hpin pin hT
      exact ⟨pin, d, Nat.lt_succ_of_lt hlt, hd, hf, hl, e⟩
    · rw [if_neg hf] at hT
      exact absurd hT (List.not_mem_nil _)
  · by_cases hf : solve_sub_free S SL
    · rw [if_pos hf] at hT
      obtain ⟨d, hd, hl, e⟩ := hpin SL hT
      exact ⟨SL, d, by decide, hd, hf, hl, e⟩
    · rw [if_neg hf] at hT
      exact absurd hT (List.not_mem_nil _)

/-! ## Moves: peg count and rotation -/

/-- C2: a successor state built by `solve_sub` / `solve_pin` from a state with
`popcount(id) + slack == pins` and slack 0 or 1 (an allowed entry of the table
whose destination hole is free and whose jumped and jumping holes are
occupied, applied as `id ^ mask_id`, `slack ^ mask_slack`, `pins - 1`) again
satisfies `popcount(id) + slack == pins`, with slack 0 or 1; so does every
member of the list of successors the two loops build; the start state and the
goal state satisfy it too. -/
theorem peg_count_invariant :
    (∀ S : STATE, S.slack ≤ 1 → peg_count_ok S →
      ∀ pin d : Nat, pin < 33 → d < 4 → solve_sub_free S pin →
        solve_pin_legal S (tableAt (4 * pin + d)) →
        peg_count_ok (solve_pin_new_state S (tableAt (4 * pin + d))) ∧
          (solve_pin_new_state S (tableAt (4 * pin + d))).slack ≤ 1) ∧
    (∀ S : STATE, S.slack ≤ 1 → peg_count_ok S →
      ∀ T ∈ solve_sub_new_states S, peg_count_ok T ∧ T.slack ≤ 1) ∧
    peg_count_ok start_state ∧ peg_count_ok final_state := by
  refine ⟨fun S hslack hinv pin d hp hd hfree hlegal =>
      new_state_peg_count S hslack hinv pin d hp hd hfree hlegal, ?_, by decide, by decide⟩
  intro S hslack hinv T hT
  obtain ⟨pin, d, hp, hd, hfree, hlegal, rfl⟩ := mem_solve_sub_new_states hT
  exact new_state_peg_count S hslack hinv pin d hp hd hfree hlegal

set_option maxRecDepth 1000000 in
theorem peg_count_invariant_witness :
    start_state.slack ≤ 1 ∧ peg_count_ok start_state ∧ solve_sub_free start_state 32 ∧
    solve_pin_legal start_state (tableAt (4 * 32 + 0)) ∧
    solve_pin_new_state start_state (tableAt (4 * 32 + 0)) = ⟨0xffffff6f, 1, 31⟩ ∧
    peg_count_ok (solve_pin_new_state start_state (tableAt (4 * 32 + 0))) ∧
    (⟨0xff7fffef, 0, 30⟩ : STATE) ∈ solve_sub_new_states ⟨0xffffff6f, 1, 31⟩ ∧
    peg_count_ok ⟨0xff7fffef, 0, 30⟩ :=
  ⟨by decide, by decide, by decide, by decide, by decide,
    (peg_count_invariant.1 start_state (by decide) (by decide) 32 0 (by decide) (by decide)
      (by decide) (by decide)).1,
    by decide,
    (peg_count_invariant.2.1 ⟨0xffffff6f, 1, 31⟩ (by decide) (by decide) ⟨0xff7fffef, 0, 30⟩
      (by decide)).1⟩

/-- C6: byte rotation is board rotation and commutes with moves.  One quarter
turn leaves slack and pins alone and carries bit `n` of the id to bit
`(n + 8) mod 32` (it is the 32-bit id rotated left by 8 bits); the table entry
for `(rho p, (d + 1) mod 4)` has the allowed flag of the entry for `(p, d)`
and, when allowed, its `mask_id` and `next_id` rotated left by 8 bits with the
same `mask_slack` and `next_slack`; hence an entry `(p, d)` that is a legal
move in `S` producing `T` makes `(rho p, (d + 1) mod 4)` a legal move in
`rotate(S,1)` producing `rotate(T,1)`. -/
theorem byte_rotation_is_board_rotation :
    (∀ S : STATE,
      (rotate S 1).slack = S.slack ∧ (rotate S 1).pins = S.pins ∧
      (∀ n, n < 32 → (rotate S 1).id.testBit ((n + 8) % 32) = S.id.testBit n) ∧
      (S.id < UINT → (rotate S 1).id = rotl8 S.id)) ∧
    (∀ p, p < 33 → ∀ d, d < 4 →
      (tableAt (4 * rho p + (d + 1) % 4)).allowed = (tableAt (4 * p + d)).allowed ∧
      ((tableAt (4 * p + d)).allowed ≠ 0 →
        (tableAt (4 * rho p + (d + 1) % 4)).mask_id = rotl8 (tableAt (4 * p + d)).mask_id ∧
        (tableAt (4 * rho p + (d + 1) % 4)).next_id = rotl8 (tableAt (4 * p + d)).next_id ∧
        (tableAt (4 * rho p + (d + 1) % 4)).mask_slack = (tableAt (4 * p + d)).mask_slack ∧
        (tableAt (4 * rho p + (d + 1) % 4)).next_slack =
          (tableAt (4 * p + d)).next_slack)) ∧
    (∀ (S : STATE) (p d : Nat), p < 33 → d < 4 → solve_sub_free S p →
      solve_pin_legal S (tableAt (4 * p + d)) →
      solve_sub_free (rotate S 1) (rho p) ∧
      solve_pin_legal (rotate S 1) (tableAt (4 * rho p + (d + 1) % 4)) ∧
      solve_pin_new_state (rotate S 1) (tableAt (4 * rho p + (d + 1) % 4)) =
        rotate (solve_pin_new_state S (tableAt (4 * p + d))) 1) := by
  refine ⟨fun S => ⟨by rw [rotate_one], by rw [rotate_one], ?_, ?_⟩, table_rotation_rotl8,
    rotate_commutes_with_move⟩
  · intro n hn
    have e : ((n + 8) % 32 + 24) % 32 = n := by omega
    have h32 : (n + 8) % 32 < 32 := Nat.mod_lt _ (by norm_num)
    rw [rotate_one]
    simp only [testBit_rotId, e, h32, decide_True, Bool.true_and]
  · intro hS
    rw [rotate_one]
    exact rotId_eq_rotl8 S.id hS

set_option maxRecDepth 1000000 in
theorem byte_rotation_is_board_rotation_witness :
    (rotate ⟨0x01020304, 0, 5⟩ 1).id = rotl8 0x01020304 ∧
    (tableAt (4 * 7 + 2)).allowed ≠ 0 ∧
    (tableAt (4 * rho 7 + (2 + 1) % 4)).mask_id = rotl8 (tableAt (4 * 7 + 2)).mask_id ∧
    solve_sub_free ⟨0xffffff6f, 1, 31⟩ 7 ∧
    solve_pin_legal ⟨0xffffff6f, 1, 31⟩ (tableAt (4 * 7 + 2)) ∧
    solve_sub_free (rotate ⟨0xffffff6f, 1, 31⟩ 1) (rho 7) ∧
    solve_pin_legal (rotate ⟨0xffffff6f, 1, 31⟩ 1) (tableAt (4 * rho 7 + (2 + 1) % 4)) ∧
    solve_pin_new_state (rotate ⟨0xffffff6f, 1, 31⟩ 1) (tableAt (4 * rho 7 + (2 + 1) % 4)) =
      rotate (solve_pin_new_state ⟨0xffffff6f, 1, 31⟩ (tableAt (4 * 7 + 2))) 1 :=
  ⟨(byte_rotation_is_board_rotation.1 ⟨0x01020304, 0, 5⟩).2.2.2 (by decide),
    by decide,
    ((byte_rotation_is_board_rotation.2.1 7 (by decide) 2 (by decide)).2 (by decide)).1,
    by decide, by decide,
    byte_rotation_is_board_rotation.2.2 ⟨0xffffff6f, 1, 31⟩ 7 2 (by decide) (by decide)
      (by decide) (by decide)⟩

/-! ## The probe sequence -/

theorem DOUBLE_HASH_lt (k i : Nat) : DOUBLE_HASH k i < PRIME_1 :=
  Nat.mod_lt _ (by norm_num)

theorem DOUBLE_HASH_eq_probe_exact (k i : Nat) (hi : i < UINT)
    (h : k % PRIME_1 + i * (1 + k % PRIME_2) < UINT) :
    DOUBLE_HASH k i = probe_exact k i := by
  have h2 : 1 + k % PRIME_2 < UINT := by
    have := Nat.mod_lt k (show 0 < PRIME_2 by norm_num)
    simp only [PRIME_2, UINT] at *
    omega
  have h3 : i * (1 + k % PRIME_2) < UINT := by omega
  simp only [DOUBLE_HASH, HASH_1, HASH_2, probe_exact, Nat.mod_eq_of_lt hi,
    Nat.mod_eq_of_lt h2, Nat.mod_eq_of_lt h3, Nat.mod_eq_of_lt h]

/-- C9, evaluated on the code: for the id of the start state the probes
number 726 and 693743 of `DOUBLE_HASH` address the same slot 397457, both
below `PRIME_1`, so the probe sequence is not a permutation of the slots. -/
theorem double_hash_probe_repeats :
    DOUBLE_HASH 0xffffffff 726 = 397457 ∧ DOUBLE_HASH 0xffffffff 693743 = 397457 ∧
    726 < PRIME_1 ∧ 693743 < PRIME_1 ∧
    probe_exact 0xffffffff 726 = 397457 ∧ probe_exact 0xffffffff 693743 = 1057466 := by
  decide

/-- C10, evaluated on the code: for the id of the start state and probe
number 3110 (below `PRIME_1`) the macro `DOUBLE_HASH`, computed in 32-bit
unsigned arithmetic, yields 51800 while the exact-integer formula yields
1426667. -/
theorem double_hash_wraps :
    DOUBLE_HASH 0xffffffff 3110 = 51800 ∧ probe_exact 0xffffffff 3110 = 1426667 ∧
    3110 < PRIME_1 := by
  decide

/-! ## The hash table: exhaustion -/
theorem hash_add_loop_full (rotate : STATE) (hash : HashTable)
    (h : ∀ i, (hash (DOUBLE_HASH rotate.id i)).id ≠ 0 ∧
      (hash (DOUBLE_HASH rotate.id i)).id ≠ rotate.id) (todo i : Nat) :
    hash_add_loop rotate hash todo i = (-1, hash) := by
  induction todo generalizing i with
  | zero => rfl
  | succ n ih =>
    rw [hash_add_loop_next rotate hash n i (h i).1 (fun hm => (h i).2 hm.1)]
    exact ih (i + 1)

theorem DOUBLE_HASH_period (i : Nat) :
    DOUBLE_HASH 0xfffaef0e i = DOUBLE_HASH 0xfffaef0e (i % 4096) := by
  have h2 : HASH_2 0xfffaef0e = 1048576 := by decide
  have key : (i % 4294967296 * 1048576) % 4294967296 =
      (i % 4096 % 4294967296 * 1048576) % 4294967296 := by omega
  simp only [DOUBLE_HASH, h2, UINT, key]

set_option maxRecDepth 1000000 in
theorem DOUBLE_HASH_misses_slot_zero_grid :
    ∀ a, a < 64 → ∀ b, b < 64 → DOUBLE_HASH 0xfffaef0e (64 * a + b) ≠ 0 := by
  decide

theorem DOUBLE_HASH_misses_slot_zero (i : Nat) : DOUBLE_HASH 0xfffaef0e i ≠ 0 := by
  rw [DOUBLE_HASH_period]
  have h := DOUBLE_HASH_misses_slot_zero_grid (i % 4096 / 64) (by omega) (i % 4096 % 64)
    (by omega)
  have e : 64 * (i % 4096 / 64) + i % 4096 % 64 = i % 4096 := by omega
  rwa [e] at h

theorem xor_and_one_twice (s m : Nat) (hs : s ≤ 1) : ((s ^^^ m) &&& 1 ^^^ m) &&& 1 = s := by
  apply Nat.eq_of_testBit_eq
  intro i
  have h1 : ∀ k, Nat.testBit 1 k = decide (k = 0) := by
    intro k
    rw [show (1 : Nat) = 2 ^ 0 by norm_num, Nat.testBit_two_pow]
    by_cases hk : k = 0 <;> simp [hk, eq_comm]
  have hsb : ∀ k, k ≠ 0 → s.testBit k = false := by
    intro k hk
    apply Nat.testBit_lt_two_pow
    calc s < 2 := by omega
      _ = 2 ^ 1 := by norm_num
      _ ≤ 2 ^ k := Nat.pow_le_pow_right (by norm_num) (by omega)
  simp only [Nat.testBit_and, Nat.testBit_xor, h1]
  by_cases hi : i = 0
  · subst hi
    cases s.testBit 0 <;> cases m.testBit 0 <;> simp
  · simp [hi, hsb i hi]

/-! ## Moves: inverse, table contents -/

/-- C12: a move is its own inverse on id and slack: for every table entry (in
fact for every `UPDATE` value) and every state whose slack is 0 or 1, applying
`id ^ mask_id`, `(slack ^ mask_slack) & 1` twice gives back the id and the
slack of the state. -/
theorem move_twice_is_identity (S : STATE) (hs : S.slack ≤ 1) :
    (∀ u : UPDATE,
      (solve_pin_new_state (solve_pin_new_state S u) u).id = S.id ∧
      (solve_pin_new_state (solve_pin_new_state S u) u).slack = S.slack) ∧
    (∀ k, k < BOARD * 4 →
      (solve_pin_new_state (solve_pin_new_state S (tableAt k)) (tableAt k)).id = S.id ∧
      (solve_pin_new_state (solve_pin_new_state S (tableAt k)) (tableAt k)).slack =
        S.slack) := by
  have h : ∀ u : UPDATE,
      (solve_pin_new_state (solve_pin_new_state S u) u).id = S.id ∧
      (solve_pin_new_state (solve_pin_new_state S u) u).slack = S.slack := by
    intro u
    refine ⟨?_, ?_⟩
    · simp only [solve_pin_new_state]
      rw [Nat.xor_assoc, Nat.xor_self, Nat.xor_zero]
    · simp only [solve_pin_new_state]
      exact xor_and_one_twice S.slack u.mask_slack hs
  exact ⟨h, fun k _ => h (tableAt k)⟩

set_option maxRecDepth 1000000 in
theorem move_twice_is_identity_witness :
    (⟨0xffffff6f, 1, 31⟩ : STATE).slack ≤ 1 ∧
    solve_pin_new_state ⟨0xffffff6f, 1, 31⟩ (tableAt 30) = ⟨0xff7fffef, 0, 30⟩ ∧
    (solve_pin_new_state (solve_pin_new_state ⟨0xffffff6f, 1, 31⟩ (tableAt 30))
      (tableAt 30)).id = 0xffffff6f ∧
    (solve_pin_new_state (solve_pin_new_state ⟨0xffffff6f, 1, 31⟩ (tableAt 30))
      (tableAt 30)).slack = 1 :=
  ⟨by decide, by decide,
    (move_twice_is_identity ⟨0xffffff6f, 1, 31⟩ (by decide)).2 30 (by decide)⟩

set_option maxRecDepth 1000000 in
theorem board_layout : (∀ r : Nat, r < 7 → ∀ c : Nat, c < 7 →
      (on_cross r c = true ↔ hole_at r c ≠ -1)) ∧
    (∀ p, p < 33 → on_cross (hole_row p) (hole_col p) = true ∧
        hole_at (hole_row p) (hole_col p) = p) := by
  decide

set_option maxRecDepth 1000000 in
theorem table_allowed_geometry : ∀ p, p < 33 → ∀ d, d < 4 →
    ((tableAt (4 * p + d)).allowed = 1 ↔
      (on_cross (hole_row p + dir_row d) (hole_col p + dir_col d) = true ∧
       on_cross (hole_row p + 2 * dir_row d) (hole_col p + 2 * dir_col d) = true)) := by
  decide

set_option maxRecDepth 1000000 in
theorem table_allowed_count : table.length = BOARD * 4 ∧
    (table.filter fun u => u.allowed = 1).length = 76 ∧
    (∀ k, k < BOARD * 4 → (tableAt k).allowed = 0 ∨ (tableAt k).allowed = 1) := by
  decide

/-- C13: after `initialize_table` the table has `BOARD * 4 = 132` entries, of
which exactly 76 have `allowed == 1` (the others have `allowed == 0`); entry
`(p, d)` is allowed exactly when the cell next to hole `p` in direction `d`
(0 = up, 1 = right, 2 = down, 3 = left) and the cell two steps away both lie on
the 33-hole cross.  The cross is given by its shape (`on_cross`); the position
of each numbered hole is the one `arr` gives it. -/
theorem initialize_table_allowed :
    table.length = BOARD * 4 ∧
    (table.filter fun u => u.allowed = 1).length = 76 ∧
    (∀ k, k < BOARD * 4 → (tableAt k).allowed = 0 ∨ (tableAt k).allowed = 1) ∧
    (∀ p, p < 33 → ∀ d, d < 4 →
      ((tableAt (4 * p + d)).allowed = 1 ↔
        (on_cross (hole_row p + dir_row d) (hole_col p + dir_col d) = true ∧
         on_cross (hole_row p + 2 * dir_row d) (hole_col p + 2 * dir_col d) = true))) ∧
    (∀ r : Nat, r < 7 → ∀ c : Nat, c < 7 → (on_cross r c = true ↔ hole_at r c ≠ -1)) ∧
    (∀ p, p < 33 → on_cross (hole_row p) (hole_col p) = true ∧
        hole_at (hole_row p) (hole_col p) = p) :=
  ⟨table_allowed_count.1, table_allowed_count.2.1, table_allowed_count.2.2,
    table_allowed_geometry, board_layout.1, board_layout.2⟩

set_option maxRecDepth 1000000 in
theorem table_holes : ∀ p, p < 33 → ∀ d, d < 4 → (tableAt (4 * p + d)).allowed ≠ 0 →
    (tableAt (4 * p + d)).rank = 4 * p + d ∧
    0 ≤ hole_step p d 1 ∧ hole_step p d 1 ≤ 32 ∧ 0 ≤ hole_step p d 2 ∧ hole_step p d 2 ≤ 32 := by
  decide

set_option maxRecDepth 1000000 in
theorem table_holes_distinct : ∀ p, p < 33 → ∀ d, d < 4 → (tableAt (4 * p + d)).allowed ≠ 0 →
    hole_step p d 1 ≠ p ∧ hole_step p d 2 ≠ p ∧ hole_step p d 1 ≠ hole_step p d 2 := by
  decide

set_option maxRecDepth 1000000 in
theorem table_masks : ∀ p, p < 33 → ∀ d, d < 4 → (tableAt (4 * p + d)).allowed ≠ 0 →
    (tableAt (4 * p + d)).next_id = hole_id_bit (hole_step p d 1) + hole_id_bit (hole_step p d 2) ∧
    (tableAt (4 * p + d)).next_slack =
      hole_slack_bit (hole_step p d 1) + hole_slack_bit (hole_step p d 2) ∧
    (tableAt (4 * p + d)).mask_id =
      hole_id_bit p + hole_id_bit (hole_step p d 1) + hole_id_bit (hole_step p d 2) ∧
    (tableAt (4 * p + d)).mask_slack =
      hole_slack_bit p + hole_slack_bit (hole_step p d 1) + hole_slack_bit (hole_step p d 2) := by
  decide

set_option maxRecDepth 1000000 in
theorem table_bit_counts : ∀ p, p < 33 → ∀ d, d < 4 → (tableAt (4 * p + d)).allowed ≠ 0 →
    popcount (tableAt (4 * p + d)).next_id + (tableAt (4 * p + d)).next_slack = 2 ∧
    popcount (tableAt (4 * p + d)).mask_id + (tableAt (4 * p + d)).mask_slack = 3 ∧
    (tableAt (4 * p + d)).mask_id < 2 ^ 32 ∧ (tableAt (4 * p + d)).next_id < 2 ^ 32 ∧
    (tableAt (4 * p + d)).next_slack ≤ 1 ∧ (tableAt (4 * p + d)).mask_slack ≤ 1 := by
  decide

set_option maxRecDepth 1000000 in
theorem table_bits : ∀ p, p < 33 → ∀ d, d < 4 → (tableAt (4 * p + d)).allowed ≠ 0 →
    ∀ n, n < 32 →
      ((tableAt (4 * p + d)).next_id.testBit n =
        decide (hole_step p d 1 = n ∨ hole_step p d 2 = n)) ∧
      ((tableAt (4 * p + d)).mask_id.testBit n =
        decide ((p : Int) = n ∨ hole_step p d 1 = n ∨ hole_step p d 2 = n)) := by
  decide

/-- C14: contents of an allowed entry at index `4 * p + d`, with `a` the hole
next to `p` in direction `d` and `b` the hole two steps away: the rank is the
index; `p`, `a`, `b` are three distinct holes in `0 .. 32`; `next_id` /
`next_slack` carry exactly the two bits of `a` and `b`, `mask_id` /
`mask_slack` exactly the three bits of `p`, `a` and `b`, where a hole `n < 32`
is bit `n` of the id and hole 32 is the slack bit and no bit of the 32-bit
id. -/
theorem initialize_table_masks (p d : Nat) (hp : p < 33) (hd : d < 4)
    (ha : (tableAt (4 * p + d)).allowed ≠ 0) :
    (tableAt (4 * p + d)).rank = 4 * p + d ∧
    (0 ≤ hole_step p d 1 ∧ hole_step p d 1 ≤ 32 ∧
      0 ≤ hole_step p d 2 ∧ hole_step p d 2 ≤ 32) ∧
    (hole_step p d 1 ≠ p ∧ hole_step p d 2 ≠ p ∧ hole_step p d 1 ≠ hole_step p d 2) ∧
    (tableAt (4 * p + d)).next_id =
      hole_id_bit (hole_step p d 1) + hole_id_bit (hole_step p d 2) ∧
    (tableAt (4 * p + d)).next_slack =
      hole_slack_bit (hole_step p d 1) + hole_slack_bit (hole_step p d 2) ∧
    (tableAt (4 * p + d)).mask_id =
      hole_id_bit p + hole_id_bit (hole_step p d 1) + hole_id_bit (hole_step p d 2) ∧
    (tableAt (4 * p + d)).mask_slack =
      hole_slack_bit p + hole_slack_bit (hole_step p d 1) +
        hole_slack_bit (hole_step p d 2) ∧
    (∀ n, n < 32 →
      ((tableAt (4 * p + d)).next_id.testBit n =
        decide (hole_step p d 1 = n ∨ hole_step p d 2 = n)) ∧
      ((tableAt (4 * p + d)).mask_id.testBit n =
        decide ((p : Int) = n ∨ hole_step p d 1 = n ∨ hole_step p d 2 = n))) ∧
    popcount (tableAt (4 * p + d)).next_id + (tableAt (4 * p + d)).next_slack = 2 ∧
    popcount (tableAt (4 * p + d)).mask_id + (tableAt (4 * p + d)).mask_slack = 3 ∧
    (tableAt (4 * p + d)).mask_id < 2 ^ 32 ∧ (tableAt (4 * p + d)).next_id < 2 ^ 32 ∧
    (tableAt (4 * p + d)).next_slack ≤ 1 ∧ (tableAt (4 * p + d)).mask_slack ≤ 1 := by
  obtain ⟨h1, h2⟩ := table_holes p hp d hd ha
  obtain ⟨m1, m2, m3, m4⟩ := table_masks p hp d hd ha
  obtain ⟨c1, c2, c3, c4, c5, c6⟩ := table_bit_counts p hp d hd ha
  exact ⟨h1, h2, table_holes_distinct p hp d hd ha, m1, m2, m3, m4,
    table_bits p hp d hd ha, c1, c2, c3, c4, c5, c6⟩

set_option maxRecDepth 1000000 in
theorem initialize_table_masks_witness :
    (tableAt (4 * 7 + 2)).allowed ≠ 0 ∧ hole_step 7 2 1 = 32 ∧ hole_step 7 2 2 = 23 ∧
    (tableAt (4 * 7 + 2)).rank = 4 * 7 + 2 ∧
    (tableAt (4 * 7 + 2)).next_id = 2 ^ 23 ∧ (tableAt (4 * 7 + 2)).next_slack = 1 ∧
    (tableAt (4 * 7 + 2)).mask_id =
      hole_id_bit 7 + hole_id_bit (hole_step 7 2 1) + hole_id_bit (hole_step 7 2 2) :=
  ⟨by decide, by decide, by decide, by decide, by decide, by decide,
    (initialize_table_masks 7 2 (by decide) (by decide) (by decide)).2.2.2.2.2.1⟩

/-! ## Independent moves -/

theorem and_xor_of_disjoint (x m n : Nat) (h : m &&& n = 0) : (x ^^^ m) &&& n = x &&& n := by
  apply Nat.eq_of_testBit_eq
  intro i
  have hi := congrArg (fun t => Nat.testBit t i) h
  simp only [Nat.testBit_and, Nat.zero_testBit] at hi
  simp only [Nat.testBit_and, Nat.testBit_xor]
  cases hx : x.testBit i <;> cases hm : m.testBit i <;> cases hn : n.testBit i <;>
    simp_all

theorem disjoint_of_or (m d n : Nat) (h : m &&& (d ||| n) = 0) :
    m &&& d = 0 ∧ m &&& n = 0 := by
  constructor <;>
  · apply Nat.eq_of_testBit_eq
    intro i
    have hi := congrArg (fun t => Nat.testBit t i) h
    simp only [Nat.testBit_and, Nat.testBit_or, Nat.zero_testBit] at hi
    simp only [Nat.testBit_and, Nat.zero_testBit]
    cases hm : m.testBit i <;> cases hd : d.testBit i <;> cases hn : n.testBit i <;>
      simp_all

theorem xor_one_and_one (s : Nat) : (s ^^^ 1) &&& 1 = 1 - (s &&& 1) := by
  rw [Nat.and_one_is_mod, Nat.and_one_is_mod]
  rcases Nat.mod_two_eq_zero_or_one s with h0 | h1
  · have h : (s ^^^ 1).testBit 0 = true := by
      rw [Nat.testBit_xor, Nat.testBit_zero, Nat.testBit_zero]; simp [h0]
    rw [Nat.testBit_zero] at h
    have := of_decide_eq_true h
    omega
  · have h : (s ^^^ 1).testBit 0 = false := by
      rw [Nat.testBit_xor, Nat.testBit_zero, Nat.testBit_zero]; simp [h1]
    rw [Nat.testBit_zero] at h
    have := of_decide_eq_false h
    omega

theorem solve_sub_free_iff (S : STATE) (p : Nat) :
    solve_sub_free S p ↔
      S.id &&& (if p < 32 then (1 <<< p) % UINT else 0) = 0 ∧
      (S.slack &&& 1) &&& (if p < 32 then 0 else 1) = 0 := by
  unfold solve_sub_free
  by_cases h : p < 32
  · simp [PINS, h]
  · simp [PINS, h]

theorem slack_after (s m : Nat) (hm : m ≤ 1) :
    ((s ^^^ m) &&& 1) &&& 1 = if m = 0 then s &&& 1 else 1 - (s &&& 1) := by
  have hm' : m = 0 ∨ m = 1 := by omega
  rcases hm' with rfl | rfl
  · simp
  · rw [Nat.and_assoc, Nat.and_self, xor_one_and_one]; simp

/-- What a legal move needs of a state, entry by entry of the table: the id
part and the parity of the slack. -/
theorem commute_core (S : STATE) (pa da pb db : Nat) (hpa : pa < 33) (hda : da < 4)
    (hpb : pb < 33) (hdb : db < 4)
    (hdi : (tableAt (4 * pa + da)).mask_id &&& (tableAt (4 * pb + db)).mask_id = 0)
    (hds : (tableAt (4 * pa + da)).mask_slack &&& (tableAt (4 * pb + db)).mask_slack &&& 1 = 0)
    (haa : (tableAt (4 * pa + da)).allowed ≠ 0)
    (hfb : solve_sub_free (solve_pin_new_state S (tableAt (4 * pa + da))) pb)
    (hlb : solve_pin_legal (solve_pin_new_state S (tableAt (4 * pa + da)))
      (tableAt (4 * pb + db))) :
    solve_sub_free S pb ∧ solve_pin_legal S (tableAt (4 * pb + db)) := by
  obtain ⟨hab, hidb, hslb⟩ := hlb
  obtain ⟨hma, _, _, hnsa, hca⟩ := table_shape pa hpa da hda haa
  obtain ⟨hmb, _, _, hnsb, hcb⟩ := table_shape pb hpb db hdb hab
  rw [solve_sub_free_iff] at hfb ⊢
  generalize tableAt (4 * pa + da) = a at *
  generalize tableAt (4 * pb + db) = b at *
  obtain ⟨x, sl, pins⟩ := S
  obtain ⟨ala, rka, nida, mida, nsla, msla⟩ := a
  obtain ⟨alb, rkb, nidb, midb, nslb, mslb⟩ := b
  simp only [solve_pin_new_state, solve_pin_legal] at *
  rw [hmb] at hdi
  obtain ⟨hd1, hd2⟩ := disjoint_of_or _ _ _ hdi
  rw [and_xor_of_disjoint _ _ _ hd1] at hfb
  rw [and_xor_of_disjoint _ _ _ hd2] at hidb
  have hmsa : msla ≤ 1 := by
    by_cases h : pa < 32
    · rw [if_pos h] at hca; omega
    · rw [if_neg h] at hca; omega
  have hmsb : mslb ≤ 1 := by
    by_cases h : pb < 32
    · rw [if_pos h] at hcb; omega
    · rw [if_neg h] at hcb; omega
  refine ⟨⟨hfb.1, ?_⟩, hab, hidb, ?_⟩
  · by_cases h : pb < 32
    · simp [h]
    · rw [if_neg h] at hcb hfb ⊢
      obtain ⟨rfl, rfl⟩ := hcb
      have hmsa0 : msla = 0 := by
        have : msla = 0 ∨ msla = 1 := by omega
        rcases this with h0 | h1
        · exact h0
        · subst h1; simp at hds
      subst hmsa0
      simpa [h] using hfb.2
  · have hn : nslb = 0 ∨ nslb = 1 := by omega
    rcases hn with rfl | rfl
    · simp
    · have hmb1 : mslb = 1 := by
        by_cases h : pb < 32
        · rw [if_pos h] at hcb; omega
        · rw [if_neg h] at hcb; omega
      subst hmb1
      have hmsa0 : msla = 0 := by
        have : msla = 0 ∨ msla = 1 := by omega
        rcases this with h0 | h1
        · exact h0
        · subst h1; simp at hds
      subst hmsa0
      simpa using hslb

theorem commute_forward (S : STATE) (pa da pb db : Nat) (hpa : pa < 33) (hda : da < 4)
    (hpb : pb < 33) (hdb : db < 4)
    (hdi : (tableAt (4 * pa + da)).mask_id &&& (tableAt (4 * pb + db)).mask_id = 0)
    (hds : (tableAt (4 * pa + da)).mask_slack &&& (tableAt (4 * pb + db)).mask_slack &&& 1 = 0)
    (hab : (tableAt (4 * pb + db)).allowed ≠ 0)
    (hfa : solve_sub_free S pa)
    (hla : solve_pin_legal S (tableAt (4 * pa + da))) :
    solve_sub_free (solve_pin_new_state S (tableAt (4 * pb + db))) pa ∧
      solve_pin_legal (solve_pin_new_state S (tableAt (4 * pb + db)))
        (tableAt (4 * pa + da)) := by
  obtain ⟨haa, hida, hsla⟩ := hla
  obtain ⟨hma, _, _, hnsa, hca⟩ := table_shape pa hpa da hda haa
  obtain ⟨hmb, _, _, hnsb, hcb⟩ := table_shape pb hpb db hdb hab
  rw [solve_sub_free_iff] at hfa ⊢
  generalize tableAt (4 * pa + da) = a at *
  generalize tableAt (4 * pb + db) = b at *
  obtain ⟨x, sl, pins⟩ := S
  obtain ⟨ala, rka, nida, mida, nsla, msla⟩ := a
  obtain ⟨alb, rkb, nidb, midb, nslb, mslb⟩ := b
  simp only [solve_pin_new_state, solve_pin_legal] at *
  rw [Nat.and_comm, hma] at hdi
  obtain ⟨hd1, hd2⟩ := disjoint_of_or _ _ _ hdi
  rw [and_xor_of_disjoint _ _ _ hd1, and_xor_of_disjoint _ _ _ hd2]
  have hmsa : msla ≤ 1 := by
    by_cases h : pa < 32
    · rw [if_pos h] at hca; omega
    · rw [if_neg h] at hca; omega
  have hmsb : mslb ≤ 1 := by
    by_cases h : pb < 32
    · rw [if_pos h] at hcb; omega
    · rw [if_neg h] at hcb; omega
  refine ⟨⟨hfa.1, ?_⟩, haa, hida, ?_⟩
  · by_cases h : pa < 32
    · simp [h]
    · rw [if_neg h] at hca
      obtain ⟨rfl, rfl⟩ := hca
      have hmsb0 : mslb = 0 := by
        have : mslb = 0 ∨ mslb = 1 := by omega
        rcases this with h0 | h1
        · exact h0
        · subst h1; simp at hds
      subst hmsb0
      simpa [h] using hfa.2
  · have hn : nsla = 0 ∨ nsla = 1 := by omega
    rcases hn with rfl | rfl
    · simp
    · have hma1 : msla = 1 := by
        by_cases h : pa < 32
        · rw [if_pos h] at hca; omega
        · rw [if_neg h] at hca; omega
      subst hma1
      have hmsb0 : mslb = 0 := by
        have : mslb = 0 ∨ mslb = 1 := by omega
        rcases this with h0 | h1
        · exact h0
        · subst h1; simp at hds
      subst hmsb0
      simpa using hsla

theorem slack_xor_commute (s m n : Nat) :
    ((s ^^^ m) &&& 1 ^^^ n) &&& 1 = ((s ^^^ n) &&& 1 ^^^ m) &&& 1 := by
  apply Nat.eq_of_testBit_eq
  intro i
  simp only [Nat.testBit_and, Nat.testBit_xor]
  cases s.testBit i <;> cases m.testBit i <;> cases n.testBit i <;>
    cases Nat.testBit 1 i <;> rfl

theorem new_state_commute (S : STATE) (a b : UPDATE) :
    solve_pin_new_state (solve_pin_new_state S b) a =
      solve_pin_new_state (solve_pin_new_state S a) b := by
  simp only [solve_pin_new_state, STATE.mk.injEq, and_true]
  exact ⟨by rw [Nat.xor_assoc, Nat.xor_assoc, Nat.xor_comm b.mask_id],
    slack_xor_commute _ _ _⟩

/-- C20: independent moves commute.  For every state `S` and allowed table
entries `a = (pa, da)` and `b = (pb, db)` whose combined masks share no bit
(`mask_id` and `mask_slack`, as `solve_pin` tests it): if `a` is legal in `S`
(destination hole free, next holes occupied) and `b` is legal in `a(S)`, then
`b` is legal in `S`, `a` is legal in `b(S)`, and `a(b(S))` and `b(a(S))` are
the same state (id, slack and pins). -/
theorem independent_moves_commute (S : STATE) (pa da pb db : Nat) (hpa : pa < 33)
    (hda : da < 4) (hpb : pb < 33) (hdb : db < 4)
    (hdi : (tableAt (4 * pa + da)).mask_id &&& (tableAt (4 * pb + db)).mask_id = 0)
    (hds : (tableAt (4 * pa + da)).mask_slack &&& (tableAt (4 * pb + db)).mask_slack &&& 1 = 0)
    (hfa : solve_sub_free S pa) (hla : solve_pin_legal S (tableAt (4 * pa + da)))
    (hfb : solve_sub_free (solve_pin_new_state S (tableAt (4 * pa + da))) pb)
    (hlb : solve_pin_legal (solve_pin_new_state S (tableAt (4 * pa + da)))
      (tableAt (4 * pb + db))) :
    solve_sub_free S pb ∧ solve_pin_legal S (tableAt (4 * pb + db)) ∧
    solve_sub_free (solve_pin_new_state S (tableAt (4 * pb + db))) pa ∧
    solve_pin_legal (solve_pin_new_state S (tableAt (4 * pb + db))) (tableAt (4 * pa + da)) ∧
    solve_pin_new_state (solve_pin_new_state S (tableAt (4 * pb + db))) (tableAt (4 * pa + da)) =
      solve_pin_new_state (solve_pin_new_state S (tableAt (4 * pa + da)))
        (tableAt (4 * pb + db)) := by
  obtain ⟨h1, h2⟩ := commute_core S pa da pb db hpa hda hpb hdb hdi hds hla.1 hfb hlb
  obtain ⟨h3, h4⟩ := commute_forward S pa da pb db hpa hda hpb hdb hdi hds hlb.1 hfa hla
  exact ⟨h1, h2, h3, h4, new_state_commute S _ _⟩

set_option maxRecDepth 1000000 in
theorem independent_moves_commute_witness :
    (tableAt (4 * 23 + 2)).mask_id &&& (tableAt (4 * 32 + 1)).mask_id = 0 ∧
    solve_sub_free ⟨0xff7fffef, 0, 30⟩ 23 ∧
    solve_pin_legal ⟨0xff7fffef, 0, 30⟩ (tableAt (4 * 23 + 2)) ∧
    solve_pin_legal (solve_pin_new_state ⟨0xff7fffef, 0, 30⟩ (tableAt (4 * 23 + 2)))
      (tableAt (4 * 32 + 1)) ∧
    solve_pin_legal ⟨0xff7fffef, 0, 30⟩ (tableAt (4 * 32 + 1)) ∧
    solve_pin_new_state (solve_pin_new_state ⟨0xff7fffef, 0, 30⟩ (tableAt (4 * 32 + 1)))
        (tableAt (4 * 23 + 2)) =
      solve_pin_new_state (solve_pin_new_state ⟨0xff7fffef, 0, 30⟩ (tableAt (4 * 23 + 2)))
        (tableAt (4 * 32 + 1)) :=
  ⟨by decide, by decide, by decide, by decide,
    (independent_moves_commute ⟨0xff7fffef, 0, 30⟩ 23 2 32 1 (by decide) (by decide)
      (by decide) (by decide) (by decide) (by decide) (by decide) (by decide) (by decide)
      (by decide)).2.1,
    (independent_moves_commute ⟨0xff7fffef, 0, 30⟩ 23 2 32 1 (by decide) (by decide)
      (by decide) (by decide) (by decide) (by decide) (by decide) (by decide) (by decide)
      (by decide)).2.2.2.2⟩

/-! ## A proof rule for the search -/

theorem Outcome.meets_ret (R E : Globals → Globals → Prop) (g g1 : Globals) (d : Int) :
    (Outcome.ret d g1).meets R E g = R g g1 := by
  unfold Outcome.meets; rfl

theorem Outcome.meets_exit (R E : Globals → Globals → Prop) (g g1 : Globals) (st : Int) :
    (Outcome.exit st g1).meets R E g = (st = 1 ∧ E g g1) := by
  unfold Outcome.meets; rfl

theorem Outcome.meets_out_of_fuel (R E : Globals → Globals → Prop) (g : Globals) :
    Outcome.out_of_fuel.meets R E g = False := by
  unfold Outcome.meets; rfl

theorem Outcome.meets_trans {R E : Globals → Globals → Prop}
    (Rtrans : ∀ a b c, R a b → R b c → R a c) (REtrans : ∀ a b c, R a b → E b c → E a c)
    {g g1 : Globals} (h1 : R g g1) {o : Outcome} (h2 : o.meets R E g1) : o.meets R E g := by
  cases o with
  | ret d g2 =>
    rw [Outcome.meets_ret] at h2 ⊢
    exact Rtrans _ _ _ h1 h2
  | exit st g2 =>
    rw [Outcome.meets_exit] at h2 ⊢
    exact ⟨h2.1, REtrans _ _ _ h1 h2.2⟩
  | out_of_fuel =>
    rw [Outcome.meets_out_of_fuel] at h2
    exact h2.elim

set_option maxRecDepth 100000 in
theorem solve_pin_loop_succ (rec : Int → Globals → STATE → Outcome) (actual : STATE)
    (pin_4 : Nat) (phase : Int) (todo j : Nat) (g : Globals) :
    solve_pin_loop rec actual pin_4 phase (todo + 1) j g =
      if solve_pin_legal actual (tableAt (pin_4 + j)) then
        if solve_pin_pruned g actual (tableAt (pin_4 + j)) then Outcome.ret 0 g
        else
          match rec phase
            { g with move := Function.update g.move actual.pins (pin_4 + j),
                     move_state := Function.update g.move_state actual.pins
                       (solve_pin_new_state actual (tableAt (pin_4 + j))) }
            (solve_pin_new_state actual (tableAt (pin_4 + j))) with
          | Outcome.ret done g2 =>
            if done ≠ 0 then Outcome.ret done g2
            else solve_pin_loop rec actual pin_4 phase todo (j + 1) g2
          | o => o
      else solve_pin_loop rec actual pin_4 phase todo (j + 1) g := rfl

set_option maxRecDepth 100000 in
theorem solve_sub_loop_succ (rec : Int → Globals → STATE → Outcome) (actual : STATE)
    (phase : Int) (todo pin : Nat) (g : Globals) :
    solve_sub_loop rec actual phase (todo + 1) pin g =
      if actual.id &&& (1 <<< pin) % UINT = 0 then
        match solve_pin rec g actual (4 * pin) phase with
        | Outcome.ret done g1 =>
          if done ≠ 0 then Outcome.ret done g1
          else solve_sub_loop rec actual phase todo (pin + 1) g1
        | o => o
      else solve_sub_loop rec actual phase todo (pin + 1) g := rfl

set_option maxRecDepth 100000 in
theorem solve_succ (fuel : Nat) (phase : Int) (g : Globals) (actual : STATE) :
    solve (fuel + 1) phase g actual =
      if phase = 2 then
        if actual.pins = BOARD - PINS_LEFT then
          Outcome.ret
            (check_phase2_result
              { g with trace := g.trace ++ [Event.solve phase actual] } actual).1
            (check_phase2_result
              { g with trace := g.trace ++ [Event.solve phase actual] } actual).2
        else solve_sub (solve fuel)
          { g with trace := g.trace ++ [Event.solve phase actual] } actual phase
      else
        if (hash_add g.hash actual).1 = 0 then
          if actual.pins = PINS_LEFT then
            if phase = 3 then
              Outcome.ret
                (check_phase3_result
                  { g with hash := (hash_add g.hash actual).2,
                           trace := g.trace ++ [Event.solve phase actual] ++
                             [Event.hash_add actual (hash_add g.hash actual).1] } actual).1
                (check_phase3_result
                  { g with hash := (hash_add g.hash actual).2,
                           trace := g.trace ++ [Event.solve phase actual] ++
                             [Event.hash_add actual (hash_add g.hash actual).1] } actual).2
            else Outcome.ret 0
              { g with hash := (hash_add g.hash actual).2,
                       trace := g.trace ++ [Event.solve phase actual] ++
                         [Event.hash_add actual (hash_add g.hash actual).1] }
          else solve_sub (solve fuel)
            { g with hash := (hash_add g.hash actual).2,
                     trace := g.trace ++ [Event.solve phase actual] ++
                       [Event.hash_add actual (hash_add g.hash actual).1] } actual phase
        else
          if (hash_add g.hash actual).1 = -1 then
            Outcome.exit 1
              { g with hash := (hash_add g.hash actual).2,
                       trace := g.trace ++ [Event.solve phase actual] ++
                         [Event.hash_add actual (hash_add g.hash actual).1] }
          else Outcome.ret 0
            { g with hash := (hash_add g.hash actual).2,
                     trace := g.trace ++ [Event.solve phase actual] ++
                       [Event.hash_add actual (hash_add g.hash actual).1] } := rfl

section rule

variable (rec : Int → Globals → STATE → Outcome) (phase : Int)
  (R E : Globals → Globals → Prop) (PreN : STATE → Prop) (Sub : STATE → Prop)
  (Rrefl : ∀ g, R g g) (Rtrans : ∀ a b c, R a b → R b c → R a c)
  (REtrans : ∀ a b c, R a b → E b c → E a c)
  (hrec : ∀ g s, PreN s → (rec phase g s).meets R E g)
  (hEvSub : ∀ g s, Sub s → R g { g with trace := g.trace ++ [Event.solve_sub s] })
  (hEvPin : ∀ g s p, Sub s →
    R g { g with trace := g.trace ++ [Event.solve_pin s p] })
  (hMove : ∀ g s k v st, Sub s →
    R g { g with move := Function.update g.move k v,
                 move_state := Function.update g.move_state k st })
  (hSucc : ∀ s pin d, Sub s → pin < 33 → d < 4 → solve_sub_free s pin →
    solve_pin_legal s (tableAt (4 * pin + d)) →
    PreN (solve_pin_new_state s (tableAt (4 * pin + d))))

set_option maxRecDepth 100000 in
include Rrefl Rtrans REtrans hrec hMove in
theorem solve_pin_loop_meets (actual : STATE) (hs : Sub actual) (pin_4 : Nat)
    (hnew : ∀ j, j < 4 → solve_pin_legal actual (tableAt (pin_4 + j)) →
      PreN (solve_pin_new_state actual (tableAt (pin_4 + j))))
    (todo j : Nat) (hj : j + todo ≤ 4) (g : Globals) :
    (solve_pin_loop rec actual pin_4 phase todo j g).meets R E g := by
  induction todo generalizing j g with
  | zero => rw [solve_pin_loop, Outcome.meets_ret]; exact Rrefl g
  | succ n ih =>
    rw [solve_pin_loop_succ]
    by_cases hl : solve_pin_legal actual (tableAt (pin_4 + j))
    swap
    · rw [if_neg hl]; exact ih (j + 1) (by omega) g
    rw [if_pos hl]
    by_cases hp : solve_pin_pruned g actual (tableAt (pin_4 + j))
    · rw [if_pos hp, Outcome.meets_ret]; exact Rrefl g
    rw [if_neg hp]
    · have h1 := hMove g actual actual.pins (pin_4 + j)
        (solve_pin_new_state actual (tableAt (pin_4 + j))) hs
      have h2 := hrec
        { g with move := Function.update g.move actual.pins (pin_4 + j),
                 move_state := Function.update g.move_state actual.pins
                   (solve_pin_new_state actual (tableAt (pin_4 + j))) }
        (solve_pin_new_state actual (tableAt (pin_4 + j))) (hnew j (by omega) hl)
      generalize rec phase _ _ = o at h2 ⊢
      cases o with
      | ret d g2 =>
        dsimp only
        split_ifs with hd
        · rw [Outcome.meets_ret] at h2 ⊢; exact Rtrans _ _ _ h1 h2
        · rw [Outcome.meets_ret] at h2
          exact Outcome.meets_trans Rtrans REtrans (Rtrans _ _ _ h1 h2) (ih (j + 1) (by omega) g2)
      | exit st g2 =>
        rw [Outcome.meets_exit] at h2 ⊢
        exact ⟨h2.1, REtrans _ _ _ h1 h2.2⟩
      | out_of_fuel => rw [Outcome.meets_out_of_fuel] at h2; exact h2.elim


set_option maxRecDepth 100000 in
include Rrefl Rtrans REtrans hrec hMove hEvPin in
theorem solve_pin_meets (actual : STATE) (hs : Sub actual) (pin_4 : Nat)
    (hnew : ∀ j, j < 4 → solve_pin_legal actual (tableAt (pin_4 + j)) →
      PreN (solve_pin_new_state actual (tableAt (pin_4 + j)))) (g : Globals) :
    (solve_pin rec g actual pin_4 phase).meets R E g :=
  Outcome.meets_trans Rtrans REtrans (hEvPin g actual pin_4 hs)
    (solve_pin_loop_meets rec phase R E PreN Sub Rrefl Rtrans REtrans hrec hMove actual hs
      pin_4 hnew 4 0 (by omega) _)

set_option maxRecDepth 100000 in
include Rrefl Rtrans REtrans hrec hMove hEvPin hSucc in
theorem solve_sub_loop_meets (actual : STATE) (hs : Sub actual)
    (todo pin : Nat) (hj : pin + todo ≤ 32) (g : Globals) :
    (solve_sub_loop rec actual phase todo pin g).meets R E g := by
  induction todo generalizing pin g with
  | zero => rw [solve_sub_loop, Outcome.meets_ret]; exact Rrefl g
  | succ n ih =>
    rw [solve_sub_loop_succ]
    by_cases hf : actual.id &&& (1 <<< pin) % UINT = 0
    swap
    · rw [if_neg hf]; exact ih (pin + 1) (by omega) g
    rw [if_pos hf]
    have hfree : solve_sub_free actual pin := by
      unfold solve_sub_free
      rw [if_pos (show pin < PINS by simp only [PINS]; omega)]
      exact hf
    have h2 := solve_pin_meets rec phase R E PreN Sub Rrefl Rtrans REtrans hrec hEvPin hMove
      actual hs (4 * pin) (fun j hj4 hl => hSucc actual pin j hs (by omega) hj4 hfree hl) g
    generalize solve_pin rec g actual (4 * pin) phase = o at h2 ⊢
    cases o with
    | ret d g2 =>
      dsimp only
      split_ifs with hd
      · exact h2
      · rw [Outcome.meets_ret] at h2
        exact Outcome.meets_trans Rtrans REtrans h2 (ih (pin + 1) (by omega) g2)
    | exit st g2 => exact h2
    | out_of_fuel => rw [Outcome.meets_out_of_fuel] at h2; exact h2.elim

set_option maxRecDepth 100000 in
include Rrefl Rtrans REtrans hrec hMove hEvPin hEvSub hSucc in
theorem solve_sub_meets (actual : STATE) (hs : Sub actual) (g : Globals) :
    (solve_sub rec g actual phase).meets R E g := by
  have h1 := hEvSub g actual hs
  have h2 := solve_sub_loop_meets rec phase R E PreN Sub Rrefl Rtrans REtrans hrec hEvPin hMove
    hSucc actual hs PINS 0 (by simp only [PINS]; omega)
    { g with trace := g.trace ++ [Event.solve_sub actual] }
  unfold solve_sub
  generalize solve_sub_loop rec actual phase PINS 0
    { g with trace := g.trace ++ [Event.solve_sub actual] } = o at h2 ⊢
  cases o with
  | ret d g2 =>
    dsimp only
    rw [Outcome.meets_ret] at h2
    split_ifs with hd
    · have hfree : solve_sub_free actual SL := by
        unfold solve_sub_free
        rw [if_neg (show ¬ SL < PINS by simp only [SL, PINS]; omega)]
        exact hd.2
      exact Outcome.meets_trans Rtrans REtrans (Rtrans _ _ _ h1 h2)
        (solve_pin_meets rec phase R E PreN Sub Rrefl Rtrans REtrans hrec hEvPin hMove
          actual hs (4 * SL)
          (fun j hj4 hl => hSucc actual SL j hs (by simp only [SL, PINS]; omega) hj4 hfree hl)
          g2)
    · rw [Outcome.meets_ret]; exact Rtrans _ _ _ h1 h2
  | exit st g2 =>
    rw [Outcome.meets_exit] at h2 ⊢
    exact ⟨h2.1, REtrans _ _ _ h1 h2.2⟩
  | out_of_fuel => rw [Outcome.meets_out_of_fuel] at h2; exact h2.elim

end rule

set_option maxRecDepth 100000 in
/-- The proof rule for `solve`: a relation `R` between the globals before and
after, and `E` between the globals before and at `exit(1)`, that each
elementary step of the search respects, is respected by every call whose
argument meets the precondition `Pre`; such a call never runs out of the
recursion budget. -/
theorem solve_meets (phase : Int) (R E : Globals → Globals → Prop)
    (Pre : Nat → STATE → Prop) (Sub : Nat → STATE → Prop)
    (hPre0 : ∀ s, ¬ Pre 0 s)
    (hSub : ∀ n s, Pre (n + 1) s →
      (if phase = 2 then s.pins ≠ BOARD - PINS_LEFT else s.pins ≠ PINS_LEFT) → Sub n s)
    (hSucc : ∀ n s pin d, Sub n s → pin < 33 → d < 4 → solve_sub_free s pin →
      solve_pin_legal s (tableAt (4 * pin + d)) →
      Pre n (solve_pin_new_state s (tableAt (4 * pin + d))))
    (Rrefl : ∀ g, R g g) (Rtrans : ∀ a b c, R a b → R b c → R a c)
    (REtrans : ∀ a b c, R a b → E b c → E a c)
    (hEvSolve : ∀ n g s, Pre (n + 1) s →
      R g { g with trace := g.trace ++ [Event.solve phase s] })
    (hEvSub : ∀ n g s, Sub n s → R g { g with trace := g.trace ++ [Event.solve_sub s] })
    (hEvPin : ∀ n g s p, Sub n s →
      R g { g with trace := g.trace ++ [Event.solve_pin s p] })
    (hMove : ∀ n g s k v st, Sub n s →
      R g { g with move := Function.update g.move k v,
                   move_state := Function.update g.move_state k st })
    (hAdd : phase ≠ 2 → ∀ n g s, Pre (n + 1) s → (hash_add g.hash s).1 ≠ -1 →
      R g { g with hash := (hash_add g.hash s).2,
                   trace := g.trace ++ [Event.hash_add s (hash_add g.hash s).1] })
    (hFull : phase ≠ 2 → ∀ n g s, Pre (n + 1) s → (hash_add g.hash s).1 = -1 →
      E g { g with hash := (hash_add g.hash s).2,
                   trace := g.trace ++ [Event.hash_add s (hash_add g.hash s).1] })
    (hChk2 : ∀ g s, R g (check_phase2_result g s).2)
    (hChk3 : ∀ g s, R g (check_phase3_result g s).2) :
    ∀ fuel g s, Pre fuel s → (solve fuel phase g s).meets R E g := by
  intro fuel
  induction fuel with
  | zero => intro g s h; exact absurd h (hPre0 s)
  | succ n ih =>
    intro g s hpre
    have hev := hEvSolve n g s hpre
    have hsub : ∀ g1, R g g1 →
        (if phase = 2 then s.pins ≠ BOARD - PINS_LEFT else s.pins ≠ PINS_LEFT) →
        (solve_sub (solve n) g1 s phase).meets R E g := by
      intro g1 hg1 hc
      have hs := hSub n s hpre hc
      exact Outcome.meets_trans Rtrans REtrans hg1
        (solve_sub_meets (solve n) phase R E (Pre n) (Sub n) Rrefl Rtrans REtrans
          (fun g s h => ih g s h) (hEvSub n) (hEvPin n) (hMove n) (hSucc n) s hs g1)
    rw [solve_succ]
    by_cases h2 : phase = 2
    · rw [if_pos h2]
      by_cases hp : s.pins = BOARD - PINS_LEFT
      · rw [if_pos hp, Outcome.meets_ret]
        exact Rtrans _ _ _ hev (hChk2 _ _)
      · rw [if_neg hp]
        exact hsub _ hev (by rw [if_pos h2]; exact hp)
    · rw [if_neg h2]
      by_cases hr : (hash_add g.hash s).1 = 0
      · have hadd := hAdd h2 n { g with trace := g.trace ++ [Event.solve phase s] } s hpre
          (by rw [hr]; decide)
        rw [if_pos hr]
        by_cases hp : s.pins = PINS_LEFT
        · rw [if_pos hp]
          by_cases h3 : phase = 3
          · rw [if_pos h3, Outcome.meets_ret]
            exact Rtrans _ _ _ (Rtrans _ _ _ hev hadd) (hChk3 _ _)
          · rw [if_neg h3, Outcome.meets_ret]
            exact Rtrans _ _ _ hev hadd
        · rw [if_neg hp]
          exact hsub _ (Rtrans _ _ _ hev hadd) (by rw [if_neg h2]; exact hp)
      · rw [if_neg hr]
        by_cases hm : (hash_add g.hash s).1 = -1
        · rw [if_pos hm, Outcome.meets_exit]
          exact ⟨rfl, REtrans _ _ _ hev
            (hFull h2 n { g with trace := g.trace ++ [Event.solve phase s] } s hpre hm)⟩
        · rw [if_neg hm, Outcome.meets_ret]
          exact Rtrans _ _ _ hev
            (hAdd h2 n { g with trace := g.trace ++ [Event.solve phase s] } s hpre hm)

/-! ## Pegs fall by one with every move -/

theorem mod_two_xor_and_one (a m : Nat) : (a % 2 ^^^ m) &&& 1 = (a ^^^ m) &&& 1 := by
  rw [Nat.and_one_is_mod, Nat.and_one_is_mod]
  have h : (a % 2 ^^^ m).testBit 0 = (a ^^^ m).testBit 0 := by
    rw [Nat.testBit_xor, Nat.testBit_xor, Nat.testBit_zero, Nat.testBit_zero,
      Nat.testBit_zero, Nat.mod_mod]
  rw [Nat.testBit_zero, Nat.testBit_zero] at h
  rcases Nat.mod_two_eq_zero_or_one (a % 2 ^^^ m) with h0 | h1 <;>
    rcases Nat.mod_two_eq_zero_or_one (a ^^^ m) with g0 | g1 <;> simp_all

theorem mod_two_and_and_one (a n : Nat) : a % 2 &&& n &&& 1 = a &&& n &&& 1 := by
  rw [Nat.and_assoc, Nat.and_assoc, Nat.and_comm n 1, ← Nat.and_assoc, ← Nat.and_assoc,
    Nat.and_one_is_mod, Nat.and_one_is_mod, Nat.mod_mod]

theorem new_state_pegs (S : STATE) (pin d : Nat) (hp : pin < 33) (hd : d < 4)
    (hfree : solve_sub_free S pin) (hlegal : solve_pin_legal S (tableAt (4 * pin + d))) :
    pegs (solve_pin_new_state S (tableAt (4 * pin + d))) + 1 = pegs S := by
  have hb := bitsBelow_le S.id 32
  have hm2 : S.slack % 2 ≤ 1 := by omega
  have hfree' : solve_sub_free ⟨S.id, S.slack % 2, popcount S.id + S.slack % 2⟩ pin := by
    unfold solve_sub_free at hfree ⊢
    by_cases h : pin < PINS
    · rw [if_pos h] at hfree ⊢; exact hfree
    · rw [if_neg h] at hfree ⊢
      rw [Nat.and_one_is_mod] at hfree ⊢
      dsimp only
      omega
  have hlegal' : solve_pin_legal ⟨S.id, S.slack % 2, popcount S.id + S.slack % 2⟩
      (tableAt (4 * pin + d)) := by
    unfold solve_pin_legal at hlegal ⊢
    refine ⟨hlegal.1, hlegal.2.1, ?_⟩
    dsimp only
    rw [mod_two_and_and_one]
    exact hlegal.2.2
  obtain ⟨h1, h2⟩ := new_state_peg_count ⟨S.id, S.slack % 2, popcount S.id + S.slack % 2⟩
    hm2 rfl pin d hp hd hfree' hlegal'
  have hb2 := bitsBelow_le (S.id ^^^ (tableAt (4 * pin + d)).mask_id) 32
  simp only [peg_count_ok, solve_pin_new_state, popcount, mod_two_xor_and_one] at h1 h2
  simp only [pegs, solve_pin_new_state, popcount]
  have h3 : ((S.slack ^^^ (tableAt (4 * pin + d)).mask_slack) &&& 1) % 2 =
      (S.slack ^^^ (tableAt (4 * pin + d)).mask_slack) &&& 1 := by omega
  rw [h3]
  simp only [USHORT] at h1
  omega

theorem pegs_le (S : STATE) : pegs S ≤ 33 := by
  have hb := bitsBelow_le S.id 32
  simp only [pegs, popcount]
  omega

/-! ## The record of calls is only ever extended -/

theorem trace_extends_refl (ok : Event → Prop) (g : Globals) : trace_extends ok g g :=
  ⟨[], by simp, by simp⟩

theorem trace_extends_trans (ok : Event → Prop) (a b c : Globals)
    (h1 : trace_extends ok a b) (h2 : trace_extends ok b c) : trace_extends ok a c := by
  obtain ⟨l1, e1, o1⟩ := h1
  obtain ⟨l2, e2, o2⟩ := h2
  refine ⟨l1 ++ l2, by rw [e2, e1, List.append_assoc], ?_⟩
  intro e he
  rcases List.mem_append.1 he with h | h
  · exact o1 e h
  · exact o2 e h

theorem trace_extends_of_eq (ok : Event → Prop) (g g1 : Globals) (h : g1.trace = g.trace) :
    trace_extends ok g g1 := ⟨[], by simp [h], by simp⟩

theorem trace_extends_one (ok : Event → Prop) (g g1 : Globals) (e : Event)
    (h : g1.trace = g.trace ++ [e]) (he : ok e) : trace_extends ok g g1 :=
  ⟨[e], h, by simpa using he⟩

theorem trace_ends_full_trans (a b c : Globals)
    (h1 : trace_extends (fun e => ¬ e.is_full) a b) (h2 : trace_ends_full b c) :
    trace_ends_full a c := by
  obtain ⟨l1, e1, o1⟩ := h1
  obtain ⟨l2, s, e2, o2⟩ := h2
  refine ⟨l1 ++ l2, s, by simp [e2, e1, List.append_assoc], ?_⟩
  intro e he
  rcases List.mem_append.1 he with h | h
  · exact o1 e h
  · exact o2 e h

theorem check_phase2_result_trace (g : Globals) (s : STATE) :
    (check_phase2_result g s).2.trace = g.trace ∧
    (check_phase2_result g s).2.hash = g.hash := by
  unfold check_phase2_result
  dsimp only
  split_ifs <;> exact ⟨rfl, rfl⟩

theorem check_phase3_result_trace (g : Globals) (s : STATE) :
    (check_phase3_result g s).2.trace = g.trace ∧
    (check_phase3_result g s).2.hash = g.hash := by
  unfold check_phase3_result
  dsimp only
  split_ifs <;> exact ⟨rfl, rfl⟩

/-! ## Frontier bound and fatal condition -/

theorem new_state_pins (S : STATE) (u : UPDATE) (h1 : 1 ≤ S.pins) (h2 : S.pins < USHORT) :
    (solve_pin_new_state S u).pins + 1 = S.pins := by
  simp only [solve_pin_new_state, USHORT] at *
  omega

set_option maxRecDepth 100000 in
/-- C17: frontier bound.  In a phase-1 or phase-3 search started on a state
with `PINS_LEFT <= pins <= 32` (the start state has `pins = 32`), with a
recursion budget of at least `pins - PINS_LEFT + 1`, the search returns or
exits (the budget is never exhausted), and every call it made is within the
bound: `solve` is only entered on states with `PINS_LEFT <= pins <= 32`,
`solve_sub` and `solve_pin` only on states with `pins > PINS_LEFT`. -/
theorem frontier_bound (phase : Int) (hph : phase = 1 ∨ phase = 3) (fuel : Nat) (g : Globals)
    (S : STATE) (hlo : PINS_LEFT ≤ S.pins) (hhi : S.pins ≤ 32)
    (hfuel : S.pins < fuel + PINS_LEFT) :
    (solve fuel phase g S).meets (trace_extends (frontier_ok phase))
      (trace_extends (frontier_ok phase)) g := by
  have h2 : phase ≠ 2 := by rcases hph with h | h <;> rw [h] <;> decide
  apply solve_meets phase _ _
    (fun n s => PINS_LEFT ≤ s.pins ∧ s.pins ≤ 32 ∧ s.pins < n + PINS_LEFT)
    (fun n s => PINS_LEFT < s.pins ∧ s.pins ≤ 32 ∧ s.pins < n + 1 + PINS_LEFT)
  · intro s h; omega
  · intro n s h hc
    rw [if_neg h2] at hc
    omega
  · intro n s pin d hs _ _ _ _
    have := new_state_pins s (tableAt (4 * pin + d)) (by omega) (by simp only [USHORT]; omega)
    omega
  · exact trace_extends_refl _
  · exact trace_extends_trans _
  · exact trace_extends_trans _
  · intro n g s h
    exact trace_extends_one _ _ _ _ rfl ⟨rfl, h.1, h.2.1⟩
  · intro n g s h
    exact trace_extends_one _ _ _ _ rfl ⟨h.1, h.2.1⟩
  · intro n g s p h
    exact trace_extends_one _ _ _ _ rfl ⟨h.1, h.2.1⟩
  · intro n g s k v st _
    exact trace_extends_of_eq _ _ _ rfl
  · intro _ n g s h _
    exact trace_extends_one _ _ _ _ rfl ⟨h.1, h.2.1⟩
  · intro _ n g s h _
    exact trace_extends_one _ _ _ _ rfl ⟨h.1, h.2.1⟩
  · intro g s
    exact trace_extends_of_eq _ _ _ (check_phase2_result_trace g s).1
  · intro g s
    exact trace_extends_of_eq _ _ _ (check_phase3_result_trace g s).1
  · exact ⟨hlo, hhi, hfuel⟩

set_option maxRecDepth 100000 in
theorem frontier_bound_witness :
    PINS_LEFT ≤ start_state.pins ∧ start_state.pins ≤ 32 ∧
    (solve 12 1 globals_init start_state).meets (trace_extends (frontier_ok 1))
      (trace_extends (frontier_ok 1)) globals_init ∧
    (solve 12 3 globals_init start_state).meets (trace_extends (frontier_ok 3))
      (trace_extends (frontier_ok 3)) globals_init :=
  ⟨by decide, by decide,
    frontier_bound 1 (Or.inl rfl) 12 globals_init start_state (by decide) (by decide) (by decide),
    frontier_bound 3 (Or.inr rfl) 12 globals_init start_state (by decide) (by decide) (by decide)⟩

theorem not_is_full_of_ne (s : STATE) (r : Int) (h : r ≠ -1) :
    ¬ (Event.hash_add s r).is_full := by
  unfold Event.is_full
  exact h

set_option maxRecDepth 100000 in
theorem solve_trace_full (fuel : Nat) (phase : Int) (g : Globals) (S : STATE)
    (hfuel : pegs S < fuel) :
    (solve fuel phase g S).meets (trace_extends (fun e => ¬ e.is_full)) trace_ends_full g := by
  apply solve_meets phase _ _ (fun n s => pegs s < n) (fun n s => pegs s < n + 1)
  · intro s h; omega
  · intro n s h _; exact h
  · intro n s pin d hs hp hd hf hl
    have := new_state_pegs s pin d hp hd hf hl
    omega
  · exact trace_extends_refl _
  · exact trace_extends_trans _
  · exact trace_ends_full_trans
  · intro n g s _
    exact trace_extends_one _ _ _ _ rfl (by unfold Event.is_full; exact not_false)
  · intro n g s _
    exact trace_extends_one _ _ _ _ rfl (by unfold Event.is_full; exact not_false)
  · intro n g s p _
    exact trace_extends_one _ _ _ _ rfl (by unfold Event.is_full; exact not_false)
  · intro n g s k v st _
    exact trace_extends_of_eq _ _ _ rfl
  · intro _ n g s _ hr
    exact trace_extends_one _ _ _ _ rfl (not_is_full_of_ne _ _ hr)
  · intro _ n g s _ hr
    refine ⟨[], s, ?_, by simp⟩
    dsimp only
    rw [hr, List.append_nil]
  · intro g s
    exact trace_extends_of_eq _ _ _ (check_phase2_result_trace g s).1
  · intro g s
    exact trace_extends_of_eq _ _ _ (check_phase3_result_trace g s).1
  · exact hfuel

set_option maxRecDepth 100000 in
theorem solve_phase2_frame (fuel : Nat) (g : Globals) (S : STATE) (hfuel : pegs S < fuel) :
    (solve fuel 2 g S).meets
      (fun g g1 => g1.hash = g.hash ∧ trace_extends (fun e => ¬ e.is_hash_add) g g1)
      (fun _ _ => False) g := by
  have hev : ∀ (g g1 : Globals) (e : Event), g1.hash = g.hash → g1.trace = g.trace ++ [e] →
      ¬ e.is_hash_add → g1.hash = g.hash ∧ trace_extends (fun e => ¬ e.is_hash_add) g g1 :=
    fun g g1 e h1 h2 h3 => ⟨h1, trace_extends_one _ _ _ _ h2 h3⟩
  apply solve_meets 2 _ _ (fun n s => pegs s < n) (fun n s => pegs s < n + 1)
  · intro s h; omega
  · intro n s h _; exact h
  · intro n s pin d hs hp hd hf hl
    have := new_state_pegs s pin d hp hd hf hl
    omega
  · intro g; exact ⟨rfl, trace_extends_refl _ _⟩
  · intro a b c h1 h2
    exact ⟨h2.1.trans h1.1, trace_extends_trans _ _ _ _ h1.2 h2.2⟩
  · intro a b c _ h; exact h
  · intro n g s _
    exact hev _ _ _ rfl rfl (by unfold Event.is_hash_add; exact not_false)
  · intro n g s _
    exact hev _ _ _ rfl rfl (by unfold Event.is_hash_add; exact not_false)
  · intro n g s p _
    exact hev _ _ _ rfl rfl (by unfold Event.is_hash_add; exact not_false)
  · intro n g s k v st _
    exact ⟨rfl, trace_extends_of_eq _ _ _ rfl⟩
  · intro h; exact absurd rfl h
  · intro h; exact absurd rfl h
  · intro g s
    exact ⟨(check_phase2_result_trace g s).2,
      trace_extends_of_eq _ _ _ (check_phase2_result_trace g s).1⟩
  · intro g s
    exact ⟨(check_phase3_result_trace g s).2,
      trace_extends_of_eq _ _ _ (check_phase3_result_trace g s).1⟩
  · exact hfuel

set_option maxRecDepth 100000 in
theorem solve_pin_loop_illegal (rec : Int → Globals → STATE → Outcome) (actual : STATE)
    (pin_4 : Nat) (phase : Int) (todo j : Nat) (g : Globals)
    (h : ¬ solve_pin_legal actual (tableAt (pin_4 + j))) :
    solve_pin_loop rec actual pin_4 phase (todo + 1) j g =
      solve_pin_loop rec actual pin_4 phase todo (j + 1) g := by
  rw [solve_pin_loop_succ, if_neg h]

set_option maxRecDepth 100000 in
theorem solve_pin_loop_not_done (rec : Int → Globals → STATE → Outcome) (actual : STATE)
    (pin_4 : Nat) (phase : Int) (todo j : Nat) (g g2 : Globals)
    (hl : solve_pin_legal actual (tableAt (pin_4 + j)))
    (hp : ¬ solve_pin_pruned g actual (tableAt (pin_4 + j)))
    (hr : rec phase
        { g with move := Function.update g.move actual.pins (pin_4 + j),
                 move_state := Function.update g.move_state actual.pins
                   (solve_pin_new_state actual (tableAt (pin_4 + j))) }
        (solve_pin_new_state actual (tableAt (pin_4 + j))) = Outcome.ret 0 g2) :
    solve_pin_loop rec actual pin_4 phase (todo + 1) j g =
      solve_pin_loop rec actual pin_4 phase todo (j + 1) g2 := by
  rw [solve_pin_loop_succ, if_pos hl, if_neg hp, hr]
  simp

set_option maxRecDepth 100000 in
theorem solve_phase2_miss (fuel : Nat) (g : Globals) (actual : STATE)
    (hp : actual.pins = BOARD - PINS_LEFT)
    (hm : hash_search g.hash
      ⟨bit_not32 actual.id, (actual.slack ^^^ 1) &&& 1, PINS_LEFT⟩ ≠ 0) :
    solve (fuel + 1) 2 g actual =
      Outcome.ret 0 { g with trace := g.trace ++ [Event.solve 2 actual] } := by
  rw [solve_succ, if_pos rfl, if_pos hp]
  unfold check_phase2_result
  dsimp only
  rw [if_neg hm]

/-- C16: hash-table exhaustion is the only fatal condition.  For every phase,
state and globals, with a recursion budget above the number of pegs, `solve`
either returns, and then no `hash_add` call it made returned Full, or leaves
through `exit(1)`, and then the last thing it did was a `hash_add` call that
returned Full (-1), no earlier one having done so.  With `phase == 2` it never
exits, makes no `hash_add` call and leaves the table as it was; an illegal
candidate makes the loop of `solve_pin` go on with the next direction, and a
lookup miss at `pins == BOARD - PINS_LEFT` makes `solve` return 0, after which
the loop of the caller goes on with the next direction. -/
theorem fatal_only_when_full (fuel : Nat) (phase : Int) (g : Globals) (S : STATE)
    (hfuel : pegs S < fuel) :
    (solve fuel phase g S).meets (trace_extends (fun e => ¬ e.is_full)) trace_ends_full g ∧
    (phase = 2 →
      (solve fuel phase g S).meets
        (fun g g1 => g1.hash = g.hash ∧ trace_extends (fun e => ¬ e.is_hash_add) g g1)
        (fun _ _ => False) g) ∧
    (∀ (rec : Int → Globals → STATE → Outcome) (actual : STATE) (pin_4 : Nat) (todo j : Nat),
      ¬ solve_pin_legal actual (tableAt (pin_4 + j)) →
      solve_pin_loop rec actual pin_4 phase (todo + 1) j g =
        solve_pin_loop rec actual pin_4 phase todo (j + 1) g) ∧
    (∀ (n : Nat) (actual : STATE), actual.pins = BOARD - PINS_LEFT →
      hash_search g.hash ⟨bit_not32 actual.id, (actual.slack ^^^ 1) &&& 1, PINS_LEFT⟩ ≠ 0 →
      solve (n + 1) 2 g actual =
        Outcome.ret 0 { g with trace := g.trace ++ [Event.solve 2 actual] }) ∧
    (∀ (rec : Int → Globals → STATE → Outcome) (actual : STATE) (pin_4 : Nat) (todo j : Nat)
      (g2 : Globals),
      solve_pin_legal actual (tableAt (pin_4 + j)) →
      ¬ solve_pin_pruned g actual (tableAt (pin_4 + j)) →
      rec phase
        { g with move := Function.update g.move actual.pins (pin_4 + j),
                 move_state := Function.update g.move_state actual.pins
                   (solve_pin_new_state actual (tableAt (pin_4 + j))) }
        (solve_pin_new_state actual (tableAt (pin_4 + j))) = Outcome.ret 0 g2 →
      solve_pin_loop rec actual pin_4 phase (todo + 1) j g =
        solve_pin_loop rec actual pin_4 phase todo (j + 1) g2) := by
  refine ⟨solve_trace_full fuel phase g S hfuel, ?_, ?_, ?_, ?_⟩
  · intro h2
    subst h2
    exact solve_phase2_frame fuel g S hfuel
  · intro rec actual pin_4 todo j h
    exact solve_pin_loop_illegal rec actual pin_4 phase todo j g h
  · intro n actual hp hm
    exact solve_phase2_miss n g actual hp hm
  · intro rec actual pin_4 todo j g2 hl hp hr
    exact solve_pin_loop_not_done rec actual pin_4 phase todo j g g2 hl hp hr

set_option maxRecDepth 100000 in
theorem fatal_only_when_full_witness :
    pegs ⟨0xfffaef0e, 0, 24⟩ < 25 ∧
    (hash_add full_but_one ⟨0xfffaef0e, 0, 24⟩).1 = -1 ∧
    solve 25 1 { globals_init with hash := full_but_one } ⟨0xfffaef0e, 0, 24⟩ =
      Outcome.exit 1
        { globals_init with
          hash := full_but_one,
          trace := [Event.solve 1 ⟨0xfffaef0e, 0, 24⟩,
                    Event.hash_add ⟨0xfffaef0e, 0, 24⟩ (-1)] } ∧
    (solve 25 1 { globals_init with hash := full_but_one } ⟨0xfffaef0e, 0, 24⟩).meets
      (trace_extends (fun e => ¬ e.is_full)) trace_ends_full
      { globals_init with hash := full_but_one } := by
  have hadd : hash_add full_but_one ⟨0xfffaef0e, 0, 24⟩ = (-1, full_but_one) := by
    have hc : (rotate_state ⟨0xfffaef0e, 0, 24⟩ (-1)).2 = ⟨0xfffaef0e, 0, 24⟩ := by decide
    rw [hash_add, hc]
    apply hash_add_loop_full
    intro i
    have h0 := DOUBLE_HASH_misses_slot_zero i
    simp only [full_but_one, if_neg h0]
    exact ⟨by decide, by decide⟩
  refine ⟨by decide, by rw [hadd], ?_,
    (fatal_only_when_full 25 1 _ ⟨0xfffaef0e, 0, 24⟩ (by decide)).1⟩
  rw [solve_succ, if_neg (by decide)]
  dsimp only [globals_init]
  rw [hadd]
  rfl

/-! ## The traversal optimisation -/

set_option maxRecDepth 100000 in
theorem solve_pin_every_legal_loop_succ (rec : Int → Globals → STATE → Outcome)
    (actual : STATE) (pin_4 : Nat) (phase : Int) (todo j : Nat) (g : Globals) :
    solve_pin_every_legal_loop rec actual pin_4 phase (todo + 1) j g =
      if solve_pin_legal actual (tableAt (pin_4 + j)) then
        match rec phase
          { g with move := Function.update g.move actual.pins (pin_4 + j),
                   move_state := Function.update g.move_state actual.pins
                     (solve_pin_new_state actual (tableAt (pin_4 + j))) }
          (solve_pin_new_state actual (tableAt (pin_4 + j))) with
        | Outcome.ret done g2 =>
          if done ≠ 0 then Outcome.ret done g2
          else solve_pin_every_legal_loop rec actual pin_4 phase todo (j + 1) g2
        | o => o
      else solve_pin_every_legal_loop rec actual pin_4 phase todo (j + 1) g := rfl

set_option maxRecDepth 100000 in
theorem solve_pin_loop_unpruned (rec : Int → Globals → STATE → Outcome) (actual : STATE)
    (hpins : PINS_LEFT ≤ actual.pins) (pin_4 : Nat) (phase : Int) (todo j : Nat)
    (g : Globals) :
    solve_pin_loop rec actual pin_4 phase todo j g =
      solve_pin_every_legal_loop rec actual pin_4 phase todo j g := by
  induction todo generalizing j g with
  | zero => rfl
  | succ n ih =>
    rw [solve_pin_loop_succ, solve_pin_every_legal_loop_succ]
    by_cases hl : solve_pin_legal actual (tableAt (pin_4 + j))
    · rw [if_pos hl, if_pos hl]
      have hp : ¬ solve_pin_pruned g actual (tableAt (pin_4 + j)) := by
        intro h
        have := h.1
        omega
      rw [if_neg hp]
      generalize rec phase _ _ = o
      cases o with
      | ret d g2 =>
        dsimp only
        rw [ih]
      | exit st g2 => rfl
      | out_of_fuel => rfl
    · rw [if_neg hl, if_neg hl]
      exact ih (j + 1) g

set_option maxRecDepth 100000 in
theorem solve_pin_loop_pruned (rec : Int → Globals → STATE → Outcome) (actual : STATE)
    (pin_4 : Nat) (phase : Int) (todo j : Nat) (g : Globals)
    (hl : solve_pin_legal actual (tableAt (pin_4 + j)))
    (hp : solve_pin_pruned g actual (tableAt (pin_4 + j))) :
    solve_pin_loop rec actual pin_4 phase (todo + 1) j g = Outcome.ret 0 g := by
  rw [solve_pin_loop_succ, if_pos hl, if_pos hp]

set_option maxRecDepth 1000000 in
/-- C18, evaluated on the code: the state `B = {0xFFAD21CD, 0, 20}` is reached
in phase 2 by the jump with index 94 from the frontier state
`{0xFF3F21CD, 0, 21}` (itself canonical and reached from the start state by
eleven jumps).  In `solve_pin(B, 4 * 22, 2)` the candidate with index 90 is
legal, has a smaller rank than 94 and a mask disjoint from it, so it is
pruned; the candidate with index 91, the next direction of the same hole, is
legal and not prunable (its mask overlaps that of 94), yet `solve_pin` returns
0 without ever calling `solve`: the pruning leaves the loop. -/
theorem solve_pin_break_skips_directions :
    play start_state [128, 29, 18, 28, 46, 55, 56, 22, 57, 10, 34] =
      some ⟨0xff3f21cd, 0, 21⟩ ∧
    rotate_state ⟨0xff3f21cd, 0, 21⟩ (-1) = (0, ⟨0xff3f21cd, 0, 21⟩) ∧
    play ⟨0xff3f21cd, 0, 21⟩ [94] = some ⟨0xffad21cd, 0, 20⟩ ∧
    solve_sub_free ⟨0xffad21cd, 0, 20⟩ 22 ∧
    solve_pin_legal ⟨0xffad21cd, 0, 20⟩ (tableAt 90) ∧
    solve_pin_pruned globals_after_move_94 ⟨0xffad21cd, 0, 20⟩ (tableAt 90) ∧
    solve_pin_legal ⟨0xffad21cd, 0, 20⟩ (tableAt 91) ∧
    ¬ solve_pin_pruned globals_after_move_94 ⟨0xffad21cd, 0, 20⟩ (tableAt 91) ∧
    (∀ rec : Int → Globals → STATE → Outcome,
      solve_pin rec globals_after_move_94 ⟨0xffad21cd, 0, 20⟩ (4 * 22) 2 =
        Outcome.ret 0
          { globals_after_move_94 with
            trace := [Event.solve_pin ⟨0xffad21cd, 0, 20⟩ (4 * 22)] }) := by
  refine ⟨by decide, by decide, by decide, by decide, by decide, by decide, by decide,
    by decide, ?_⟩
  intro rec
  unfold solve_pin
  rw [solve_pin_loop_illegal _ _ _ _ _ _ _ (by decide),
    solve_pin_loop_illegal _ _ _ _ _ _ _ (by decide),
    solve_pin_loop_pruned _ _ _ _ _ _ _ (by decide) (by decide)]
  rfl

set_option maxRecDepth 1000000 in
/-- C19 fails as stated: in phase 2, at the state `{0xFFAD21CD, 0, 20}` reached
by the jump with index 94 from a 21-peg frontier state, the candidate with
index 59 (hole 14, direction 3) passes the legality test, but
`solve_pin(.., 4 * 14, 2)` returns 0 without calling `solve`: the candidate is
skipped by the rank / disjoint-mask rule. -/
theorem solve_pin_prunes_in_phase2 :
    solve_sub_free ⟨0xffad21cd, 0, 20⟩ 14 ∧
    solve_pin_legal ⟨0xffad21cd, 0, 20⟩ (tableAt 59) ∧
    (∀ rec : Int → Globals → STATE → Outcome,
      solve_pin rec globals_after_move_94 ⟨0xffad21cd, 0, 20⟩ (4 * 14) 2 =
        Outcome.ret 0
          { globals_after_move_94 with
            trace := [Event.solve_pin ⟨0xffad21cd, 0, 20⟩ (4 * 14)] }) ∧
    (solve_pin_every_legal_loop (fun _ g _ => Outcome.ret 1 g) ⟨0xffad21cd, 0, 20⟩ (4 * 14) 2
        4 0 globals_after_move_94 =
      Outcome.ret 1
        { globals_after_move_94 with
          move := Function.update globals_after_move_94.move 20 59,
          move_state := Function.update globals_after_move_94.move_state 20
            (solve_pin_new_state ⟨0xffad21cd, 0, 20⟩ (tableAt 59)) }) := by
  refine ⟨by decide, by decide, ?_, ?_⟩
  · intro rec
    unfold solve_pin
    rw [solve_pin_loop_illegal _ _ _ _ _ _ _ (by decide),
      solve_pin_loop_illegal _ _ _ _ _ _ _ (by decide),
      solve_pin_loop_illegal _ _ _ _ _ _ _ (by decide),
      solve_pin_loop_pruned _ _ _ _ _ _ _ (by decide) (by decide)]
    rfl
  · rw [solve_pin_every_legal_loop_succ, if_neg (by decide),
      solve_pin_every_legal_loop_succ, if_neg (by decide),
      solve_pin_every_legal_loop_succ, if_neg (by decide),
      solve_pin_every_legal_loop_succ, if_pos (by decide)]
    rfl

/-- C19 (as amended): the traversal optimisation does not look at the phase;
it is gated by `pins < PINS_LEFT` alone.  For every phase (2 included), when
`pins >= PINS_LEFT` the loop of `solve_pin` applies and recurses into every
allowed candidate that passes the legality test (it is the loop without the
optimisation); and for every phase a legal candidate that meets the rank /
disjoint-mask rule, which needs `pins < PINS_LEFT`, is not applied. -/
theorem pruning_gated_by_pins (rec : Int → Globals → STATE → Outcome) (phase : Int)
    (actual : STATE) (pin_4 : Nat) (todo j : Nat) (g : Globals) :
    (PINS_LEFT ≤ actual.pins →
      solve_pin_loop rec actual pin_4 phase todo j g =
        solve_pin_every_legal_loop rec actual pin_4 phase todo j g) ∧
    (solve_pin_legal actual (tableAt (pin_4 + j)) →
      solve_pin_pruned g actual (tableAt (pin_4 + j)) →
      actual.pins < PINS_LEFT ∧
      solve_pin_loop rec actual pin_4 phase (todo + 1) j g = Outcome.ret 0 g) :=
  ⟨fun h => solve_pin_loop_unpruned rec actual h pin_4 phase todo j g,
    fun hl hp => ⟨hp.1, solve_pin_loop_pruned rec actual pin_4 phase todo j g hl hp⟩⟩

set_option maxRecDepth 1000000 in
theorem pruning_gated_by_pins_witness :
    PINS_LEFT ≤ (⟨0xff3f21cd, 0, 21⟩ : STATE).pins ∧
    solve_pin_loop (fun _ g _ => Outcome.ret 1 g) ⟨0xff3f21cd, 0, 21⟩ (4 * 23) 2 4 0
        globals_init =
      solve_pin_every_legal_loop (fun _ g _ => Outcome.ret 1 g) ⟨0xff3f21cd, 0, 21⟩ (4 * 23) 2
        4 0 globals_init ∧
    solve_pin_legal ⟨0xffad21cd, 0, 20⟩ (tableAt (4 * 14 + 3)) ∧
    solve_pin_pruned globals_after_move_94 ⟨0xffad21cd, 0, 20⟩ (tableAt (4 * 14 + 3)) ∧
    solve_pin_loop (fun _ g _ => Outcome.ret 1 g) ⟨0xffad21cd, 0, 20⟩ (4 * 14) 2 (0 + 1) 3
        globals_after_move_94 = Outcome.ret 0 globals_after_move_94 :=
  ⟨by decide,
    (pruning_gated_by_pins (fun _ g _ => Outcome.ret 1 g) 2 ⟨0xff3f21cd, 0, 21⟩ (4 * 23) 4 0
      globals_init).1 (by decide),
    by decide, by decide,
    ((pruning_gated_by_pins (fun _ g _ => Outcome.ret 1 g) 2 ⟨0xffad21cd, 0, 20⟩ (4 * 14) 0 3
      globals_after_move_94).2 (by decide) (by decide)).2⟩

/-! ## Phase 1: the table holds every reachable frontier state -/

/-! ## What the table holds after hash_add -/

theorem hash_search_loop_finds (c : STATE) (hash : HashTable) (i0 : Nat)
    (hne : (hash (DOUBLE_HASH c.id i0)).id ≠ 0)
    (hm : (hash (DOUBLE_HASH c.id i0)).id = c.id ∧
      (hash (DOUBLE_HASH c.id i0)).slack &&& 1 = c.slack &&& 1)
    (hbefore : ∀ j, j < i0 → (hash (DOUBLE_HASH c.id j)).id ≠ 0)
    (todo i : Nat) (h1 : i ≤ i0) (h2 : i0 < i + todo) :
    hash_search_loop c hash todo i = 0 := by
  induction todo generalizing i with
  | zero => omega
  | succ n ih =>
    have hnz : (hash (DOUBLE_HASH c.id i)).id ≠ 0 := by
      rcases Nat.lt_or_ge i i0 with h | h
      · exact hbefore i h
      · have : i = i0 := by omega
        rw [this]; exact hne
    by_cases hmi : (hash (DOUBLE_HASH c.id i)).id = c.id ∧
        (hash (DOUBLE_HASH c.id i)).slack &&& 1 = c.slack &&& 1
    · exact hash_search_loop_match c hash n i hnz hmi
    · rw [hash_search_loop_next c hash n i hnz hmi]
      have hlt : i ≠ i0 := by
        intro h; rw [h] at hmi; exact hmi hm
      exact ih (i + 1) (by omega) (by omega)

theorem hash_search_of_stored (hash : HashTable) (c : STATE) (hc : probe_consistent hash)
    (hs : stored hash c) : hash_search_loop c hash HASH_SIZ 0 = 0 := by
  obtain ⟨e, hne, hid, hsl⟩ := hs
  obtain ⟨i0, hi0, he, hb⟩ := hc e hne
  rw [hid] at he hb
  have he' : hash (DOUBLE_HASH c.id i0) = hash e := by rw [he]
  exact hash_search_loop_finds c hash i0 (by rw [he']; exact hne)
    (by rw [he']; exact ⟨hid, hsl⟩) hb HASH_SIZ 0 (Nat.zero_le _) (by omega)

/-- The three ways `hash_add` ends, read off the table. -/
theorem hash_add_loop_cases (c : STATE) (hash : HashTable) (todo i : Nat) :
    ((hash_add_loop c hash todo i).1 = 1 ∧ (hash_add_loop c hash todo i).2 = hash ∧
      ∃ e, (hash e).id ≠ 0 ∧ (hash e).id = c.id ∧ (hash e).slack &&& 1 = c.slack &&& 1) ∨
    ((hash_add_loop c hash todo i).1 = -1 ∧ (hash_add_loop c hash todo i).2 = hash) ∨
    ((hash_add_loop c hash todo i).1 = 0 ∧
      ∃ i0, i ≤ i0 ∧ i0 < i + todo ∧ (hash (DOUBLE_HASH c.id i0)).id = 0 ∧
        (hash_add_loop c hash todo i).2 = Function.update hash (DOUBLE_HASH c.id i0) c ∧
        ∀ j, i ≤ j → j < i0 → (hash (DOUBLE_HASH c.id j)).id ≠ 0) := by
  induction todo generalizing i with
  | zero => right; left; exact ⟨rfl, rfl⟩
  | succ n ih =>
    by_cases h1 : (hash (DOUBLE_HASH c.id i)).id = 0
    · right; right
      rw [hash_add_loop_empty c hash n i h1]
      exact ⟨rfl, i, Nat.le_refl _, by omega, h1, rfl, fun j h h' => by omega⟩
    · by_cases h2 : (hash (DOUBLE_HASH c.id i)).id = c.id ∧
          (hash (DOUBLE_HASH c.id i)).slack &&& 1 = c.slack &&& 1
      · left
        rw [hash_add_loop_match c hash n i h1 h2]
        exact ⟨rfl, rfl, _, h1, h2.1, h2.2⟩
      · rw [hash_add_loop_next c hash n i h1 h2]
        rcases ih (i + 1) with h | h | ⟨hr, i0, hi, hlt, hz, hu, hb⟩
        · left; exact h
        · right; left; exact h
        · right; right
          refine ⟨hr, i0, by omega, by omega, hz, hu, ?_⟩
          intro j hj hj0
          rcases Nat.eq_or_lt_of_le hj with h | h
          · rw [← h]; exact h1
          · exact hb j h hj0

theorem stored_mono_add (c : STATE) (hash : HashTable) (todo i : Nat) (c1 : STATE)
    (h : stored hash c1) : stored (hash_add_loop c hash todo i).2 c1 := by
  obtain ⟨e, hne, hid, hsl⟩ := h
  have hf := hash_add_loop_frame c hash e hne todo i
  exact ⟨e, by rw [hf]; exact hne, by rw [hf]; exact hid, by rw [hf]; exact hsl⟩

theorem stored_update (hash : HashTable) (e0 : Nat) (c c1 : STATE)
    (h : stored (Function.update hash e0 c) c1) :
    stored hash c1 ∨ (c.id = c1.id ∧ c.slack &&& 1 = c1.slack &&& 1) := by
  obtain ⟨e, hne, hid, hsl⟩ := h
  by_cases he : e = e0
  · subst he
    rw [Function.update_same] at hne hid hsl
    right; exact ⟨hid, hsl⟩
  · rw [Function.update_noteq he] at hne hid hsl
    left; exact ⟨e, hne, hid, hsl⟩

theorem stored_update_self (hash : HashTable) (e0 : Nat) (c : STATE) (hc : c.id ≠ 0) :
    stored (Function.update hash e0 c) c :=
  ⟨e0, by rw [Function.update_same]; exact hc, by rw [Function.update_same],
    by rw [Function.update_same]⟩

theorem probe_consistent_update (hash : HashTable) (c : STATE) (hc : c.id ≠ 0) (i0 : Nat)
    (hi0 : i0 < HASH_SIZ)
    (hb : ∀ j, j < i0 → (hash (DOUBLE_HASH c.id j)).id ≠ 0)
    (hcons : probe_consistent hash) :
    probe_consistent (Function.update hash (DOUBLE_HASH c.id i0) c) := by
  have hkeep : ∀ e, (hash e).id ≠ 0 →
      ((Function.update hash (DOUBLE_HASH c.id i0) c) e).id ≠ 0 := by
    intro e he
    by_cases h : e = DOUBLE_HASH c.id i0
    · rw [h, Function.update_same]; exact hc
    · rw [Function.update_noteq h]; exact he
  intro e he
  by_cases h : e = DOUBLE_HASH c.id i0
  · subst h
    rw [Function.update_same] at he ⊢
    exact ⟨i0, hi0, rfl, fun j hj => hkeep _ (hb j hj)⟩
  · rw [Function.update_noteq h] at he ⊢
    obtain ⟨i, hi, hei, hbi⟩ := hcons e he
    exact ⟨i, hi, hei, fun j hj => hkeep _ (hbi j hj)⟩

theorem probe_consistent_init : probe_consistent hash_init := by
  intro e he
  exact absurd rfl he

theorem not_stored_init (c : STATE) : ¬ stored hash_init c := by
  rintro ⟨e, hne, _⟩
  exact hne rfl

/-! ## Rotation classes -/

theorem popcount_rotId (x : Nat) : popcount (rotId x) = popcount x := by
  simp only [popcount, bitsBelow, testBit_rotId]
  norm_num
  ac_rfl

theorem canon_id_cases (S : STATE) :
    (rotate_state S (-1)).2.id = S.id ∨ (rotate_state S (-1)).2.id = rotId S.id ∨
    (rotate_state S (-1)).2.id = rotId (rotId S.id) ∨
    (rotate_state S (-1)).2.id = rotId (rotId (rotId S.id)) := by
  have hT : (rotate_state S (-1)).2 = rotate S (-1) := rfl
  rw [hT, rotate_canon]
  dsimp only
  omega

theorem canon_slack_pins (S : STATE) :
    (rotate_state S (-1)).2.slack = S.slack ∧ (rotate_state S (-1)).2.pins = S.pins := by
  have hT : (rotate_state S (-1)).2 = rotate S (-1) := rfl
  rw [hT, rotate_canon]
  exact ⟨rfl, rfl⟩

theorem canon_rotate_one (S : STATE) (hS : S.id < UINT) :
    (rotate_state (rotate S 1) (-1)).2 = (rotate_state S (-1)).2 := by
  have h4 := rotId_four hS
  have hT : ∀ s : STATE, (rotate_state s (-1)).2 = rotate s (-1) := fun _ => rfl
  rw [hT, hT, rotate_canon, rotate_canon]
  simp only [rotate_one, h4]
  congr 1; omega

/-- The state turned by `k` quarter turns. -/
theorem iterate_rotate_id (S : STATE) (k : Nat) :
    ((fun s => rotate s 1)^[k] S).id = rotId^[k] S.id ∧
    ((fun s => rotate s 1)^[k] S).slack = S.slack ∧
    ((fun s => rotate s 1)^[k] S).pins = S.pins := by
  induction k generalizing S with
  | zero => exact ⟨rfl, rfl, rfl⟩
  | succ n ih =>
    rw [Function.iterate_succ_apply, Function.iterate_succ_apply]
    obtain ⟨h1, h2, h3⟩ := ih (rotate S 1)
    rw [h1, h2, h3, rotate_one]
    exact ⟨rfl, rfl, rfl⟩

theorem iterate_rotId_lt (x : Nat) (hx : x < UINT) (k : Nat) : rotId^[k] x < UINT := by
  induction k generalizing x with
  | zero => exact hx
  | succ n ih =>
    rw [Function.iterate_succ_apply]
    exact ih _ (rotId_lt x)

theorem iterate_rotId_four_mul (x : Nat) (hx : x < UINT) (k : Nat) :
    rotId^[4 * k] x = x := by
  induction k with
  | zero => rfl
  | succ n ih =>
    rw [show 4 * (n + 1) = 4 + 4 * n by ring, Function.iterate_add_apply, ih]
    exact rotId_four hx

theorem popcount_iterate_rotId (x : Nat) (k : Nat) : popcount (rotId^[k] x) = popcount x := by
  induction k generalizing x with
  | zero => rfl
  | succ n ih =>
    rw [Function.iterate_succ_apply, ih, popcount_rotId]

theorem canon_iterate_rotate (S : STATE) (hS : S.id < UINT) (k : Nat) :
    (rotate_state ((fun s => rotate s 1)^[k] S) (-1)).2 = (rotate_state S (-1)).2 := by
  induction k generalizing S with
  | zero => rfl
  | succ n ih =>
    rw [Function.iterate_succ_apply, ih (rotate S 1) (by rw [rotate_one]; exact rotId_lt _),
      canon_rotate_one S hS]

theorem in_table_iterate_rotate (hash : HashTable) (S : STATE) (hS : S.id < UINT) (k : Nat) :
    in_table hash ((fun s => rotate s 1)^[k] S) ↔ in_table hash S := by
  unfold in_table
  rw [canon_iterate_rotate S hS k]

/-- Two well-formed states with the same canonical id and slack parity are
quarter turns of one another. -/
theorem same_class_is_rotation (U V : STATE) (hU : well_formed U) (hV : well_formed V)
    (hid : (rotate_state U (-1)).2.id = (rotate_state V (-1)).2.id)
    (hsl : (rotate_state U (-1)).2.slack &&& 1 = (rotate_state V (-1)).2.slack &&& 1) :
    ∃ k, V = (fun s => rotate s 1)^[k] U := by
  obtain ⟨hUi, hUs, hUp⟩ := hU
  obtain ⟨hVi, hVs, hVp⟩ := hV
  rw [(canon_slack_pins U).1, (canon_slack_pins V).1, Nat.and_one_is_mod,
    Nat.and_one_is_mod] at hsl
  have hslack : V.slack = U.slack := by omega
  have hidk : ∃ k, V.id = rotId^[k] U.id := by
    have h4V := rotId_four hVi
    have key : ∀ a b : Nat, rotId^[a] V.id = rotId^[b] U.id → a ≤ 3 →
        ∃ k, V.id = rotId^[k] U.id := by
      intro a b h ha
      refine ⟨(4 - a) + b, ?_⟩
      rw [Function.iterate_add_apply, ← h, ← Function.iterate_add_apply,
        show 4 - a + a = 4 * 1 by omega, iterate_rotId_four_mul _ hVi]
    rcases canon_id_cases U with hu | hu | hu | hu <;>
      rcases canon_id_cases V with hv | hv | hv | hv
    all_goals rw [hu, hv] at hid
    · exact key 0 0 hid.symm (by omega)
    · exact key 1 0 hid.symm (by omega)
    · exact key 2 0 hid.symm (by omega)
    · exact key 3 0 hid.symm (by omega)
    · exact key 0 1 hid.symm (by omega)
    · exact key 1 1 hid.symm (by omega)
    · exact key 2 1 hid.symm (by omega)
    · exact key 3 1 hid.symm (by omega)
    · exact key 0 2 hid.symm (by omega)
    · exact key 1 2 hid.symm (by omega)
    · exact key 2 2 hid.symm (by omega)
    · exact key 3 2 hid.symm (by omega)
    · exact key 0 3 hid.symm (by omega)
    · exact key 1 3 hid.symm (by omega)
    · exact key 2 3 hid.symm (by omega)
    · exact key 3 3 hid.symm (by omega)
  obtain ⟨k, hk⟩ := hidk
  refine ⟨k, ?_⟩
  obtain ⟨h1, h2, h3⟩ := iterate_rotate_id U k
  have hpins : V.pins = U.pins := by
    unfold peg_count_ok at hUp hVp
    rw [← hUp, ← hVp, hk, popcount_iterate_rotId, hslack]
  cases V
  simp only at hk hslack hpins
  rw [STATE.mk.injEq]
  exact ⟨by rw [h1]; exact hk, by rw [h2]; exact hslack, by rw [h3]; exact hpins⟩

/-! ## Successor states, membership and rotation -/

theorem mem_solve_pin_new_states_of (S : STATE) (pin_4 d : Nat) (hd : d < 4)
    (hl : solve_pin_legal S (tableAt (pin_4 + d))) :
    solve_pin_new_state S (tableAt (pin_4 + d)) ∈ solve_pin_new_states S pin_4 := by
  simp only [solve_pin_new_states, List.mem_filterMap, List.mem_range]
  exact ⟨d, hd, by rw [if_pos hl]⟩

theorem mem_solve_sub_new_states_of (S : STATE) (pin d : Nat) (hp : pin < 33) (hd : d < 4)
    (hf : solve_sub_free S pin) (hl : solve_pin_legal S (tableAt (4 * pin + d))) :
    solve_pin_new_state S (tableAt (4 * pin + d)) ∈ solve_sub_new_states S := by
  have hm := mem_solve_pin_new_states_of S (4 * pin) d hd hl
  simp only [solve_sub_new_states, List.mem_append, List.mem_flatMap, List.mem_range]
  by_cases h : pin < 32
  · left
    exact ⟨pin, h, by rw [if_pos hf]; exact hm⟩
  · right
    have h32 : pin = SL := by simp only [SL, PINS]; omega
    subst h32
    rw [if_pos hf]; exact hm

theorem succ_rotate_one (S T : STATE) (h : T ∈ solve_sub_new_states S) :
    rotate T 1 ∈ solve_sub_new_states (rotate S 1) := by
  obtain ⟨pin, d, hp, hd, hf, hl, rfl⟩ := mem_solve_sub_new_states h
  obtain ⟨h1, h2, h3⟩ := rotate_commutes_with_move S pin d hp hd hf hl
  rw [← h3]
  have hr : rho pin < 33 := by
    unfold rho
    split_ifs <;> omega
  exact mem_solve_sub_new_states_of _ (rho pin) ((d + 1) % 4) hr (Nat.mod_lt _ (by norm_num))
    h1 h2

theorem succ_iterate_rotate (S T : STATE) (h : T ∈ solve_sub_new_states S) (k : Nat) :
    (fun s => rotate s 1)^[k] T ∈ solve_sub_new_states ((fun s => rotate s 1)^[k] S) := by
  induction k generalizing S T with
  | zero => exact h
  | succ n ih =>
    rw [Function.iterate_succ_apply, Function.iterate_succ_apply]
    exact ih _ _ (succ_rotate_one S T h)

theorem iterate_rotate_four_mul (S : STATE) (hS : S.id < UINT) (k : Nat) :
    (fun s => rotate s 1)^[4 * k] S = S := by
  obtain ⟨h1, h2, h3⟩ := iterate_rotate_id S (4 * k)
  rw [iterate_rotId_four_mul _ hS] at h1
  cases S
  generalize (fun s => rotate s 1)^[4 * k] _ = R at h1 h2 h3
  cases R
  simp only at h1 h2 h3
  rw [h1, h2, h3]

theorem well_formed_succ (S T : STATE) (hS : well_formed S) (h : T ∈ solve_sub_new_states S) :
    well_formed T ∧ T.pins + 1 = S.pins := by
  obtain ⟨pin, d, hp, hd, hf, hl, rfl⟩ := mem_solve_sub_new_states h
  obtain ⟨hid, hsl, hpc⟩ := hS
  obtain ⟨h1, h2⟩ := new_state_peg_count S hsl hpc pin d hp hd hf hl
  have hb := bitsBelow_le S.id 32
  have hb2 := bitsBelow_le (S.id ^^^ (tableAt (4 * pin + d)).mask_id) 32
  refine ⟨⟨?_, h2, h1⟩, ?_⟩
  · exact Nat.xor_lt_two_pow (n := 32) hid
      (lt_of_lt_of_le (table_bit_counts pin hp d hd hl.1).2.2.1 (le_refl _))
  · have hpg := new_state_pegs S pin d hp hd hf hl
    unfold peg_count_ok at hpc
    simp only [pegs, popcount] at hpg hpc
    simp only [solve_pin_new_state, USHORT]
    omega

theorem well_formed_iterate_rotate (S : STATE) (hS : well_formed S) (k : Nat) :
    well_formed ((fun s => rotate s 1)^[k] S) := by
  obtain ⟨h1, h2, h3⟩ := iterate_rotate_id S k
  obtain ⟨hid, hsl, hpc⟩ := hS
  refine ⟨by rw [h1]; exact iterate_rotId_lt _ hid k, by rw [h2]; exact hsl, ?_⟩
  unfold peg_count_ok at hpc ⊢
  rw [h1, h2, h3, popcount_iterate_rotId]
  exact hpc

theorem popcount_zero : popcount 0 = 0 := by decide

theorem canon_id_ne_zero_of_pins (S : STATE) (hS : well_formed S) (hp : 2 ≤ S.pins) :
    (rotate_state S (-1)).2.id ≠ 0 := by
  apply rotate_canon_id_ne_zero
  intro h
  obtain ⟨_, hsl, hpc⟩ := hS
  unfold peg_count_ok at hpc
  rw [h, popcount_zero] at hpc
  omega

/-- Same class, same peg count. -/
theorem same_class_pins (U V : STATE) (hU : well_formed U) (hV : well_formed V)
    (hid : (rotate_state U (-1)).2.id = (rotate_state V (-1)).2.id)
    (hsl : (rotate_state U (-1)).2.slack &&& 1 = (rotate_state V (-1)).2.slack &&& 1) :
    V.pins = U.pins := by
  obtain ⟨k, hk⟩ := same_class_is_rotation U V hU hV hid hsl
  rw [hk, (iterate_rotate_id U k).2.2]

/-- If every successor of `U` is in the table, so is every successor of a
state of the same class. -/
theorem in_table_succ_of_same_class (hash : HashTable) (U V : STATE) (hU : well_formed U)
    (hV : well_formed V)
    (hid : (rotate_state U (-1)).2.id = (rotate_state V (-1)).2.id)
    (hsl : (rotate_state U (-1)).2.slack &&& 1 = (rotate_state V (-1)).2.slack &&& 1)
    (hall : ∀ w ∈ solve_sub_new_states U, in_table hash w) :
    ∀ w ∈ solve_sub_new_states V, in_table hash w := by
  obtain ⟨k, hk⟩ := same_class_is_rotation U V hU hV hid hsl
  intro w hw
  have hwf := (well_formed_succ V w hV hw).1
  have h1 := succ_iterate_rotate V w hw (3 * k)
  have h2 : (fun s => rotate s 1)^[3 * k] V = U := by
    rw [hk, ← Function.iterate_add_apply, show 3 * k + k = 4 * k by ring,
      iterate_rotate_four_mul U hU.1]
  rw [h2] at h1
  exact (in_table_iterate_rotate hash w hwf.1 (3 * k)).1 (hall _ h1)

/-! ## Phase 1 visits every successor -/

theorem Outcome.returns_zero_ret (P : Globals → Prop) (d : Int) (g : Globals) :
    (Outcome.ret d g).returns_zero P = (d = 0 ∧ P g) := by
  unfold Outcome.returns_zero; rfl

theorem Outcome.returns_zero_exit (P : Globals → Prop) (st : Int) (g : Globals) :
    (Outcome.exit st g).returns_zero P = True := by
  unfold Outcome.returns_zero; rfl

theorem Outcome.returns_zero_out_of_fuel (P : Globals → Prop) :
    Outcome.out_of_fuel.returns_zero P = False := by
  unfold Outcome.returns_zero; rfl

theorem Outcome.returns_zero_mono {P Q : Globals → Prop} (h : ∀ g, P g → Q g) {o : Outcome}
    (ho : o.returns_zero P) : o.returns_zero Q := by
  cases o with
  | ret d g =>
    rw [Outcome.returns_zero_ret] at ho ⊢
    exact ⟨ho.1, h g ho.2⟩
  | exit st g => rw [Outcome.returns_zero_exit]; trivial
  | out_of_fuel => rw [Outcome.returns_zero_out_of_fuel] at ho; exact ho.elim

theorem table_step_refl (n : Nat) (h : HashTable) (h1 : probe_consistent h)
    (h2 : closed_below h n) : table_step n h h :=
  ⟨h1, h2, fun _ hc => hc, fun _ _ hv => Or.inl hv⟩

theorem table_step_trans (n : Nat) (a b c : HashTable) (h1 : table_step n a b)
    (h2 : table_step n b c) : table_step n a c := by
  obtain ⟨_, _, m1, p1⟩ := h1
  obtain ⟨c2, d2, m2, p2⟩ := h2
  refine ⟨c2, d2, fun x hx => m2 x (m1 x hx), ?_⟩
  intro v hv hin
  rcases p2 v hv hin with h | h
  · exact p1 v hv h
  · exact Or.inr h

theorem in_table_of_step (n : Nat) (a b : HashTable) (h : table_step n a b) (w : STATE)
    (hw : in_table a w) : in_table b w := h.2.2.1 _ hw

section phase1

variable (rec : Int → Globals → STATE → Outcome) (n : Nat) (hn : PINS_LEFT ≤ n)
  (hrec : ∀ g W, well_formed W → W.pins = n → probe_consistent g.hash →
    closed_below g.hash n →
    (rec 1 g W).returns_zero (fun g1 => table_step n g.hash g1.hash ∧ in_table g1.hash W))
  (U : STATE) (hU : well_formed U) (hUp : U.pins = n + 1)

set_option maxRecDepth 100000 in
include hn hrec hU hUp in
theorem solve_pin_loop_phase1 (pin : Nat) (hp : pin < 33) (hfree : solve_sub_free U pin)
    (todo j : Nat) (hj : j + todo ≤ 4) (g : Globals) (hc : probe_consistent g.hash)
    (hcl : closed_below g.hash n) :
    (solve_pin_loop rec U (4 * pin) 1 todo j g).returns_zero
      (fun g1 => table_step n g.hash g1.hash ∧
        ∀ j1, j ≤ j1 → j1 < j + todo → solve_pin_legal U (tableAt (4 * pin + j1)) →
          in_table g1.hash (solve_pin_new_state U (tableAt (4 * pin + j1)))) := by
  induction todo generalizing j g with
  | zero =>
    rw [solve_pin_loop, Outcome.returns_zero_ret]
    exact ⟨rfl, table_step_refl n _ hc hcl, fun j1 h1 h2 => by omega⟩
  | succ m ih =>
    rw [solve_pin_loop_succ]
    by_cases hl : solve_pin_legal U (tableAt (4 * pin + j))
    swap
    · rw [if_neg hl]
      refine Outcome.returns_zero_mono ?_ (ih (j + 1) (by omega) g hc hcl)
      intro g1 hg1
      refine ⟨hg1.1, ?_⟩
      intro j1 h1 h2 hl1
      rcases Nat.eq_or_lt_of_le h1 with h | h
      · rw [← h] at hl1; exact absurd hl1 hl
      · exact hg1.2 j1 h (by omega) hl1
    rw [if_pos hl]
    have hnp : ¬ solve_pin_pruned g U (tableAt (4 * pin + j)) := by
      intro h
      have := h.1
      simp only [PINS_LEFT] at this hn
      omega
    rw [if_neg hnp]
    have hmem := mem_solve_sub_new_states_of U pin j hp (by omega) hfree hl
    obtain ⟨hwf, hwp⟩ := well_formed_succ U _ hU hmem
    have h2 := hrec
      { g with move := Function.update g.move U.pins (4 * pin + j),
               move_state := Function.update g.move_state U.pins
                 (solve_pin_new_state U (tableAt (4 * pin + j))) }
      (solve_pin_new_state U (tableAt (4 * pin + j))) hwf (by omega) hc hcl
    generalize rec 1 _ _ = o at h2 ⊢
    cases o with
    | ret d g2 =>
      rw [Outcome.returns_zero_ret] at h2
      obtain ⟨hd, hstep, hin⟩ := h2
      dsimp only at hstep ⊢
      rw [if_neg (by rw [hd]; exact fun h => h rfl)]
      refine Outcome.returns_zero_mono ?_ (ih (j + 1) (by omega) g2 hstep.1 hstep.2.1)
      intro g1 hg1
      refine ⟨table_step_trans n _ _ _ hstep hg1.1, ?_⟩
      intro j1 h1 h2 hl1
      rcases Nat.eq_or_lt_of_le h1 with h | h
      · rw [← h]
        exact in_table_of_step n _ _ hg1.1 _ hin
      · exact hg1.2 j1 h (by omega) hl1
    | exit st g2 => rw [Outcome.returns_zero_exit]; trivial
    | out_of_fuel => rw [Outcome.returns_zero_out_of_fuel] at h2; exact h2.elim

include hn hrec hU hUp in
theorem solve_pin_phase1 (pin : Nat) (hp : pin < 33) (hfree : solve_sub_free U pin)
    (g : Globals) (hc : probe_consistent g.hash) (hcl : closed_below g.hash n) :
    (solve_pin rec g U (4 * pin) 1).returns_zero
      (fun g1 => table_step n g.hash g1.hash ∧
        ∀ j1, j1 < 4 → solve_pin_legal U (tableAt (4 * pin + j1)) →
          in_table g1.hash (solve_pin_new_state U (tableAt (4 * pin + j1)))) := by
  unfold solve_pin
  refine Outcome.returns_zero_mono ?_
    (solve_pin_loop_phase1 rec n hn hrec U hU hUp pin hp hfree 4 0 (by omega)
      { g with trace := g.trace ++ [Event.solve_pin U (4 * pin)] } hc hcl)
  intro g1 hg1
  exact ⟨hg1.1, fun j1 h1 hl => hg1.2 j1 (Nat.zero_le _) (by omega) hl⟩

set_option maxRecDepth 100000 in
include hn hrec hU hUp in
theorem solve_sub_loop_phase1 (todo pin : Nat) (hj : pin + todo ≤ 32) (g : Globals)
    (hc : probe_consistent g.hash) (hcl : closed_below g.hash n) :
    (solve_sub_loop rec U 1 todo pin g).returns_zero
      (fun g1 => table_step n g.hash g1.hash ∧
        ∀ p1, pin ≤ p1 → p1 < pin + todo → solve_sub_free U p1 →
          ∀ j1, j1 < 4 → solve_pin_legal U (tableAt (4 * p1 + j1)) →
            in_table g1.hash (solve_pin_new_state U (tableAt (4 * p1 + j1)))) := by
  induction todo generalizing pin g with
  | zero =>
    rw [solve_sub_loop, Outcome.returns_zero_ret]
    exact ⟨rfl, table_step_refl n _ hc hcl, fun p1 h1 h2 => by omega⟩
  | succ m ih =>
    rw [solve_sub_loop_succ]
    have hfree_iff : solve_sub_free U pin ↔ U.id &&& (1 <<< pin) % UINT = 0 := by
      unfold solve_sub_free
      rw [if_pos (by simp only [PINS]; omega)]
    by_cases hf : U.id &&& (1 <<< pin) % UINT = 0
    swap
    · rw [if_neg hf]
      refine Outcome.returns_zero_mono ?_ (ih (pin + 1) (by omega) g hc hcl)
      intro g1 hg1
      refine ⟨hg1.1, ?_⟩
      intro p1 h1 h2 hf1
      rcases Nat.eq_or_lt_of_le h1 with h | h
      · rw [← h] at hf1; exact absurd (hfree_iff.1 hf1) hf
      · exact hg1.2 p1 h (by omega) hf1
    rw [if_pos hf]
    have h2 := solve_pin_phase1 rec n hn hrec U hU hUp pin (by omega) (hfree_iff.2 hf) g hc hcl
    generalize solve_pin rec g U (4 * pin) 1 = o at h2 ⊢
    cases o with
    | ret d g2 =>
      rw [Outcome.returns_zero_ret] at h2
      obtain ⟨hd, hstep, hin⟩ := h2
      dsimp only
      rw [if_neg (by rw [hd]; exact fun h => h rfl)]
      refine Outcome.returns_zero_mono ?_ (ih (pin + 1) (by omega) g2 hstep.1 hstep.2.1)
      intro g1 hg1
      refine ⟨table_step_trans n _ _ _ hstep hg1.1, ?_⟩
      intro p1 h1 h2 hf1
      rcases Nat.eq_or_lt_of_le h1 with h | h
      · rw [← h]
        intro j1 hj1 hl
        exact in_table_of_step n _ _ hg1.1 _ (hin j1 hj1 hl)
      · exact hg1.2 p1 h (by omega) hf1
    | exit st g2 => rw [Outcome.returns_zero_exit]; trivial
    | out_of_fuel => rw [Outcome.returns_zero_out_of_fuel] at h2; exact h2.elim

include hn hrec hU hUp in
theorem solve_sub_phase1 (g : Globals) (hc : probe_consistent g.hash)
    (hcl : closed_below g.hash n) :
    (solve_sub rec g U 1).returns_zero
      (fun g1 => table_step n g.hash g1.hash ∧
        ∀ w ∈ solve_sub_new_states U, in_table g1.hash w) := by
  unfold solve_sub
  have h2 := solve_sub_loop_phase1 rec n hn hrec U hU hUp PINS 0 (by simp only [PINS]; omega)
    { g with trace := g.trace ++ [Event.solve_sub U] } hc hcl
  generalize solve_sub_loop rec U 1 PINS 0 _ = o at h2 ⊢
  cases o with
  | ret d g2 =>
    rw [Outcome.returns_zero_ret] at h2
    obtain ⟨hd, hstep, hin⟩ := h2
    dsimp only at hstep ⊢
    by_cases hs : U.slack &&& 1 = 0
    · rw [if_pos ⟨hd, hs⟩]
      have hfree : solve_sub_free U SL := by
        unfold solve_sub_free
        rw [if_neg (by decide)]
        exact hs
      refine Outcome.returns_zero_mono ?_
        (solve_pin_phase1 rec n hn hrec U hU hUp SL (by decide) hfree g2 hstep.1 hstep.2.1)
      intro g1 hg1
      refine ⟨table_step_trans n _ _ _ hstep hg1.1, ?_⟩
      intro w hw
      obtain ⟨p1, d1, hp1, hd1, hf1, hl1, e⟩ := mem_solve_sub_new_states hw
      rw [e]
      by_cases h32 : p1 < 32
      · exact in_table_of_step n _ _ hg1.1 _
          (hin p1 (Nat.zero_le _) (by show p1 < 0 + 32; omega) hf1 d1 hd1 hl1)
      · have : p1 = SL := by show p1 = 32; omega
        subst this
        exact hg1.2 d1 hd1 hl1
    · rw [if_neg (fun h => hs h.2), Outcome.returns_zero_ret]
      refine ⟨hd, hstep, ?_⟩
      intro w hw
      obtain ⟨p1, d1, hp1, hd1, hf1, hl1, e⟩ := mem_solve_sub_new_states hw
      rw [e]
      by_cases h32 : p1 < 32
      · exact hin p1 (Nat.zero_le _) (by show p1 < 0 + 32; omega) hf1 d1 hd1 hl1
      · have : p1 = SL := by show p1 = 32; omega
        subst this
        unfold solve_sub_free at hf1
        rw [if_neg (by decide)] at hf1
        exact absurd hf1 hs
  | exit st g2 => rw [Outcome.returns_zero_exit]; trivial
  | out_of_fuel => rw [Outcome.returns_zero_out_of_fuel] at h2; exact h2.elim

end phase1

/-- What a successful insertion of the class of `S` does to the table. -/
theorem insert_step (h : HashTable) (S : STATE) (hS : well_formed S) (hp : 2 ≤ S.pins)
    (i0 : Nat) (hi0 : i0 < HASH_SIZ)
    (hempty : (h (DOUBLE_HASH (rotate_state S (-1)).2.id i0)).id = 0)
    (hb : ∀ j, j < i0 → (h (DOUBLE_HASH (rotate_state S (-1)).2.id j)).id ≠ 0)
    (hc : probe_consistent h) :
    probe_consistent
        (Function.update h (DOUBLE_HASH (rotate_state S (-1)).2.id i0) (rotate_state S (-1)).2) ∧
      (∀ x, stored h x → stored
        (Function.update h (DOUBLE_HASH (rotate_state S (-1)).2.id i0) (rotate_state S (-1)).2) x) ∧
      in_table
        (Function.update h (DOUBLE_HASH (rotate_state S (-1)).2.id i0) (rotate_state S (-1)).2) S ∧
      (∀ V, in_table
        (Function.update h (DOUBLE_HASH (rotate_state S (-1)).2.id i0) (rotate_state S (-1)).2) V →
        in_table h V ∨ ((rotate_state S (-1)).2.id = (rotate_state V (-1)).2.id ∧
          (rotate_state S (-1)).2.slack &&& 1 = (rotate_state V (-1)).2.slack &&& 1)) := by
  have hne := canon_id_ne_zero_of_pins S hS hp
  refine ⟨probe_consistent_update h _ hne i0 hi0 hb hc, ?_, stored_update_self h _ _ hne, ?_⟩
  · rintro x ⟨e, he, hid, hsl⟩
    have hee : e ≠ DOUBLE_HASH (rotate_state S (-1)).2.id i0 := by
      intro h1; rw [h1] at he; exact he hempty
    exact ⟨e, by rw [Function.update_noteq hee]; exact he,
      by rw [Function.update_noteq hee]; exact hid,
      by rw [Function.update_noteq hee]; exact hsl⟩
  · intro V hV
    exact stored_update h _ _ _ hV

set_option maxRecDepth 100000 in
/-- A phase-1 call on a state with `PINS_LEFT` pegs or more returns 0 (or the
program exits on a full table); it leaves the state in the table, and the
table closed under successors down to `PINS_LEFT + 1` pegs. -/
theorem solve_phase1 (fuel : Nat) : ∀ (g : Globals) (S : STATE), well_formed S →
    PINS_LEFT ≤ S.pins → S.pins < fuel + PINS_LEFT → probe_consistent g.hash →
    closed_below g.hash S.pins →
    (solve fuel 1 g S).returns_zero
      (fun g1 => table_step S.pins g.hash g1.hash ∧ in_table g1.hash S) := by
  induction fuel with
  | zero => intro g S _ h1 h2; omega
  | succ fuel ih =>
    intro g S hS hlo hhi hc hcl
    have hlo1 : 21 ≤ S.pins := hlo
    have hhi1 : S.pins < fuel + 1 + 21 := hhi
    rw [solve_succ, if_neg (by decide)]
    rcases hash_add_loop_cases (rotate_state S (-1)).2 g.hash HASH_SIZ 0 with
      ⟨hr, htab, hst⟩ | ⟨hr, htab⟩ | ⟨hr, i0, _, hi0, hempty, htab, hb⟩
    · have hr1 : (hash_add g.hash S).1 = 1 := hr
      have ht1 : (hash_add g.hash S).2 = g.hash := htab
      rw [if_neg (by rw [hr1]; decide), if_neg (by rw [hr1]; decide), Outcome.returns_zero_ret]
      dsimp only
      rw [ht1]
      exact ⟨rfl, table_step_refl _ _ hc hcl, hst⟩
    · have hr1 : (hash_add g.hash S).1 = -1 := hr
      rw [if_neg (by rw [hr1]; decide), if_pos hr1, Outcome.returns_zero_exit]
      trivial
    · have hr1 : (hash_add g.hash S).1 = 0 := hr
      have ht1 : (hash_add g.hash S).2 =
          Function.update g.hash (DOUBLE_HASH (rotate_state S (-1)).2.id i0)
            (rotate_state S (-1)).2 := htab
      obtain ⟨hc1, hmono, hself, hnew⟩ := insert_step g.hash S hS (by omega) i0
        (by omega) hempty (fun j hj => hb j (Nat.zero_le _) hj) hc
      rw [← ht1] at hc1 hmono hself hnew
      have hnewp : ∀ V, well_formed V → in_table (hash_add g.hash S).2 V →
          in_table g.hash V ∨ V.pins = S.pins := by
        intro V hV hin
        rcases hnew V hin with h | ⟨h1, h2⟩
        · exact Or.inl h
        · exact Or.inr (same_class_pins S V hS hV h1 h2)
      rw [if_pos hr1]
      by_cases hp : S.pins = PINS_LEFT
      · rw [if_pos hp, if_neg (by decide), Outcome.returns_zero_ret]
        dsimp only
        refine ⟨rfl, ⟨hc1, ?_, hmono, ?_⟩, hself⟩
        · intro v _ h1 h2
          have hp1 : S.pins = 21 := hp
          have h3 : 21 < v.pins := h1
          omega
        · intro V hV hin
          rcases hnewp V hV hin with h | h
          · exact Or.inl h
          · exact Or.inr (le_of_eq h)
      · rw [if_neg hp]
        have hp1 : S.pins ≠ 21 := hp
        obtain ⟨n, hn⟩ : ∃ n, S.pins = n + 1 := ⟨S.pins - 1, by omega⟩
        have hcl1 : closed_below (hash_add g.hash S).2 n := by
          intro v hv h1 h2 hin w hw
          rcases hnewp v hv hin with h | h
          · exact hmono _ (hcl v hv h1 (by omega) h w hw)
          · omega
        have hrec : ∀ (g0 : Globals) (W : STATE), well_formed W → W.pins = n →
            probe_consistent g0.hash → closed_below g0.hash n →
            (solve fuel 1 g0 W).returns_zero
              (fun g1 => table_step n g0.hash g1.hash ∧ in_table g1.hash W) := by
          intro g0 W hW hWn hc0 hcl0
          have := ih g0 W hW (by show 21 ≤ W.pins; omega) (by show W.pins < fuel + 21; omega)
            hc0 (by rw [hWn]; exact hcl0)
          rw [hWn] at this
          exact this
        refine Outcome.returns_zero_mono ?_
          (solve_sub_phase1 (solve fuel) n (by show 21 ≤ n; omega) hrec S hS hn
            { g with hash := (hash_add g.hash S).2,
                     trace := g.trace ++ [Event.solve 1 S] ++
                       [Event.hash_add S (hash_add g.hash S).1] } hc1 hcl1)
        intro g1 ⟨⟨hc2, hcl2, hmono2, hnew2⟩, hsucc⟩
        dsimp only at hmono2 hnew2
        refine ⟨⟨hc2, ?_, fun x hx => hmono2 x (hmono x hx), ?_⟩, hmono2 _ hself⟩
        · intro v hv h1 h2 hin
          by_cases hvn : v.pins ≤ n
          · exact hcl2 v hv h1 hvn hin
          · rcases hnew2 v hv hin with h | h
            · rcases hnew v h with h3 | ⟨h3, h4⟩
              · intro w hw
                exact hmono2 _ (hmono _ (hcl v hv h1 h2 h3 w hw))
              · exact in_table_succ_of_same_class g1.hash S v hS hv h3 h4 hsucc
            · exact absurd h hvn
        · intro V hV hin
          rcases hnew2 V hV hin with h | h
          · rcases hnewp V hV h with h3 | h3
            · exact Or.inl h3
            · exact Or.inr (le_of_eq h3)
          · exact Or.inr (by omega)

theorem well_formed_start_state : well_formed start_state := by
  refine ⟨by decide, by decide, ?_⟩
  unfold peg_count_ok
  decide

/-- After a phase-1 call on `S0` that returns, every state reachable from `S0`
with `PINS_LEFT` pegs or more is in the table. -/
theorem reachable_in_table (h : HashTable) (S0 : STATE) (hS0 : well_formed S0)
    (hcl : closed_below h S0.pins) (hin : in_table h S0) (S : STATE)
    (hr : reachable S0 S) :
    well_formed S ∧ S.pins ≤ S0.pins ∧ (PINS_LEFT ≤ S.pins → in_table h S) := by
  induction hr with
  | start => exact ⟨hS0, le_refl _, fun _ => hin⟩
  | step s t _ hst ih =>
    obtain ⟨hwf, hle, hs⟩ := ih
    obtain ⟨hwt, hp⟩ := well_formed_succ s t hwf hst
    refine ⟨hwt, by omega, ?_⟩
    intro h21
    have h21a : 21 ≤ t.pins := h21
    exact hcl s hwf (by show 21 < s.pins; omega) hle (hs (by show 21 ≤ s.pins; omega)) t hst

theorem solve_phase1_from_empty (fuel : Nat) (g : Globals) (hg : g.hash = hash_init)
    (S0 : STATE) (hS0 : well_formed S0) (hlo : PINS_LEFT ≤ S0.pins)
    (hfuel : S0.pins < fuel + PINS_LEFT) :
    (solve fuel 1 g S0).returns_zero
      (fun g1 => ∀ S, reachable S0 S → S.pins = PINS_LEFT → hash_search g1.hash S = 0) := by
  have hc : probe_consistent g.hash := by rw [hg]; exact probe_consistent_init
  have hcl : closed_below g.hash S0.pins := by
    rw [hg]
    intro v _ _ _ hin
    exact absurd hin (not_stored_init _)
  refine Outcome.returns_zero_mono ?_ (solve_phase1 fuel g S0 hS0 hlo hfuel hc hcl)
  intro g1 ⟨⟨hc1, hcl1, _, _⟩, hin⟩ S hr hp
  have h := (reachable_in_table g1.hash S0 hS0 hcl1 hin S hr).2.2 (le_of_eq hp.symm)
  exact hash_search_of_stored g1.hash _ hc1 h

/-- C15: phase 1 is exhaustive.  With a recursion budget of 12 or more, the
call `solve(start_state, 1)` on the table `hash_init` leaves either returns 0 or
ends in `exit` (which only a full table causes); when it returns, every state
with exactly `PINS_LEFT` pegs that a sequence of legal jumps reaches from the
start state is found by `hash_search`. -/
theorem phase1_exhaustive (fuel : Nat) (hfuel : 12 ≤ fuel) (g : Globals)
    (hg : g.hash = hash_init) :
    (∃ g1, solve fuel 1 g start_state = Outcome.ret 0 g1 ∧
      ∀ S, reachable start_state S → S.pins = PINS_LEFT → hash_search g1.hash S = 0) ∨
    (∃ st g1, solve fuel 1 g start_state = Outcome.exit st g1) := by
  have h := solve_phase1_from_empty fuel g hg start_state well_formed_start_state
    (by decide) (by show 32 < fuel + 21; omega)
  generalize solve fuel 1 g start_state = o at h ⊢
  cases o with
  | ret d g1 =>
    rw [Outcome.returns_zero_ret] at h
    left
    exact ⟨g1, by rw [h.1], h.2⟩
  | exit st g1 => right; exact ⟨st, g1, rfl⟩
  | out_of_fuel => rw [Outcome.returns_zero_out_of_fuel] at h; exact h.elim

theorem phase1_exhaustive_witness :
    12 ≤ 12 ∧ globals_init.hash = hash_init ∧
    ((∃ g1, solve 12 1 globals_init start_state = Outcome.ret 0 g1 ∧
      ∀ S, reachable start_state S → S.pins = PINS_LEFT → hash_search g1.hash S = 0) ∨
    (∃ st g1, solve 12 1 globals_init start_state = Outcome.exit st g1)) :=
  ⟨by decide, rfl, phase1_exhaustive 12 (by decide) globals_init rfl⟩

/-! ## The hash table: frame and persistence -/

theorem hash_add_loop_ret (c : STATE) (hash : HashTable) (todo i : Nat) :
    (hash_add_loop c hash todo i).1 = 0 ∨ (hash_add_loop c hash todo i).1 = 1 ∨
      (hash_add_loop c hash todo i).1 = -1 := by
  rcases hash_add_loop_cases c hash todo i with h | h | h
  · exact Or.inr (Or.inl h.1)
  · exact Or.inr (Or.inr h.1)
  · exact Or.inl h.1

/-- C24 fails as stated: on the table a first `hash_add(final_state)` left, a
second `hash_add(final_state)` returns Inserted (0) and no slot differs from
before, since the slot it writes already holds the goal state (whose id 0
reads as empty). -/
theorem hash_add_inserted_no_slot_differs :
    (hash_add (hash_add hash_init final_state).2 final_state).1 = 0 ∧
    ∀ e, (hash_add (hash_add hash_init final_state).2 final_state).2 e =
      (hash_add hash_init final_state).2 e := by
  have hc : (rotate_state final_state (-1)).2 = final_state := by decide
  have h1 : hash_add hash_init final_state =
      (0, Function.update hash_init (DOUBLE_HASH 0 0) final_state) := by
    unfold hash_add
    rw [hc]
    exact hash_add_loop_empty final_state hash_init 1499682 0 rfl
  have h2 : hash_add (Function.update hash_init (DOUBLE_HASH 0 0) final_state) final_state =
      (0, Function.update (Function.update hash_init (DOUBLE_HASH 0 0) final_state)
        (DOUBLE_HASH 0 0) final_state) := by
    unfold hash_add
    rw [hc]
    exact hash_add_loop_empty final_state _ 1499682 0 (by
      show (Function.update hash_init (DOUBLE_HASH 0 0) final_state (DOUBLE_HASH 0 0)).id = 0
      rw [Function.update_same]; rfl)
  rw [h1]
  dsimp only
  rw [h2]
  refine ⟨rfl, fun e => ?_⟩
  dsimp only
  rw [Function.update_idem]

/-- C24 (as amended): the frame of `hash_add`.  The call returns 0, 1 or -1;
on 1 (Duplicate) and -1 (Full) the table is as before; on 0 (Inserted) the
table is the old one with one slot, which had `id == 0`, set to the canonical
form of `S`, so at most one slot differs, and exactly one when the id of `S`
is not 0; a slot with a non-zero id is never written.  The table is also the
same after `check_phase2_result`, the one caller of `hash_search`. -/
theorem hash_add_frame (hash : HashTable) (S : STATE) :
    ((hash_add hash S).1 = 0 ∨ (hash_add hash S).1 = 1 ∨ (hash_add hash S).1 = -1) ∧
    ((hash_add hash S).1 = 1 ∨ (hash_add hash S).1 = -1 → (hash_add hash S).2 = hash) ∧
    ((hash_add hash S).1 = 0 →
      ∃ e, e < HASH_SIZ ∧ (hash e).id = 0 ∧
        (hash_add hash S).2 = Function.update hash e (rotate_state S (-1)).2 ∧
        (hash_add hash S).2 e = (rotate_state S (-1)).2 ∧
        (∀ e1, e1 ≠ e → (hash_add hash S).2 e1 = hash e1) ∧
        (S.id ≠ 0 → (hash_add hash S).2 e ≠ hash e)) ∧
    (∀ e, (hash e).id ≠ 0 → (hash_add hash S).2 e = hash e) ∧
    (∀ (g : Globals) (s : STATE), (check_phase2_result g s).2.hash = g.hash) := by
  refine ⟨hash_add_loop_ret _ _ _ _, ?_, ?_,
    fun e he => hash_add_loop_frame _ hash e he HASH_SIZ 0,
    fun g s => (check_phase2_result_trace g s).2⟩
  · intro h
    rcases hash_add_loop_cases (rotate_state S (-1)).2 hash HASH_SIZ 0 with h1 | h1 | h1
    · exact h1.2.1
    · exact h1.2
    · have h0 : (hash_add hash S).1 = 0 := h1.1
      rw [h0] at h
      rcases h with h | h <;> exact absurd h (by decide)
  · intro hz
    rcases hash_add_loop_cases (rotate_state S (-1)).2 hash HASH_SIZ 0 with h1 | h1 | h1
    · have h0 : (hash_add hash S).1 = 1 := h1.1
      rw [h0] at hz
      exact absurd hz (by decide)
    · have h0 : (hash_add hash S).1 = -1 := h1.1
      rw [h0] at hz
      exact absurd hz (by decide)
    · obtain ⟨_, i0, _, _, hempty, htab, _⟩ := h1
      have ht : (hash_add hash S).2 =
          Function.update hash (DOUBLE_HASH (rotate_state S (-1)).2.id i0)
            (rotate_state S (-1)).2 := htab
      refine ⟨DOUBLE_HASH (rotate_state S (-1)).2.id i0, DOUBLE_HASH_lt _ _, hempty, ht, ?_, ?_, ?_⟩
      · rw [ht, Function.update_same]
      · intro e1 he1
        rw [ht, Function.update_noteq he1]
      · intro hS hcontra
        rw [ht, Function.update_same] at hcontra
        have := rotate_canon_id_ne_zero S hS
        rw [hcontra] at this
        exact this hempty

theorem hash_search_loop_keeps (c x : STATE) (hash : HashTable) (t2 i2 : Nat) (todo i : Nat)
    (h : hash_search_loop c hash todo i = 0) :
    hash_search_loop c (hash_add_loop x hash t2 i2).2 todo i = 0 := by
  induction todo generalizing i with
  | zero =>
    rw [hash_search_loop] at h
    exact absurd h (by decide)
  | succ n ih =>
    by_cases h1 : (hash (DOUBLE_HASH c.id i)).id = 0
    · rw [hash_search_loop_empty c hash n i h1] at h
      exact absurd h (by decide)
    · have hf := hash_add_loop_frame x hash (DOUBLE_HASH c.id i) h1 t2 i2
      by_cases h2 : (hash (DOUBLE_HASH c.id i)).id = c.id ∧
          (hash (DOUBLE_HASH c.id i)).slack &&& 1 = c.slack &&& 1
      · exact hash_search_loop_match c _ n i (by rw [hf]; exact h1) (by rw [hf]; exact h2)
      · rw [hash_search_loop_next c hash n i h1 h2] at h
        rw [hash_search_loop_next c _ n i (by rw [hf]; exact h1) (by rw [hf]; exact h2)]
        exact ih (i + 1) h

theorem hash_add_loop_of_search (c : STATE) (hash : HashTable) (todo i : Nat)
    (h : hash_search_loop c hash todo i = 0) : hash_add_loop c hash todo i = (1, hash) := by
  induction todo generalizing i with
  | zero =>
    rw [hash_search_loop] at h
    exact absurd h (by decide)
  | succ n ih =>
    by_cases h1 : (hash (DOUBLE_HASH c.id i)).id = 0
    · rw [hash_search_loop_empty c hash n i h1] at h
      exact absurd h (by decide)
    · by_cases h2 : (hash (DOUBLE_HASH c.id i)).id = c.id ∧
          (hash (DOUBLE_HASH c.id i)).slack &&& 1 = c.slack &&& 1
      · exact hash_add_loop_match c hash n i h1 h2
      · rw [hash_search_loop_next c hash n i h1 h2] at h
        rw [hash_add_loop_next c hash n i h1 h2]
        exact ih (i + 1) h

theorem hash_search_loop_keeps_all (c : STATE) (xs : List STATE) (hash : HashTable)
    (h : hash_search_loop c hash HASH_SIZ 0 = 0) :
    hash_search_loop c (hash_add_all hash xs) HASH_SIZ 0 = 0 := by
  induction xs generalizing hash with
  | nil => exact h
  | cons x xs ih =>
    rw [hash_add_all]
    exact ih _ (hash_search_loop_keeps c _ hash HASH_SIZ 0 HASH_SIZ 0 h)

theorem canon_rotate (S : STATE) (hS : S.id < UINT) (k : Int) (hk0 : 0 ≤ k) (hk3 : k ≤ 3) :
    (rotate_state (rotate S k) (-1)).2 = (rotate_state S (-1)).2 := by
  obtain rfl | rfl | rfl | rfl : k = 0 ∨ k = 1 ∨ k = 2 ∨ k = 3 := by omega
  · rw [rotate_zero]
  · exact canon_rotate_one S hS
  · have h1 := canon_rotate_one S hS
    have h2 := canon_rotate_one (rotate S 1) (by rw [rotate_one]; exact rotId_lt _)
    rw [← h1, ← h2]
    simp only [rotate_one, rotate_two]
  · have h1 := canon_rotate_one S hS
    have h2 := canon_rotate_one (rotate S 1) (by rw [rotate_one]; exact rotId_lt _)
    have h3 := canon_rotate_one (rotate (rotate S 1) 1)
      (by rw [rotate_one]; exact rotId_lt _)
    rw [← h1, ← h2, ← h3]
    simp only [rotate_one, rotate_three]

/-- C25: membership persists up to rotation.  For every state `S` with a
32-bit id that is not 0: once `hash_add(S)` has returned Inserted (0) or
Duplicate (1), then after any finite sequence of further `hash_add` calls on
arbitrary states, `hash_search(rotate(S,k))` returns Found (0) and
`hash_add(rotate(S,k))` returns Duplicate (1), for every `k` in `0..3`. -/
theorem membership_persists (hash : HashTable) (S : STATE) (hS0 : S.id ≠ 0) (hS : S.id < UINT)
    (h : (hash_add hash S).1 = 0 ∨ (hash_add hash S).1 = 1) (xs : List STATE)
    (k : Int) (hk0 : 0 ≤ k) (hk3 : k ≤ 3) :
    hash_search (hash_add_all (hash_add hash S).2 xs) (rotate S k) = 0 ∧
    (hash_add (hash_add_all (hash_add hash S).2 xs) (rotate S k)).1 = 1 := by
  have hne : (hash_add hash S).1 ≠ -1 := by
    rcases h with h | h <;> rw [h] <;> decide
  have h1 : hash_search_loop (rotate_state S (-1)).2 (hash_add hash S).2 HASH_SIZ 0 = 0 :=
    hash_search_after_add_loop _ (rotate_canon_id_ne_zero S hS0) hash HASH_SIZ 0 hne
  have h2 := hash_search_loop_keeps_all _ xs _ h1
  unfold hash_search
  rw [canon_rotate S hS k hk0 hk3]
  refine ⟨h2, ?_⟩
  show (hash_add_loop (rotate_state (rotate S k) (-1)).2 _ HASH_SIZ 0).1 = 1
  rw [canon_rotate S hS k hk0 hk3, hash_add_loop_of_search _ _ _ _ h2]

theorem membership_persists_witness :
    (⟨0x01020304, 1, 5⟩ : STATE).id ≠ 0 ∧ (⟨0x01020304, 1, 5⟩ : STATE).id < UINT ∧
    (hash_add hash_init ⟨0x01020304, 1, 5⟩).1 = 0 ∧
    rotate ⟨0x01020304, 1, 5⟩ 2 = ⟨0x03040102, 1, 5⟩ ∧
    hash_search
      (hash_add_all (hash_add hash_init ⟨0x01020304, 1, 5⟩).2 [start_state, final_state])
      (rotate ⟨0x01020304, 1, 5⟩ 2) = 0 ∧
    (hash_add
      (hash_add_all (hash_add hash_init ⟨0x01020304, 1, 5⟩).2 [start_state, final_state])
      (rotate ⟨0x01020304, 1, 5⟩ 2)).1 = 1 :=
  ⟨by decide, by decide, by decide, by decide,
    membership_persists hash_init ⟨0x01020304, 1, 5⟩ (by decide) (by decide)
      (Or.inl (by decide)) [start_state, final_state] 2 (by decide) (by decide)⟩

/-! ## Termination and depth of the recursion -/

theorem Outcome.meets_ne_out_of_fuel {R E : Globals → Globals → Prop} {g : Globals}
    {o : Outcome} (h : o.meets R E g) : o ≠ Outcome.out_of_fuel := by
  intro ho
  rw [ho, Outcome.meets_out_of_fuel] at h
  exact h

theorem Outcome.meets_mono {R E R1 E1 : Globals → Globals → Prop} {g : Globals}
    (hR : ∀ g1, R g g1 → R1 g g1) (hE : ∀ g1, E g g1 → E1 g g1)
    {o : Outcome} (h : o.meets R E g) : o.meets R1 E1 g := by
  cases o with
  | ret d g1 => rw [Outcome.meets_ret] at h ⊢; exact hR g1 h
  | exit st g1 => rw [Outcome.meets_exit] at h ⊢; exact ⟨h.1, hE g1 h.2⟩
  | out_of_fuel => rw [Outcome.meets_out_of_fuel] at h; exact h.elim

set_option maxRecDepth 100000 in
/-- Depth by the `pins` field: the recursion stops at `pins == PINS_LEFT` (at
`BOARD - PINS_LEFT` in phase 2), and `pins` falls by one per level. -/
theorem solve_depth_by_pins (phase : Int) (stop : Nat)
    (hstop : if phase = 2 then stop = BOARD - PINS_LEFT else stop = PINS_LEFT)
    (fuel : Nat) (g : Globals) (S : STATE)
    (hlo : stop ≤ S.pins) (hhi : S.pins ≤ 32) (hfuel : S.pins < fuel + stop) :
    solve fuel phase g S ≠ Outcome.out_of_fuel := by
  apply Outcome.meets_ne_out_of_fuel (R := fun _ _ => True) (E := fun _ _ => True) (g := g)
  apply solve_meets phase _ _
    (fun n s => stop ≤ s.pins ∧ s.pins ≤ 32 ∧ s.pins < n + stop)
    (fun n s => stop < s.pins ∧ s.pins ≤ 32 ∧ s.pins < n + 1 + stop)
  · intro s h; omega
  · intro n s h hc
    have hne : s.pins ≠ stop := by
      by_cases h2 : phase = 2
      · rw [if_pos h2] at hc hstop
        rw [hstop]; exact hc
      · rw [if_neg h2] at hc hstop
        rw [hstop]; exact hc
    omega
  · intro n s pin d hs _ _ _ _
    have := new_state_pins s (tableAt (4 * pin + d)) (by omega) (by simp only [USHORT]; omega)
    omega
  · intro _; trivial
  · intro _ _ _ _ _; trivial
  · intro _ _ _ _ _; trivial
  · intro _ _ _ _; trivial
  · intro _ _ _ _; trivial
  · intro _ _ _ _ _; trivial
  · intro _ _ _ _ _ _ _; trivial
  · intro _ _ _ _ _ _; trivial
  · intro _ _ _ _ _ _; trivial
  · intro _ _; trivial
  · intro _ _; trivial
  · exact ⟨hlo, hhi, hfuel⟩

set_option maxRecDepth 100000 in
theorem solve_sub_by_pegs (phase : Int) (fuel : Nat) (g : Globals) (S : STATE)
    (hfuel : pegs S ≤ fuel) : solve_sub (solve fuel) g S phase ≠ Outcome.out_of_fuel := by
  apply Outcome.meets_ne_out_of_fuel (R := fun _ _ => True) (E := fun _ _ => True) (g := g)
  apply solve_sub_meets (solve fuel) phase _ _ (fun s => pegs s < fuel) (fun s => pegs s ≤ fuel)
  · intro _; trivial
  · intro _ _ _ _ _; trivial
  · intro _ _ _ _ _; trivial
  · intro g1 s hs
    exact Outcome.meets_mono (fun _ _ => trivial) (fun _ _ => trivial)
      (solve_trace_full fuel phase g1 s hs)
  · intro _ _ _; trivial
  · intro _ _ _ _; trivial
  · intro _ _ _ _ _ _; trivial
  · intro s pin d hs hp hd hf hl
    have := new_state_pegs s pin d hp hd hf hl
    omega
  · exact hfuel

/-- C27: termination.  For every state `S`, every phase and all globals, a
recursion budget above `pegs S = popcount(id) + (slack & 1)` (at most 33) is
never exhausted by `solve` (nor by `solve_sub` with a budget of that many
nested `solve` calls): every recursive call is on a state with exactly one peg
fewer.
Started from the start state, or from a state with `pins == PINS_LEFT` such as
a stored frontier entry, a budget of 32 nested `solve` calls is not
exhausted. -/
theorem solve_terminates (phase : Int) (g : Globals) (S : STATE) :
    (∀ fuel, pegs S < fuel → solve fuel phase g S ≠ Outcome.out_of_fuel) ∧
    (∀ fuel, pegs S ≤ fuel → solve_sub (solve fuel) g S phase ≠ Outcome.out_of_fuel) ∧
    pegs S ≤ 33 ∧
    (∀ pin d, pin < 33 → d < 4 → solve_sub_free S pin →
      solve_pin_legal S (tableAt (4 * pin + d)) →
      pegs (solve_pin_new_state S (tableAt (4 * pin + d))) + 1 = pegs S) ∧
    solve 32 phase g start_state ≠ Outcome.out_of_fuel ∧
    (S.pins = PINS_LEFT → solve 32 phase g S ≠ Outcome.out_of_fuel) := by
  refine ⟨fun fuel h => Outcome.meets_ne_out_of_fuel (solve_trace_full fuel phase g S h),
    fun fuel h => solve_sub_by_pegs phase fuel g S h, pegs_le S,
    fun pin d hp hd hf hl => new_state_pegs S pin d hp hd hf hl, ?_, ?_⟩
  · by_cases h2 : phase = 2
    · exact solve_depth_by_pins phase 12 (by rw [if_pos h2]; rfl) 32 g start_state
        (by decide) (by decide) (by decide)
    · exact solve_depth_by_pins phase 21 (by rw [if_neg h2]) 32 g start_state
        (by decide) (by decide) (by decide)
  · intro hp
    have hp1 : S.pins = 21 := hp
    by_cases h2 : phase = 2
    · exact solve_depth_by_pins phase 12 (by rw [if_pos h2]; rfl) 32 g S
        (by omega) (by omega) (by omega)
    · exact solve_depth_by_pins phase 21 (by rw [if_neg h2]) 32 g S
        (by omega) (by omega) (by omega)

/-! ## The empty-slot sentinel is never stored by the search -/

theorem no_stored_sentinel_init : no_stored_sentinel hash_init := fun _ _ => rfl

theorem no_stored_sentinel_add (hash : HashTable) (S : STATE)
    (hne : (rotate_state S (-1)).2.id ≠ 0) (h : no_stored_sentinel hash) :
    no_stored_sentinel (hash_add hash S).2 := by
  rcases hash_add_loop_cases (rotate_state S (-1)).2 hash HASH_SIZ 0 with h1 | h1 | h1
  · have ht : (hash_add hash S).2 = hash := h1.2.1
    rw [ht]; exact h
  · have ht : (hash_add hash S).2 = hash := h1.2
    rw [ht]; exact h
  · obtain ⟨_, i0, _, _, _, htab, _⟩ := h1
    have ht : (hash_add hash S).2 =
        Function.update hash (DOUBLE_HASH (rotate_state S (-1)).2.id i0)
          (rotate_state S (-1)).2 := htab
    rw [ht]
    intro e he
    by_cases hee : e = DOUBLE_HASH (rotate_state S (-1)).2.id i0
    · rw [hee, Function.update_same] at he
      exact absurd he hne
    · rw [Function.update_noteq hee] at he ⊢
      exact h e he

theorem keeps_sentinel_hash_add (s : STATE) (r : Int) (hs : well_formed s)
    (hp : PINS_LEFT ≤ s.pins) : (Event.hash_add s r).keeps_sentinel := by
  have hp1 : 21 ≤ s.pins := hp
  have hne := canon_id_ne_zero_of_pins s hs (by omega)
  obtain ⟨_, hsl, hpc⟩ := hs
  unfold peg_count_ok at hpc
  refine ⟨hp, ?_, ?_, hne⟩
  · show 21 - 1 ≤ popcount s.id
    omega
  · intro h0
    rw [h0, popcount_zero] at hpc
    omega

set_option maxRecDepth 100000 in
theorem solve_keeps_sentinel (phase : Int) (h2 : phase ≠ 2) (fuel : Nat) (g : Globals)
    (S : STATE) (hS : well_formed S) (hlo : PINS_LEFT ≤ S.pins) (hhi : S.pins ≤ 32)
    (hfuel : S.pins < fuel + PINS_LEFT) :
    (solve fuel phase g S).meets
      (fun g g1 => trace_extends Event.keeps_sentinel g g1 ∧
        (no_stored_sentinel g.hash → no_stored_sentinel g1.hash))
      (fun g g1 => trace_extends Event.keeps_sentinel g g1 ∧
        (no_stored_sentinel g.hash → no_stored_sentinel g1.hash)) g := by
  have hev : ∀ (g g1 : Globals) (e : Event), g1.hash = g.hash → g1.trace = g.trace ++ [e] →
      e.keeps_sentinel → trace_extends Event.keeps_sentinel g g1 ∧
        (no_stored_sentinel g.hash → no_stored_sentinel g1.hash) :=
    fun g g1 e h1 h2 h3 => ⟨trace_extends_one _ _ _ _ h2 h3, fun h => by rw [h1]; exact h⟩
  have htr : ∀ a b c : Globals,
      (trace_extends Event.keeps_sentinel a b ∧
        (no_stored_sentinel a.hash → no_stored_sentinel b.hash)) →
      (trace_extends Event.keeps_sentinel b c ∧
        (no_stored_sentinel b.hash → no_stored_sentinel c.hash)) →
      (trace_extends Event.keeps_sentinel a c ∧
        (no_stored_sentinel a.hash → no_stored_sentinel c.hash)) :=
    fun a b c h1 h2 => ⟨trace_extends_trans _ _ _ _ h1.1 h2.1, fun h => h2.2 (h1.2 h)⟩
  have hadd : ∀ (g : Globals) (s : STATE), well_formed s → PINS_LEFT ≤ s.pins →
      trace_extends Event.keeps_sentinel g
        { g with hash := (hash_add g.hash s).2,
                 trace := g.trace ++ [Event.hash_add s (hash_add g.hash s).1] } ∧
      (no_stored_sentinel g.hash → no_stored_sentinel (hash_add g.hash s).2) := by
    intro g s hs hp
    have hk := keeps_sentinel_hash_add s (hash_add g.hash s).1 hs hp
    exact ⟨trace_extends_one _ _ _ _ rfl hk, no_stored_sentinel_add g.hash s hk.2.2.2⟩
  apply solve_meets phase _ _
    (fun n s => well_formed s ∧ PINS_LEFT ≤ s.pins ∧ s.pins ≤ 32 ∧ s.pins < n + PINS_LEFT)
    (fun n s => well_formed s ∧ PINS_LEFT < s.pins ∧ s.pins ≤ 32 ∧ s.pins < n + 1 + PINS_LEFT)
  · intro s h; omega
  · intro n s h hc
    rw [if_neg h2] at hc
    exact ⟨h.1, by omega, h.2.2.1, by omega⟩
  · intro n s pin d hs hp hd hf hl
    obtain ⟨hw, hpn⟩ := well_formed_succ s _ hs.1 (mem_solve_sub_new_states_of s pin d hp hd hf hl)
    exact ⟨hw, by omega, by omega, by omega⟩
  · intro g; exact ⟨trace_extends_refl _ _, fun h => h⟩
  · exact htr
  · exact htr
  · intro n g s _
    exact hev _ _ _ rfl rfl (by unfold Event.keeps_sentinel; trivial)
  · intro n g s _
    exact hev _ _ _ rfl rfl (by unfold Event.keeps_sentinel; trivial)
  · intro n g s p _
    exact hev _ _ _ rfl rfl (by unfold Event.keeps_sentinel; trivial)
  · intro n g s k v st _
    exact ⟨trace_extends_of_eq _ _ _ rfl, fun h => h⟩
  · intro _ n g s h _
    exact hadd g s h.1 h.2.1
  · intro _ n g s h _
    exact hadd g s h.1 h.2.1
  · intro g s
    exact ⟨trace_extends_of_eq _ _ _ (check_phase2_result_trace g s).1,
      fun h => by rw [(check_phase2_result_trace g s).2]; exact h⟩
  · intro g s
    exact ⟨trace_extends_of_eq _ _ _ (check_phase3_result_trace g s).1,
      fun h => by rw [(check_phase3_result_trace g s).2]; exact h⟩
  · exact ⟨hS, hlo, hhi, hfuel⟩

/-- C26: the empty-slot sentinel is never a stored state.  In
`solve(start_state, 1)` and `solve(start_state, 3)` on the table `hash_init`
leaves, with a recursion budget of 12 or more, the call returns or exits
(the budget is not exhausted) and every state passed to `hash_add` has at
least `PINS_LEFT` pegs, at least `PINS_LEFT - 1` bits of its id set, and an id
and a canonical id different from 0; so the goal state is never inserted, and
in the table afterwards every slot with id 0 is still all zero (no stored
entry reads as empty). -/
theorem sentinel_never_stored (phase : Int) (hph : phase = 1 ∨ phase = 3) (fuel : Nat)
    (hfuel : 12 ≤ fuel) (g : Globals) (hg : g.hash = hash_init) :
    (solve fuel phase g start_state).meets
      (fun g g1 => trace_extends Event.keeps_sentinel g g1 ∧ no_stored_sentinel g1.hash)
      (fun g g1 => trace_extends Event.keeps_sentinel g g1 ∧ no_stored_sentinel g1.hash) g := by
  have h2 : phase ≠ 2 := by rcases hph with h | h <;> rw [h] <;> decide
  have hinit : no_stored_sentinel g.hash := by rw [hg]; exact no_stored_sentinel_init
  exact Outcome.meets_mono (fun g1 h => ⟨h.1, h.2 hinit⟩) (fun g1 h => ⟨h.1, h.2 hinit⟩)
    (solve_keeps_sentinel phase h2 fuel g start_state well_formed_start_state (by decide)
      (by decide) (by show 32 < fuel + 21; omega))

set_option maxRecDepth 100000 in
theorem sentinel_never_stored_witness :
    12 ≤ 12 ∧ globals_init.hash = hash_init ∧
    (solve 12 1 globals_init start_state).meets
      (fun g g1 => trace_extends Event.keeps_sentinel g g1 ∧ no_stored_sentinel g1.hash)
      (fun g g1 => trace_extends Event.keeps_sentinel g g1 ∧ no_stored_sentinel g1.hash)
      globals_init ∧
    (solve 12 3 globals_init start_state).meets
      (fun g g1 => trace_extends Event.keeps_sentinel g g1 ∧ no_stored_sentinel g1.hash)
      (fun g g1 => trace_extends Event.keeps_sentinel g g1 ∧ no_stored_sentinel g1.hash)
      globals_init :=
  ⟨by decide, rfl,
    sentinel_never_stored 1 (Or.inl rfl) 12 (by decide) globals_init rfl,
    sentinel_never_stored 3 (Or.inr rfl) 12 (by decide) globals_init rfl⟩

/-! ## Complement and the reverse of a jump -/

theorem testBit_bit_not32 (x i : Nat) :
    (bit_not32 x).testBit i = (decide (i < 32) && !x.testBit i) := by
  unfold bit_not32
  rw [Nat.testBit_xor, show UINT - 1 = 2 ^ 32 - 1 by rfl, Nat.testBit_two_pow_sub_one,
    show UINT = 2 ^ 32 by rfl, Nat.testBit_mod_two_pow]
  by_cases h : i < 32 <;> simp [h]

theorem bit_not32_lt (x : Nat) : bit_not32 x < UINT := by
  have h1 : UINT - 1 < 2 ^ 32 := by norm_num [UINT]
  have h2 : x % UINT < 2 ^ 32 := by
    have := Nat.mod_lt x (show 0 < UINT by norm_num [UINT])
    have h3 : UINT = 2 ^ 32 := by norm_num [UINT]
    omega
  have h3 : UINT = 2 ^ 32 := by norm_num [UINT]
  rw [h3] at *
  exact Nat.xor_lt_two_pow h1 h2

theorem testBit_of_lt_UINT (x i : Nat) (hx : x < UINT) (hi : 32 ≤ i) : x.testBit i = false := by
  apply Nat.testBit_lt_two_pow
  calc x < 2 ^ 32 := by have h3 : UINT = 2 ^ 32 := by norm_num [UINT]
                        omega
    _ ≤ 2 ^ i := Nat.pow_le_pow_right (by norm_num) hi

theorem bit_not32_twice (x : Nat) (hx : x < UINT) : bit_not32 (bit_not32 x) = x := by
  apply Nat.eq_of_testBit_eq
  intro i
  rw [testBit_bit_not32, testBit_bit_not32]
  by_cases h : i < 32
  · simp [h]
  · have := testBit_of_lt_UINT x i hx (by omega)
    simp [h, this]

theorem bitsBelow_bit_not32 (x n : Nat) (hn : n ≤ 32) :
    bitsBelow (bit_not32 x) n + bitsBelow x n = n := by
  induction n with
  | zero => rfl
  | succ k ih =>
    have hk := ih (by omega)
    simp only [bitsBelow, testBit_bit_not32]
    have h : k < 32 := by omega
    cases hx : x.testBit k <;> simp [h] <;> omega

theorem complement_peg_count (S : STATE) (hsl : S.slack ≤ 1) (hpc : peg_count_ok S) :
    peg_count_ok (complement S) := by
  have hb := bitsBelow_bit_not32 S.id 32 (le_refl _)
  unfold peg_count_ok at hpc ⊢
  simp only [complement, popcount] at hpc ⊢
  have hs : S.slack = 0 ∨ S.slack = 1 := by omega
  rcases hs with h | h
  · rw [h] at hpc ⊢
    show bitsBelow (bit_not32 S.id) 32 + 1 = (33 + 65536 - S.pins) % 65536
    omega
  · rw [h] at hpc ⊢
    show bitsBelow (bit_not32 S.id) 32 + 0 = (33 + 65536 - S.pins) % 65536
    omega

set_option maxRecDepth 1000000 in
theorem table_reverse : ∀ p, p < 33 → ∀ d, d < 4 → (tableAt (4 * p + d)).allowed ≠ 0 →
    (tableAt (reverse_entry p d)).allowed ≠ 0 ∧
    hole_step (hole_step p d 2).toNat ((d + 2) % 4) 1 = hole_step p d 1 ∧
    hole_step (hole_step p d 2).toNat ((d + 2) % 4) 2 = p ∧
    (tableAt (reverse_entry p d)).mask_id = (tableAt (4 * p + d)).mask_id ∧
    (tableAt (reverse_entry p d)).mask_slack = (tableAt (4 * p + d)).mask_slack := by
  decide

set_option maxRecDepth 1000000 in
theorem table_reverse_needs_destination : ∀ p, p < 33 → ∀ d, d < 4 →
    (tableAt (4 * p + d)).allowed ≠ 0 →
    if p < 32 then
      (tableAt (reverse_entry p d)).next_id &&& (1 <<< p) % UINT = (1 <<< p) % UINT ∧
        (1 <<< p) % UINT ≠ 0
    else (tableAt (reverse_entry p d)).next_slack = 1 := by
  decide

theorem slack_cases (s ms ns : Nat) (hs : s ≤ 1) (hns : ns ≤ 1) (hms : ms ≤ 1)
    (hl : s &&& ns &&& 1 = ns) :
    ((((s ^^^ ms) &&& 1) ^^^ 1) &&& 1 ≤ 1) ∧
    (ms = ns → ((((s ^^^ ms) &&& 1) ^^^ 1) &&& 1) &&& ns &&& 1 = ns) ∧
    ((((((s ^^^ ms) &&& 1) ^^^ 1) &&& 1) ^^^ ms) &&& 1 = (s ^^^ 1) &&& 1) ∧
    (s &&& 1 = 0 → ms = 1 → ((((s ^^^ ms) &&& 1) ^^^ 1) &&& 1) &&& 1 = 0) := by
  have h1 : s = 0 ∨ s = 1 := by omega
  have h2 : ns = 0 ∨ ns = 1 := by omega
  have h3 : ms = 0 ∨ ms = 1 := by omega
  rcases h1 with rfl | rfl <;> rcases h2 with rfl | rfl <;> rcases h3 with rfl | rfl <;>
    first
    | exact absurd hl (by decide)
    | decide

/-- The id part of a jump seen in the complement: with `x` the id, `m` the
mask, `n` the two source bits and `b` the destination bit. -/
theorem complement_id_core (x m n b : Nat) (hm : m = b ||| n)
    (hfree : x &&& b = 0) (hlegal : x &&& n = n) (hx : x < UINT) (hmlt : m < UINT) :
    bit_not32 (x ^^^ m) &&& b = 0 ∧ bit_not32 (x ^^^ m) &&& n = n ∧
    bit_not32 (x ^^^ m) ^^^ m = bit_not32 x := by
  have hb : ∀ i, (x.testBit i && b.testBit i) = false := by
    intro i
    have := congrArg (fun t => Nat.testBit t i) hfree
    simpa [Nat.testBit_and] using this
  have hn : ∀ i, (x.testBit i && n.testBit i) = n.testBit i := by
    intro i
    have := congrArg (fun t => Nat.testBit t i) hlegal
    simpa [Nat.testBit_and] using this
  have hmi : ∀ i, m.testBit i = (b.testBit i || n.testBit i) := by
    intro i; rw [hm, Nat.testBit_or]
  have hhi : ∀ i, ¬ i < 32 → x.testBit i = false ∧ m.testBit i = false := by
    intro i hi
    exact ⟨testBit_of_lt_UINT x i hx (by omega), testBit_of_lt_UINT m i hmlt (by omega)⟩
  refine ⟨?_, ?_, ?_⟩ <;> apply Nat.eq_of_testBit_eq <;> intro i
  · rw [Nat.testBit_and, testBit_bit_not32, Nat.testBit_xor, Nat.zero_testBit]
    have h1 := hb i; have h2 := hmi i
    cases hX : x.testBit i <;> cases hB : b.testBit i <;> cases hM : m.testBit i <;>
      simp_all
  · rw [Nat.testBit_and, testBit_bit_not32, Nat.testBit_xor]
    have h1 := hn i; have h2 := hmi i; have h3 := hb i
    by_cases hi : i < 32
    · cases hX : x.testBit i <;> cases hN : n.testBit i <;> cases hM : m.testBit i <;>
        cases hB : b.testBit i <;> simp_all
    · have h4 := hhi i hi
      cases hN : n.testBit i <;> simp_all
  · rw [Nat.testBit_xor, testBit_bit_not32, testBit_bit_not32, Nat.testBit_xor]
    by_cases hi : i < 32
    · cases hX : x.testBit i <;> cases hM : m.testBit i <;> simp [hi]
    · have h4 := hhi i hi
      simp [hi, h4.2]

set_option maxRecDepth 1000000 in
/-- C21 fails as stated: the first jump of the game (entry 128, into the
centre hole 32 over hole 7 from hole 4) is legal in the start state; its
reverse entry is entry 18 (into hole 4 over hole 7 from hole 32), and in the
complement of the state after the jump that entry is not legal: its
destination hole 4 is occupied and its origin hole 32 is empty. -/
theorem reverse_entry_not_legal_in_complement :
    solve_sub_free start_state 32 ∧ solve_pin_legal start_state (tableAt (4 * 32 + 0)) ∧
    hole_step 32 0 1 = 7 ∧ hole_step 32 0 2 = 4 ∧
    reverse_entry 32 0 = 4 * 4 + 2 ∧ (tableAt (4 * 4 + 2)).allowed ≠ 0 ∧
    hole_step 4 2 1 = 7 ∧ hole_step 4 2 2 = 32 ∧
    (tableAt (4 * 4 + 2)).mask_id = (tableAt (4 * 32 + 0)).mask_id ∧
    (tableAt (4 * 4 + 2)).mask_slack = (tableAt (4 * 32 + 0)).mask_slack ∧
    complement (solve_pin_new_state start_state (tableAt (4 * 32 + 0))) = ⟨0x90, 0, 2⟩ ∧
    ¬ solve_sub_free (complement (solve_pin_new_state start_state (tableAt (4 * 32 + 0)))) 4 ∧
    ¬ solve_pin_legal (complement (solve_pin_new_state start_state (tableAt (4 * 32 + 0))))
      (tableAt (reverse_entry 32 0)) := by
  decide

theorem complement_jump (S : STATE) (hid : S.id < UINT) (hsl : S.slack ≤ 1)
    (hpc : peg_count_ok S) (p d : Nat) (hp : p < 33) (hd : d < 4) (hfree : solve_sub_free S p)
    (hlegal : solve_pin_legal S (tableAt (4 * p + d))) :
    solve_sub_free (complement (solve_pin_new_state S (tableAt (4 * p + d)))) p ∧
    solve_pin_legal (complement (solve_pin_new_state S (tableAt (4 * p + d))))
      (tableAt (4 * p + d)) ∧
    solve_pin_new_state (complement (solve_pin_new_state S (tableAt (4 * p + d))))
      (tableAt (4 * p + d)) = complement S := by
  have hmem := mem_solve_sub_new_states_of S p d hp hd hfree hlegal
  obtain ⟨_, hTp⟩ := well_formed_succ S _ ⟨hid, hsl, hpc⟩ hmem
  have hSp : S.pins ≤ 33 := by
    have hb := bitsBelow_le S.id 32
    unfold peg_count_ok at hpc
    simp only [popcount] at hpc
    omega
  obtain ⟨hallowed, hlid, hlsl⟩ := hlegal
  obtain ⟨hmask, _, _, hns, hcase⟩ := table_shape p hp d hd hallowed
  obtain ⟨_, _, hmlt, _, _, hms⟩ := table_bit_counts p hp d hd hallowed
  rw [solve_sub_free_iff] at hfree
  generalize tableAt (4 * p + d) = e at *
  obtain ⟨x, s, pins⟩ := S
  obtain ⟨al, rk, nid, mid, nsl, msl⟩ := e
  dsimp only at *
  obtain ⟨hc1, hc2, hc3⟩ := complement_id_core x mid nid _ hmask hfree.1 hlid hid hmlt
  obtain ⟨hs1, hs2, hs3, hs4⟩ := slack_cases s msl nsl hsl hns hms hlsl
  simp only [solve_pin_new_state] at hTp
  refine ⟨?_, ⟨hallowed, ?_, ?_⟩, ?_⟩
  · rw [solve_sub_free_iff]
    simp only [complement, solve_pin_new_state]
    refine ⟨hc1, ?_⟩
    by_cases h32 : p < 32
    · rw [if_pos h32]; exact Nat.and_zero _
    · simp only [if_neg h32] at hcase hfree ⊢
      have h0 := hfree.2
      rw [Nat.and_assoc, Nat.and_self] at h0
      rw [hs4 h0 hcase.1]
      rfl
  · simp only [complement, solve_pin_new_state]
    exact hc2
  · simp only [complement, solve_pin_new_state]
    by_cases h32 : p < 32
    · rw [if_pos h32] at hcase
      exact hs2 hcase
    · rw [if_neg h32] at hcase
      rw [hcase.2]
      simp
  · have hpins : ((33 + 65536 - (pins + 65536 - 1) % 65536) % 65536 + 65536 - 1) % 65536 =
        (33 + 65536 - pins) % 65536 := by
      have h1 : (pins + 65536 - 1) % 65536 + 1 = pins := hTp
      omega
    show STATE.mk (bit_not32 (x ^^^ mid) ^^^ mid) ((((s ^^^ msl) &&& 1 ^^^ 1) &&& 1 ^^^ msl) &&& 1)
      (((33 + 65536 - (pins + 65536 - 1) % 65536) % 65536 + 65536 - 1) % 65536) =
      STATE.mk (bit_not32 x) ((s ^^^ 1) &&& 1) ((33 + 65536 - pins) % 65536)
    rw [hc3, hs3, hpins]

theorem reverse_not_legal (S : STATE) (hid : S.id < UINT) (hsl : S.slack ≤ 1)
    (hpc : peg_count_ok S) (p d : Nat) (hp : p < 33) (hd : d < 4) (hfree : solve_sub_free S p)
    (hlegal : solve_pin_legal S (tableAt (4 * p + d))) :
    ¬ solve_pin_legal (complement (solve_pin_new_state S (tableAt (4 * p + d))))
      (tableAt (reverse_entry p d)) := by
  obtain ⟨hf, _, _⟩ := complement_jump S hid hsl hpc p d hp hd hfree hlegal
  have hneed := table_reverse_needs_destination p hp d hd hlegal.1
  rw [solve_sub_free_iff] at hf
  intro hl
  obtain ⟨_, hl1, hl2⟩ := hl
  by_cases h32 : p < 32
  · simp only [if_pos h32] at hneed hf
    have h1 := hf.1
    rw [← hneed.1, ← Nat.and_assoc, hl1, hneed.1] at h1
    exact hneed.2 h1
  · simp only [if_neg h32] at hneed hf
    have h1 := hf.2
    rw [hneed] at hl2
    rw [hl2] at h1
    exact absurd h1 (by decide)

/-- C21 (as amended): complementation reverses a jump.  Every allowed entry
`(q, c)` with jumped hole `a` and origin `b` has an allowed reverse entry with
destination `b`, jumped hole `a`, origin `q` and the same masks.  For a state
`S` (32-bit id, slack 0 or 1, `popcount(id) + slack == pins`) in which entry
`e = (p, d)` is legal, producing `T`: in the complement of `T` the same entry
`e` is legal (hole `p` is empty, the two others occupied) and produces the
complement of `S`; the reverse entry has the same masks, so applied to the
complement of `T` it gives the complement of `S` too, but it is not legal
there.  Complementing keeps `popcount(id) + slack == pins`. -/
theorem complement_reverses_jump (S : STATE) (hid : S.id < UINT) (hsl : S.slack ≤ 1)
    (hpc : peg_count_ok S) (p d : Nat) (hp : p < 33) (hd : d < 4) (hfree : solve_sub_free S p)
    (hlegal : solve_pin_legal S (tableAt (4 * p + d))) :
    (∀ q, q < 33 → ∀ c, c < 4 → (tableAt (4 * q + c)).allowed ≠ 0 →
      (tableAt (reverse_entry q c)).allowed ≠ 0 ∧
      hole_step (hole_step q c 2).toNat ((c + 2) % 4) 1 = hole_step q c 1 ∧
      hole_step (hole_step q c 2).toNat ((c + 2) % 4) 2 = q ∧
      (tableAt (reverse_entry q c)).mask_id = (tableAt (4 * q + c)).mask_id ∧
      (tableAt (reverse_entry q c)).mask_slack = (tableAt (4 * q + c)).mask_slack) ∧
    solve_sub_free (complement (solve_pin_new_state S (tableAt (4 * p + d)))) p ∧
    solve_pin_legal (complement (solve_pin_new_state S (tableAt (4 * p + d))))
      (tableAt (4 * p + d)) ∧
    solve_pin_new_state (complement (solve_pin_new_state S (tableAt (4 * p + d))))
      (tableAt (4 * p + d)) = complement S ∧
    solve_pin_new_state (complement (solve_pin_new_state S (tableAt (4 * p + d))))
      (tableAt (reverse_entry p d)) = complement S ∧
    ¬ solve_pin_legal (complement (solve_pin_new_state S (tableAt (4 * p + d))))
      (tableAt (reverse_entry p d)) ∧
    peg_count_ok (complement S) ∧
    peg_count_ok (complement (solve_pin_new_state S (tableAt (4 * p + d)))) := by
  obtain ⟨h1, h2, h3⟩ := complement_jump S hid hsl hpc p d hp hd hfree hlegal
  obtain ⟨hT, hTs⟩ := new_state_peg_count S hsl hpc p d hp hd hfree hlegal
  obtain ⟨_, _, _, hm1, hm2⟩ := table_reverse p hp d hd hlegal.1
  refine ⟨table_reverse, h1, h2, h3, ?_, reverse_not_legal S hid hsl hpc p d hp hd hfree hlegal,
    complement_peg_count S hsl hpc, complement_peg_count _ hTs hT⟩
  rw [← h3]
  simp only [solve_pin_new_state, hm1, hm2]

set_option maxRecDepth 1000000 in
theorem complement_reverses_jump_witness :
    start_state.id < UINT ∧ start_state.slack ≤ 1 ∧ peg_count_ok start_state ∧
    solve_sub_free start_state 32 ∧ solve_pin_legal start_state (tableAt (4 * 32 + 0)) ∧
    solve_pin_new_state start_state (tableAt (4 * 32 + 0)) = ⟨0xffffff6f, 1, 31⟩ ∧
    complement ⟨0xffffff6f, 1, 31⟩ = ⟨0x90, 0, 2⟩ ∧ complement start_state = ⟨0, 1, 1⟩ ∧
    solve_pin_legal (complement (solve_pin_new_state start_state (tableAt (4 * 32 + 0))))
      (tableAt (4 * 32 + 0)) ∧
    solve_pin_new_state (complement (solve_pin_new_state start_state (tableAt (4 * 32 + 0))))
      (tableAt (4 * 32 + 0)) = complement start_state :=
  ⟨by decide, by decide, by decide, by decide, by decide, by decide, by decide, by decide,
    (complement_reverses_jump start_state (by decide) (by decide) (by decide) 32 0 (by decide)
      (by decide) (by decide) (by decide)).2.2.1,
    (complement_reverses_jump start_state (by decide) (by decide) (by decide) 32 0 (by decide)
      (by decide) (by decide) (by decide)).2.2.2.1⟩

/-! ## Snapshot loops of check_phase2_result and check_phase3_result -/

theorem phase2_copy_loop_at (ms : Nat → STATE) (todo i : Nat) (sol : Nat → STATE) (k : Nat)
    (h : todo ≤ i) :
    phase2_copy_loop ms todo i sol k =
      if i - todo ≤ k ∧ k < i then ms (k + 1) else sol k := by
  induction todo generalizing i sol with
  | zero =>
    rw [phase2_copy_loop, if_neg (by omega)]
  | succ n ih =>
    rw [phase2_copy_loop, ih (i - 1) _ (by omega)]
    by_cases hk : k = i - 1
    · subst hk
      rw [if_neg (by omega), Function.update_same, if_pos (by omega)]
      congr 1; omega
    · rw [Function.update_noteq hk]
      by_cases h1 : i - 1 - n ≤ k ∧ k < i - 1
      · rw [if_pos h1, if_pos (by omega)]
      · rw [if_neg h1, if_neg (by omega)]

theorem phase3_head_loop_at (ms : Nat → STATE) (rot : Int) (todo i : Nat) (sol : Nat → STATE)
    (r0 : STATE) (k : Nat) (h : todo ≤ i) :
    (phase3_head_loop ms rot todo i sol r0).1 k =
        (if i - todo ≤ k ∧ k < i then rotate (ms (k + 1)) rot else sol k) ∧
    (phase3_head_loop ms rot todo i sol r0).2 =
        (if todo = 0 then r0 else rotate (ms (i - todo + 1)) rot) := by
  induction todo generalizing i sol r0 with
  | zero =>
    rw [phase3_head_loop]
    refine ⟨?_, ?_⟩
    · rw [if_neg (by omega)]
    · rw [if_pos rfl]
  | succ n ih =>
    rw [phase3_head_loop]
    obtain ⟨h1, h2⟩ := ih (i - 1)
      (Function.update sol (i - 1) (rotate_state (ms i) rot).2) (rotate_state (ms i) rot).2
      (by omega)
    refine ⟨?_, ?_⟩
    · rw [h1]
      by_cases hk : k = i - 1
      · subst hk
        rw [if_neg (by omega), Function.update_same, if_pos (by omega)]
        show rotate (ms i) rot = rotate (ms (i - 1 + 1)) rot
        congr 2; omega
      · rw [Function.update_noteq hk]
        by_cases h3 : i - 1 - n ≤ k ∧ k < i - 1
        · rw [if_pos h3, if_pos (by omega)]
        · rw [if_neg h3, if_neg (by omega)]
    · rw [h2, if_neg (Nat.succ_ne_zero n)]
      by_cases hn : n = 0
      · subst hn
        rw [if_pos rfl]
        show rotate (ms i) rot = rotate (ms (i - (0 + 1) + 1)) rot
        congr 2; omega
      · rw [if_neg hn]
        congr 2; omega

theorem phase3_tail_loop_at (ms : Nat → STATE) (rot : Int) (todo i : Nat) (sol : Nat → STATE)
    (k : Nat) (h : todo ≤ i) (hi : i ≤ 32) :
    phase3_tail_loop ms rot todo i sol k =
      if 34 - i ≤ k ∧ k < 34 - i + todo then complement (rotate (ms (34 - k)) rot)
      else sol k := by
  induction todo generalizing i sol with
  | zero =>
    rw [phase3_tail_loop, if_neg (by omega)]
  | succ n ih =>
    rw [phase3_tail_loop, ih (i - 1) _ (by omega) (by omega)]
    have hidx : BOARD - i + 1 = 34 - i := by show 33 - i + 1 = 34 - i; omega
    by_cases h1 : 34 - (i - 1) ≤ k ∧ k < 34 - (i - 1) + n
    · rw [if_pos h1, if_pos (by omega)]
    · rw [if_neg h1]
      by_cases hk : k = 34 - i
      · subst hk
        rw [hidx, Function.update_same, if_pos (by omega)]
        show complement (rotate (ms i) rot) = complement (rotate (ms (34 - (34 - i))) rot)
        congr 3; omega
      · rw [hidx, Function.update_noteq hk, if_neg (by omega)]

/-! ## De-rotation of the trailing part -/

theorem rotate_state_count_cases (S : STATE) :
    ((rotate_state S (-1)).1 = 0 ∧ (rotate_state S (-1)).2.id = S.id) ∨
    ((rotate_state S (-1)).1 = 1 ∧ (rotate_state S (-1)).2.id = rotId S.id) ∨
    ((rotate_state S (-1)).1 = 2 ∧ (rotate_state S (-1)).2.id = rotId (rotId S.id)) ∨
    ((rotate_state S (-1)).1 = 3 ∧
      (rotate_state S (-1)).2.id = rotId (rotId (rotId S.id))) := by
  have hT : (rotate_state S (-1)).2 = rotate S (-1) := rfl
  rw [hT, rotate_canon, rotate_state_canon]
  dsimp only
  split_ifs <;> omega

theorem rotate_nat (S : STATE) (k : Nat) (hk : k < 4) :
    rotate S (k : Int) = { S with id := rotId^[k] S.id } := by
  obtain rfl | rfl | rfl | rfl : k = 0 ∨ k = 1 ∨ k = 2 ∨ k = 3 := by omega
  · exact rotate_zero S
  · exact rotate_one S
  · exact rotate_two S
  · exact rotate_three S

theorem rotate_state_count_nat (S : STATE) :
    ∃ r : Nat, r < 4 ∧ (rotate_state S (-1)).1 = (r : Int) ∧
      (rotate_state S (-1)).2.id = rotId^[r] S.id := by
  rcases rotate_state_count_cases S with h | h | h | h
  · exact ⟨0, by omega, h.1, h.2⟩
  · exact ⟨1, by omega, h.1, h.2⟩
  · exact ⟨2, by omega, h.1, h.2⟩
  · exact ⟨3, by omega, h.1, h.2⟩

theorem rotate_at_count (S : STATE) :
    rotate S (rotate_state S (-1)).1 = (rotate_state S (-1)).2 := by
  obtain ⟨r, hr, h1, h2⟩ := rotate_state_count_nat S
  obtain ⟨h3, h4⟩ := canon_slack_pins S
  rw [h1, rotate_nat S r hr]
  generalize (rotate_state S (-1)).2 = c at h2 h3 h4
  obtain ⟨y, sl, p⟩ := c
  dsimp only at h2 h3 h4
  rw [h2, h3, h4]

theorem iterate_rotId_mod (x : Nat) (hx : x < UINT) (n : Nat) :
    rotId^[n] x = rotId^[n % 4] x := by
  conv_lhs => rw [← Nat.mod_add_div n 4]
  rw [Function.iterate_add_apply, iterate_rotId_four_mul x hx]

theorem derotate_id (B C : STATE) (hB : B.id < UINT) (hC : C.id < UINT)
    (hid : (rotate_state B (-1)).2.id = (rotate_state C (-1)).2.id) :
    (rotate B (((rotate_state B (-1)).1 + 4 - (rotate_state C (-1)).1) % 4)).id = C.id := by
  obtain ⟨r, hr, h1, h2⟩ := rotate_state_count_nat B
  obtain ⟨r2, hr2, g1, g2⟩ := rotate_state_count_nat C
  rw [h2, g2] at hid
  have hk : ((r : Int) + 4 - (r2 : Int)) % 4 = (((r + 4 - r2) % 4 : Nat) : Int) := by omega
  rw [h1, g1, hk, rotate_nat B _ (Nat.mod_lt _ (by norm_num))]
  dsimp only
  rw [← iterate_rotId_mod B.id hB]
  have hc : rotId^[4 - r2 + r2] C.id = C.id := by
    rw [show 4 - r2 + r2 = 4 * 1 by omega]
    exact iterate_rotId_four_mul C.id hC 1
  rw [Function.iterate_add_apply, ← hid, ← Function.iterate_add_apply] at hc
  rw [show r + 4 - r2 = 4 - r2 + r by omega]
  exact hc

theorem check_phase2_result_done (g : Globals) (P : STATE)
    (h : (check_phase2_result g P).1 = 1) :
    hash_search g.hash ⟨bit_not32 P.id, (P.slack ^^^ 1) &&& 1, PINS_LEFT⟩ = 0 ∧
    (check_phase2_result g P).2.real_final = ⟨bit_not32 P.id, (P.slack ^^^ 1) &&& 1, PINS_LEFT⟩ ∧
    (check_phase2_result g P).2.rotated_final =
      (rotate_state ⟨bit_not32 P.id, (P.slack ^^^ 1) &&& 1, PINS_LEFT⟩ (-1)).2 ∧
    (check_phase2_result g P).2.solution_move_state =
      phase2_copy_loop g.move_state (PINS_LEFT + 1 - (BOARD - PINS_LEFT)) PINS_LEFT
        g.solution_move_state ∧
    (check_phase2_result g P).2.move_state = g.move_state := by
  unfold check_phase2_result at h ⊢
  dsimp only at h ⊢
  by_cases hs : hash_search g.hash ⟨bit_not32 P.id, (P.slack ^^^ 1) &&& 1, PINS_LEFT⟩ = 0
  · rw [if_pos hs]
    exact ⟨hs, rfl, rfl, rfl, rfl⟩
  · rw [if_neg hs] at h
    exact absurd (show (0 : Int) = 1 from h) (by decide)

/-- The trailing part that `check_phase3_result` stores when the canonical
form of `actual` matches `rotated_final` and `move_state[PINS_LEFT + 1]` is
`actual`: index `k` in `2 .. 12` gets the complement of `move_state[34 - k]`
turned by `(rot + 4 - rot2) % 4`. -/
theorem check_phase3_result_tail (g : Globals) (actual : STATE)
    (hms : g.move_state (PINS_LEFT + 1) = actual)
    (hmatch : (rotate_state actual (-1)).2.id = g.rotated_final.id ∧
      (rotate_state actual (-1)).2.slack &&& 1 = g.rotated_final.slack &&& 1)
    (k : Nat) (hk : 2 ≤ k ∧ k ≤ 12) :
    (check_phase3_result g actual).2.solution_move_state k =
      complement (rotate (g.move_state (34 - k))
        (((rotate_state actual (-1)).1 + 4 - (rotate_state g.real_final (-1)).1) % 4)) := by
  have hhead : ∀ sol r0, (phase3_head_loop g.move_state (rotate_state actual (-1)).1
      (PINS - PINS_LEFT) PINS sol r0).2 = (rotate_state actual (-1)).2 := by
    intro sol r0
    rw [(phase3_head_loop_at g.move_state _ (PINS - PINS_LEFT) PINS sol r0 0 (by decide)).2,
      if_neg (by decide)]
    show rotate (g.move_state (PINS_LEFT + 1)) _ = _
    rw [hms, rotate_at_count]
  unfold check_phase3_result
  dsimp only
  rw [hhead]
  by_cases h1 : (rotate_state actual (-1)).2.id = g.rotated_start.id ∧
      (rotate_state actual (-1)).2.slack &&& 1 = g.rotated_start.slack &&& 1
  · simp only [if_pos h1, if_true, if_pos hmatch]
    rw [phase3_tail_loop_at _ _ _ _ _ _ (by decide) (by decide), if_pos (by
      show 34 - 32 ≤ k ∧ k < 34 - 32 + (32 - 21); omega)]
  · simp only [if_neg h1, if_false, if_pos hmatch]
    rw [phase3_tail_loop_at _ _ _ _ _ _ (by decide) (by decide), if_pos (by
      show 34 - 32 ≤ k ∧ k < 34 - 32 + (32 - 21); omega)]

theorem rotate_slack_pins (s : STATE) (k : Int) :
    (rotate s k).slack = s.slack ∧ (rotate s k).pins = s.pins := by
  unfold rotate rotate_state
  dsimp only
  split_ifs <;> exact ⟨rfl, rfl⟩

theorem complement_phase2_state (P : STATE) (hid : P.id < UINT) (hsl : P.slack ≤ 1)
    (hp : P.pins = BOARD - PINS_LEFT) :
    complement ⟨bit_not32 P.id, (P.slack ^^^ 1) &&& 1, PINS_LEFT⟩ = P := by
  obtain ⟨x, s, p⟩ := P
  dsimp only at hid hsl hp
  subst hp
  simp only [complement]
  rw [bit_not32_twice x hid]
  have hs : s = 0 ∨ s = 1 := by omega
  rcases hs with rfl | rfl <;> rfl

/-- C22: tail de-rotation.  For states `B` and `C` with 32-bit ids whose
canonical forms have the same id, with `r` and `r2` the values `rotate_state`
returns for them, `rotate(B, (r + 4 - r2) % 4)` has the id of `C`.  In
`check_phase3_result`, called on a frontier state `actual` (`PINS_LEFT` pegs,
held in `move_state[PINS_LEFT + 1]` by the caller) whose canonical form
matches `rotated_final`, with `real_final` and `rotated_final` as a successful
`check_phase2_result` on the 12-peg state `P` left them: the rotation by
`(rot + 4 - rot2) % 4` maps `actual` exactly onto `real_final`, and the
snapshot stored at index `BOARD - PINS_LEFT` is the complement of
`real_final`, which is `P`, the state at which the phase-2 path ended. -/
theorem tail_derotation (B C : STATE) (hB : B.id < UINT) (hC : C.id < UINT)
    (hid : (rotate_state B (-1)).2.id = (rotate_state C (-1)).2.id)
    (g0 g : Globals) (P actual : STATE)
    (hP : P.id < UINT ∧ P.slack ≤ 1 ∧ P.pins = BOARD - PINS_LEFT)
    (hdone : (check_phase2_result g0 P).1 = 1)
    (hrf : g.real_final = (check_phase2_result g0 P).2.real_final)
    (hrot : g.rotated_final = (check_phase2_result g0 P).2.rotated_final)
    (ha : actual.id < UINT ∧ actual.slack ≤ 1 ∧ actual.pins = PINS_LEFT)
    (hms : g.move_state (PINS_LEFT + 1) = actual)
    (hmatch : (rotate_state actual (-1)).2.id = g.rotated_final.id ∧
      (rotate_state actual (-1)).2.slack &&& 1 = g.rotated_final.slack &&& 1) :
    (rotate B (((rotate_state B (-1)).1 + 4 - (rotate_state C (-1)).1) % 4)).id = C.id ∧
    rotate actual
        (((rotate_state actual (-1)).1 + 4 - (rotate_state g.real_final (-1)).1) % 4) =
      g.real_final ∧
    (check_phase3_result g actual).2.solution_move_state (BOARD - PINS_LEFT) =
      complement g.real_final ∧
    complement g.real_final = P := by
  obtain ⟨_, hr1, hr2, _, _⟩ := check_phase2_result_done g0 P hdone
  rw [← hrf] at hr1
  rw [← hrot] at hr2
  have hrfid : g.real_final.id < UINT := by rw [hr1]; exact bit_not32_lt _
  have hcanon : g.rotated_final = (rotate_state g.real_final (-1)).2 := by rw [hr2, hr1]
  have hd := derotate_id actual g.real_final ha.1 hrfid (by rw [← hcanon]; exact hmatch.1)
  have hsp := rotate_slack_pins actual
    (((rotate_state actual (-1)).1 + 4 - (rotate_state g.real_final (-1)).1) % 4)
  have hsl : actual.slack = g.real_final.slack := by
    have h1 := hmatch.2
    rw [(canon_slack_pins actual).1, hcanon, (canon_slack_pins g.real_final).1,
      Nat.and_one_is_mod, Nat.and_one_is_mod] at h1
    have h2 : g.real_final.slack ≤ 1 := by
      rw [hr1]; exact Nat.and_le_right
    have := ha.2.1
    omega
  have hpins : actual.pins = g.real_final.pins := by rw [hr1]; exact ha.2.2
  have hmap : rotate actual
      (((rotate_state actual (-1)).1 + 4 - (rotate_state g.real_final (-1)).1) % 4) =
      g.real_final := by
    generalize rotate actual _ = t at hd hsp
    generalize g.real_final = f at hd hsl hpins
    obtain ⟨t1, t2, t3⟩ := t
    obtain ⟨f1, f2, f3⟩ := f
    dsimp only at hd hsp hsl hpins
    rw [hd, hsp.1, hsp.2, hsl, hpins]
  refine ⟨derotate_id B C hB hC hid, hmap, ?_, ?_⟩
  · rw [show BOARD - PINS_LEFT = 12 from rfl,
      check_phase3_result_tail g actual hms hmatch 12 (by omega)]
    show complement (rotate (g.move_state (PINS_LEFT + 1)) _) = _
    rw [hms, hmap]
  · rw [hr1]
    exact complement_phase2_state P hP.1 hP.2.1 hP.2.2

set_option maxRecDepth 1000000 in
theorem tail_derotation_witness :
    (rotate_state ⟨0xaf7792ab, 1, 21⟩ (-1)).1 = 0 ∧
    (rotate_state ⟨0x7792abaf, 1, 21⟩ (-1)).1 = 3 ∧
    (check_phase2_result globals_phase2_hit ⟨0x886d5450, 0, 12⟩).1 = 1 ∧
    rotate ⟨0xaf7792ab, 1, 21⟩ 1 = ⟨0x7792abaf, 1, 21⟩ ∧
    (rotate (⟨0xaf7792ab, 1, 21⟩ : STATE)
      (((rotate_state ⟨0xaf7792ab, 1, 21⟩ (-1)).1 + 4 -
        (rotate_state ⟨0x7792abaf, 1, 21⟩ (-1)).1) % 4)).id = 0x7792abaf ∧
    (check_phase3_result globals_tail_match ⟨0xaf7792ab, 1, 21⟩).2.solution_move_state
      (BOARD - PINS_LEFT) = complement globals_tail_match.real_final ∧
    complement globals_tail_match.real_final = ⟨0x886d5450, 0, 12⟩ :=
  ⟨by decide, by decide, by decide, by decide,
    (tail_derotation ⟨0xaf7792ab, 1, 21⟩ ⟨0x7792abaf, 1, 21⟩ (by decide) (by decide)
      (by decide) globals_phase2_hit globals_tail_match ⟨0x886d5450, 0, 12⟩
      ⟨0xaf7792ab, 1, 21⟩ (by decide) (by decide) (by decide) (by decide)
      (by decide) (by decide) (by decide)).1,
    (tail_derotation ⟨0xaf7792ab, 1, 21⟩ ⟨0x7792abaf, 1, 21⟩ (by decide) (by decide)
      (by decide) globals_phase2_hit globals_tail_match ⟨0x886d5450, 0, 12⟩
      ⟨0xaf7792ab, 1, 21⟩ (by decide) (by decide) (by decide) (by decide)
      (by decide) (by decide) (by decide)).2.2.1,
    (tail_derotation ⟨0xaf7792ab, 1, 21⟩ ⟨0x7792abaf, 1, 21⟩ (by decide) (by decide)
      (by decide) globals_phase2_hit globals_tail_match ⟨0x886d5450, 0, 12⟩
      ⟨0xaf7792ab, 1, 21⟩ (by decide) (by decide) (by decide) (by decide)
      (by decide) (by decide) (by decide)).2.2.2⟩

/-! ## The middle part stored by check_phase2_result -/

/-- What a successful `check_phase2_result` stores: the indices 11 to 20 of
`solution_move_state` receive `move_state[12 .. 21]`, every other index is
left as it was. -/
theorem check_phase2_result_snapshots (g : Globals) (P : STATE)
    (h : (check_phase2_result g P).1 = 1) (k : Nat) :
    (check_phase2_result g P).2.solution_move_state k =
      if 11 ≤ k ∧ k ≤ 20 then g.move_state (k + 1) else g.solution_move_state k := by
  obtain ⟨_, _, _, hs, _⟩ := check_phase2_result_done g P h
  rw [hs, phase2_copy_loop_at _ _ _ _ _ (by decide)]
  by_cases hk : 11 ≤ k ∧ k ≤ 20
  · rw [if_pos hk, if_pos (by show 21 - (21 + 1 - (33 - 21)) ≤ k ∧ k < 21; omega)]
  · rw [if_neg hk, if_neg (by show ¬ (21 - (21 + 1 - (33 - 21)) ≤ k ∧ k < 21); omega)]

set_option maxRecDepth 1000000 in
/-- C23 at a successful `check_phase2_result`: the phase-2 descent from the
frontier entry `{0xe73f37b4, 0, 21}` by the entries 27, 56, 89, 40, 94, 106,
109, 117, 27 ends at `{0x886d5450, 0, 12}`, whose complement is in the table.
The snapshots at the indices 20 down to 12 are the states of that path, with
`pins` equal to the index; the loop then runs once more and stores
`move_state[12]`, which the descent never wrote, at index 11: a snapshot with
`pins == 0` that is no state of the path. -/
theorem middle_segment_extra_snapshot :
    play ⟨0xe73f37b4, 0, 21⟩ [27, 56, 89, 40, 94, 106, 109, 117, 27] =
      some ⟨0x886d5450, 0, 12⟩ ∧
    (check_phase2_result globals_phase2_hit ⟨0x886d5450, 0, 12⟩).1 = 1 ∧
    (∀ k, 12 ≤ k → k ≤ 20 →
      some ((check_phase2_result globals_phase2_hit ⟨0x886d5450, 0, 12⟩).2.solution_move_state k)
        = play ⟨0xe73f37b4, 0, 21⟩ ([27, 56, 89, 40, 94, 106, 109, 117, 27].take (21 - k)) ∧
      ((check_phase2_result globals_phase2_hit
        ⟨0x886d5450, 0, 12⟩).2.solution_move_state k).pins = k) ∧
    (check_phase2_result globals_phase2_hit ⟨0x886d5450, 0, 12⟩).2.solution_move_state 11 =
      globals_phase2_hit.move_state 12 ∧
    (check_phase2_result globals_phase2_hit ⟨0x886d5450, 0, 12⟩).2.solution_move_state 11 =
      ⟨0, 0, 0⟩ ∧
    ((check_phase2_result globals_phase2_hit
      ⟨0x886d5450, 0, 12⟩).2.solution_move_state 11).pins ≠ 11 := by
  have hd : (check_phase2_result globals_phase2_hit ⟨0x886d5450, 0, 12⟩).1 = 1 := by decide
  have hs := check_phase2_result_snapshots globals_phase2_hit ⟨0x886d5450, 0, 12⟩ hd
  refine ⟨by decide, hd, ?_, ?_, ?_, ?_⟩
  · intro k h1 h2
    rw [hs k, if_pos (by omega)]
    have hk : k = 12 ∨ k = 13 ∨ k = 14 ∨ k = 15 ∨ k = 16 ∨ k = 17 ∨ k = 18 ∨ k = 19 ∨
        k = 20 := by omega
    rcases hk with rfl | rfl | rfl | rfl | rfl | rfl | rfl | rfl | rfl <;> decide
  · rw [hs 11, if_pos (by omega)]
  · rw [hs 11, if_pos (by omega)]; rfl
  · rw [hs 11, if_pos (by omega)]; decide

/-! ## The hash table: Full on a table built by hash_add -/

set_option maxRecDepth 1000000 in
theorem filler_grid : ∀ a, a < 64 → ∀ b, b < 64 →
    (rotate_state (filler (DOUBLE_HASH 0xfffaef0e (64 * a + b))) (-1)).2.id =
      fill_id (DOUBLE_HASH 0xfffaef0e (64 * a + b)) ∧
    fill_id (DOUBLE_HASH 0xfffaef0e (64 * a + b)) ≠ 0 ∧
    fill_id (DOUBLE_HASH 0xfffaef0e (64 * a + b)) ≠ 0xfffaef0e ∧
    fill_id (DOUBLE_HASH 0xfffaef0e (64 * a + b)) < UINT ∧
    DOUBLE_HASH (fill_id (DOUBLE_HASH 0xfffaef0e (64 * a + b))) 0 =
      DOUBLE_HASH 0xfffaef0e (64 * a + b) := by
  decide

theorem filler_ok (e : Nat) (he : e ∈ probe_slots) :
    (rotate_state (filler e) (-1)).2 = filler e ∧ (filler e).id ≠ 0 ∧
    (filler e).id ≠ 0xfffaef0e ∧ well_formed (filler e) ∧ DOUBLE_HASH (filler e).id 0 = e := by
  simp only [probe_slots, List.mem_map, List.mem_range] at he
  obtain ⟨j, hj, rfl⟩ := he
  have h := filler_grid (j / 64) (by omega) (j % 64) (by omega)
  rw [show 64 * (j / 64) + j % 64 = j by omega] at h
  obtain ⟨h1, h2, h3, h4, h5⟩ := h
  obtain ⟨hs, hp⟩ := canon_slack_pins (filler (DOUBLE_HASH 0xfffaef0e j))
  have hwf : well_formed (filler (DOUBLE_HASH 0xfffaef0e j)) :=
    ⟨h4, Nat.zero_le _, Nat.add_zero _⟩
  refine ⟨?_, h2, h3, hwf, h5⟩
  have hf : (filler (DOUBLE_HASH 0xfffaef0e j)).id = fill_id (DOUBLE_HASH 0xfffaef0e j) := rfl
  rw [← hf] at h1
  generalize (rotate_state (filler (DOUBLE_HASH 0xfffaef0e j)) (-1)).2 = c at h1 hs hp
  generalize filler (DOUBLE_HASH 0xfffaef0e j) = f at h1 hs hp
  obtain ⟨c1, c2, c3⟩ := c
  obtain ⟨f1, f2, f3⟩ := f
  dsimp only at h1 hs hp
  rw [h1, hs, hp]

/-- The table after `hash_add` of the fillers of the slots `l`, started on
a table that holds the fillers of the slots `l0` and nothing else: it holds
the fillers of `l0 ++ l` and nothing else. -/
theorem hash_add_all_fillers (l l0 : List Nat) (hl : ∀ e ∈ l, e ∈ probe_slots) :
    hash_add_all (fun e => if e ∈ l0 then filler e else ⟨0, 0, 0⟩) (l.map filler) =
      fun e => if e ∈ l0 ++ l then filler e else ⟨0, 0, 0⟩ := by
  induction l generalizing l0 with
  | nil => simp [hash_add_all]
  | cons x xs ih =>
    obtain ⟨hc, hne, _, _, hslot⟩ := filler_ok x (hl x (List.mem_cons_self _ _))
    have hstep : (hash_add (fun e => if e ∈ l0 then filler e else ⟨0, 0, 0⟩) (filler x)).2 =
        fun e => if e ∈ l0 ++ [x] then filler e else ⟨0, 0, 0⟩ := by
      unfold hash_add
      rw [hc]
      by_cases hx : x ∈ l0
      · rw [hash_add_loop_match (filler x) _ 1499682 0
          (by rw [hslot, if_pos hx]; exact hne)
          (by rw [hslot, if_pos hx]; exact ⟨rfl, rfl⟩)]
        funext e
        by_cases he : e ∈ l0
        · simp [he]
        · have hex : e ≠ x := fun h => he (h ▸ hx)
          simp [he, hex]
      · rw [hash_add_loop_empty (filler x) _ 1499682 0
          (by rw [hslot, if_neg hx])]
        funext e
        dsimp only
        rw [hslot]
        by_cases hex : e = x
        · subst hex
          simp
        · rw [Function.update_noteq hex]
          simp [hex]
    rw [List.map_cons, hash_add_all, hstep,
      ih (l0 ++ [x]) (fun e he => hl e (List.mem_cons_of_mem _ he))]
    funext e
    simp

theorem hash_add_all_probe_fillers :
    hash_add_all hash_init probe_fillers =
      fun e => if e ∈ probe_slots then filler e else ⟨0, 0, 0⟩ := by
  have h := hash_add_all_fillers probe_slots [] (fun e he => he)
  have h0 : (fun e => if e ∈ ([] : List Nat) then filler e else (⟨0, 0, 0⟩ : STATE)) =
      hash_init := by
    funext e
    rw [if_neg (List.not_mem_nil e)]
    rfl
  rw [h0] at h
  rw [probe_fillers, h, List.nil_append]

theorem probe_slot_mem (i : Nat) : DOUBLE_HASH 0xfffaef0e i ∈ probe_slots := by
  rw [DOUBLE_HASH_period]
  simp only [probe_slots, List.mem_map, List.mem_range]
  exact ⟨i % 4096, Nat.mod_lt _ (by norm_num), rfl⟩

theorem zero_not_probe_slot : 0 ∉ probe_slots := by
  intro h
  simp only [probe_slots, List.mem_map, List.mem_range] at h
  obtain ⟨j, _, hj⟩ := h
  exact DOUBLE_HASH_misses_slot_zero j hj

/-- C11, evaluated on the code.  Started on the empty table, `hash_add` is
called on the 4096 well-formed states `probe_fillers`; this fills the slots of
the probes `i = 0 .. 4095` of the id `0xFFFAEF0E` and no other slot.  On that
table `hash_add` of the canonical 24-peg state with id `0xFFFAEF0E` returns
Full (-1) and leaves the table as it is, although slot 0 of
`hash[0..PRIME_1-1]` is empty (as is every slot outside those 4096): for this
id `HASH_2` is `2 ^ 20`, the product `i * HASH_2(id)` wraps modulo `2 ^ 32`,
and the probes only ever visit those slots. -/
theorem hash_add_full_with_empty_slot :
    probe_fillers.length = 4096 ∧ (∀ x ∈ probe_fillers, well_formed x) ∧
    (rotate_state ⟨0xfffaef0e, 0, 24⟩ (-1)).2 = ⟨0xfffaef0e, 0, 24⟩ ∧
    well_formed ⟨0xfffaef0e, 0, 24⟩ ∧
    hash_add (hash_add_all hash_init probe_fillers) ⟨0xfffaef0e, 0, 24⟩ =
      (-1, hash_add_all hash_init probe_fillers) ∧
    0 < HASH_SIZ ∧ (hash_add_all hash_init probe_fillers 0).id = 0 ∧
    (∀ e, (hash_add_all hash_init probe_fillers e).id ≠ 0 → e ∈ probe_slots) ∧
    probe_slots.length = 4096 := by
  have hc : (rotate_state ⟨0xfffaef0e, 0, 24⟩ (-1)).2 = ⟨0xfffaef0e, 0, 24⟩ := by decide
  refine ⟨by rw [probe_fillers, List.length_map, probe_slots, List.length_map, List.length_range],
    ?_, hc, ⟨by decide, by decide, by decide⟩, ?_, by decide, ?_, ?_,
    by rw [probe_slots, List.length_map, List.length_range]⟩
  · intro x hx
    simp only [probe_fillers, List.mem_map] at hx
    obtain ⟨e, he, rfl⟩ := hx
    exact (filler_ok e he).2.2.2.1
  · rw [hash_add, hc]
    apply hash_add_loop_full
    intro i
    have hm := probe_slot_mem i
    obtain ⟨_, h1, h2, _, _⟩ := filler_ok _ hm
    rw [hash_add_all_probe_fillers]
    dsimp only
    rw [if_pos hm]
    exact ⟨h1, h2⟩
  · rw [hash_add_all_probe_fillers]
    dsimp only
    rw [if_neg zero_not_probe_slot]
  · intro e he
    rw [hash_add_all_probe_fillers] at he
    dsimp only at he
    by_contra hn
    rw [if_neg hn] at he
    exact he rfl

end Solitaire
